import Mathlib

/-!
# Hanging-node constraints of the EBM3 metal (resistance) region

A shallow embedding of `MetalSimulationRegion::EBM3_Function_Hanging_Node` and
`MetalSimulationRegion::EBM3_Jacobian_Hanging_Node`
(`src/solver/ebm3/ebm3_resistance_hanging_node.cc`) together with the `Side` / `SideEdge`
proxies of `include/geom/side.h` that the two routines read their corner nodes through, and of
the inline member functions of `HallSolver` (`include/solver/hall/hall.h`): the Newton damping
hook and the tables of unknowns per node and per boundary condition; and of the string output
of the compatibility class `OStringStream` (`include/base/o_string_stream.h`).

Conventions of the embedding

* `PetscScalar` is the field of rationals: every formula of the two routines is evaluated
  exactly.
* Offsets and matrix/vector rows are natural numbers (the sums `global_offset()+offset` are
  taken without wrap-around).
* The solution array `PetscScalar *x` is a function from indices to scalars.
* A call either returns (`Except.ok`) or stops with a `Fault`.
* The three parallel buffers `src_row` / `dst_row` / `alpha_buffer` are pushed in lockstep; entry
  `k` of the three is the `k`-th `Transfer`.  In the same way `insert_index` / `insert_buffer`
  is a list of pairs and `row_index` / `cols_index` / `ad_values` a list of `JacobianRow`s.
-/

namespace Genius

/-- The ways in which a call stops without returning. -/
inductive Fault where
  /-- The statement `genius_error()` was reached. -/
  | genius_error
  /-- A `genius_assert(..)` or an `assert(..)` did not hold. -/
  | assertion
  /-- A NULL pointer was dereferenced. -/
  | null_dereference
deriving DecidableEq, Repr

abbrev PetscScalar := ℚ

/-- The PETSc insert mode reported back through `add_value_flag`. -/
inductive InsertMode where
  | NOT_SET_VALUES
  | INSERT_VALUES
  | ADD_VALUES
deriving DecidableEq, Repr

/-- The two solution variables whose offsets the hanging-node routines ask for. -/
inductive SolutionVariable where
  | POTENTIAL
  | TEMPERATURE
deriving DecidableEq, Repr

/-- A mesh node (`const Node *`), identified by a number. -/
abbrev Node := ℕ

/-- The part of an `FVM_Node` that the hanging-node routines read:
`root_node()->processor_id()`, `global_offset()` and `local_offset()`. -/
structure FVM_Node where
  processor_id : ℕ
  global_offset : ℕ
  local_offset : ℕ
deriving DecidableEq, Repr

/-- A `Point` of the mesh: three coordinates. -/
abbrev Point := ℚ × ℚ × ℚ

/-- The part of an `Elem` that a side or edge proxy reads: the parent's accessors `get_node`
(pointer to a local node), `node` (global id of a local node) and `point` (location of a local
node), the static tables `side_nodes_map` / `edge_nodes_map`, and the `n_nodes()` of the side
type (resp. edge type) that `build_side(k)` (resp. `build_edge(k)`) instantiates the proxy
with. -/
structure Elem where
  get_node : ℕ → Node
  node : ℕ → ℕ
  point : ℕ → Point
  side_nodes_map : ℕ → ℕ → ℕ
  edge_nodes_map : ℕ → ℕ → ℕ
  side_n_nodes : ℕ → ℕ
  edge_n_nodes : ℕ → ℕ

/-- The proxy `Side<SideType, ParentType>` of `side.h`. -/
structure Side where
  parent : Elem
  side_number : ℕ
  n_nodes : ℕ

/-- The proxy `SideEdge<EdgeType, ParentType>` of `side.h`. -/
structure SideEdge where
  parent : Elem
  edge_number : ℕ
  n_nodes : ℕ

/-- `Side::get_node(i)`: `assert (i < n_nodes())`, then the parent's node
`side_nodes_map[_side_number][i]`. -/
def Side.get_node (s : Side) (i : ℕ) : Except Fault Node :=
  if i < s.n_nodes then .ok (s.parent.get_node (s.parent.side_nodes_map s.side_number i))
  else .error Fault.assertion

/-- `SideEdge::get_node(i)`: `assert (i < n_nodes())`, then the parent's node
`edge_nodes_map[_edge_number][i]`. -/
def SideEdge.get_node (s : SideEdge) (i : ℕ) : Except Fault Node :=
  if i < s.n_nodes then .ok (s.parent.get_node (s.parent.edge_nodes_map s.edge_number i))
  else .error Fault.assertion

/-- `Side::node(i)`: `assert (i < n_nodes())`, then the parent's global node id at
`side_nodes_map[_side_number][i]`. -/
def Side.node (s : Side) (i : ℕ) : Except Fault ℕ :=
  if i < s.n_nodes then .ok (s.parent.node (s.parent.side_nodes_map s.side_number i))
  else .error Fault.assertion

/-- `Side::point(i)`, in its `const` and its writeable form alike: `assert (i < n_nodes())`,
then the parent's point at `side_nodes_map[_side_number][i]`. -/
def Side.point (s : Side) (i : ℕ) : Except Fault Point :=
  if i < s.n_nodes then .ok (s.parent.point (s.parent.side_nodes_map s.side_number i))
  else .error Fault.assertion

/-- `SideEdge::node(i)`: `assert (i < n_nodes())`, then the parent's global node id at
`edge_nodes_map[_edge_number][i]`. -/
def SideEdge.node (s : SideEdge) (i : ℕ) : Except Fault ℕ :=
  if i < s.n_nodes then .ok (s.parent.node (s.parent.edge_nodes_map s.edge_number i))
  else .error Fault.assertion

/-- `SideEdge::point(i)`, in its `const` and its writeable form alike:
`assert (i < n_nodes())`, then the parent's point at `edge_nodes_map[_edge_number][i]`. -/
def SideEdge.point (s : SideEdge) (i : ℕ) : Except Fault Point :=
  if i < s.n_nodes then .ok (s.parent.point (s.parent.edge_nodes_map s.edge_number i))
  else .error Fault.assertion

/-- `elem->build_side(side_index)`. -/
def Elem.build_side (e : Elem) (side_index : ℕ) : Side :=
  ⟨e, side_index, e.side_n_nodes side_index⟩

/-- `elem->build_edge(edge_index)`. -/
def Elem.build_edge (e : Elem) (edge_index : ℕ) : SideEdge :=
  ⟨e, edge_index, e.edge_n_nodes edge_index⟩

/-- One entry of a hanging-node map: `(fvm_node, (elem, side_or_edge_index))`. -/
abbrev HangingNode := FVM_Node × Elem × ℕ

/-- What the two routines consult of the region: the two hanging-node flags, the variable
offsets, the lattice-temperature switch of the advanced model, the two hanging-node maps in
iteration order, and the lookup `region_fvm_node` (NULL is `none`). -/
structure MetalSimulationRegion where
  has_2d_hanging_node : Bool
  has_3d_hanging_node : Bool
  ebm_variable_offset : SolutionVariable → ℕ
  enable_Tl : Bool
  hanging_node_on_elem_side : List HangingNode
  hanging_node_on_elem_edge : List HangingNode
  region_fvm_node : Node → Option FVM_Node

/-- One flux-transfer record: entry `k` of `src_row`, `dst_row` and `alpha_buffer`. -/
structure Transfer where
  src_row : ℕ
  dst_row : ℕ
  alpha : PetscScalar
deriving DecidableEq, Repr

/-- Modelled from the spec: the class `adtl::AutoDScalar` (not among the sources), a
forward-mode dual number carrying a value and its `numdir` partial derivatives. -/
structure AutoDScalar where
  val : PetscScalar
  adval : List PetscScalar
deriving DecidableEq, Repr

/-- The value `adtl::AutoDScalar::numdir = 3` set by the Jacobian routine. -/
def numdir : ℕ := 3

/-- Modelled from the spec: conversion `AutoDScalar V = x[..]`, a constant with zero
derivatives. -/
def AutoDScalar.ofScalar (v : PetscScalar) : AutoDScalar :=
  ⟨v, List.replicate numdir 0⟩

/-- Modelled from the spec: `setADValue(i, v)` stores `v` as derivative in direction `i`. -/
def AutoDScalar.setADValue (a : AutoDScalar) (i : ℕ) (v : PetscScalar) : AutoDScalar :=
  ⟨a.val, a.adval.set i v⟩

/-- Modelled from the spec: `getADValue()`, the derivative components. -/
def AutoDScalar.getADValue (a : AutoDScalar) : List PetscScalar := a.adval

/-- Modelled from the spec: sum of dual numbers. -/
def AutoDScalar.add (a b : AutoDScalar) : AutoDScalar :=
  ⟨a.val + b.val, List.zipWith (· + ·) a.adval b.adval⟩

/-- Modelled from the spec: difference of dual numbers. -/
def AutoDScalar.sub (a b : AutoDScalar) : AutoDScalar :=
  ⟨a.val - b.val, List.zipWith (· - ·) a.adval b.adval⟩

/-- Modelled from the spec: product of a scalar and a dual number. -/
def AutoDScalar.smul (c : PetscScalar) (a : AutoDScalar) : AutoDScalar :=
  ⟨c * a.val, a.adval.map (c * ·)⟩

/-- One buffered Jacobian row: entry `k` of `row_index`, `cols_index` and `ad_values`. -/
structure JacobianRow where
  row : ℕ
  cols : List ℕ
  ad_value : AutoDScalar
deriving DecidableEq, Repr

/-- The residual vector `Vec f`, by global row. -/
abbrev Vec := ℕ → PetscScalar

/-- The Jacobian matrix `Mat *jac`, by global row and column. -/
abbrev Mat := ℕ → ℕ → PetscScalar

/-- The result of `region_fvm_node(node)` used through `->` without a check: NULL cannot be
dereferenced. -/
def deref (p : Option FVM_Node) : Except Fault FVM_Node :=
  match p with
  | some q => .ok q
  | none => .error Fault.null_dereference

/-- Modelled from the spec: the macro `genius_assert(p != NULL)` (not among the sources), a
fatal abort with a diagnostic when the lookup found no node. -/
def genius_assert_not_null (p : Option FVM_Node) : Except Fault Unit :=
  match p with
  | some _ => .ok ()
  | none => .error Fault.assertion

/-- The records pushed for one corner node: the potential row always, the lattice-temperature
row when `enable_Tl()` (lines 75-85, 198-208, 299-309, 441-451). -/
def corner_transfers (R : MetalSimulationRegion) (fvm_node corner : FVM_Node) (n_node : ℕ) :
    List Transfer :=
  ⟨fvm_node.global_offset + R.ebm_variable_offset .POTENTIAL,
    corner.global_offset + R.ebm_variable_offset .POTENTIAL, 1 / (n_node : ℚ)⟩ ::
  (if R.enable_Tl then
    [⟨fvm_node.global_offset + R.ebm_variable_offset .TEMPERATURE,
      corner.global_offset + R.ebm_variable_offset .TEMPERATURE, 1 / (n_node : ℚ)⟩]
   else [])

/-- The loop `for(n=0; n < n_side_node; n++)` over the corner nodes of a side (lines 69-86 of
the residual routine, 293-310 of the Jacobian routine): iterations `n`, `n+1`, .. with `rem`
iterations left.  Returns the nodes pushed to `side_fvm_nodes` and the transfer records pushed
to the buffers. -/
def side_loop (R : MetalSimulationRegion) (fvm_node : FVM_Node) (side : Side) (n_side_node : ℕ) :
    ℕ → ℕ → Except Fault (List FVM_Node × List Transfer)
  | 0, _ => .ok ([], [])
  | rem + 1, n => do
    let side_node ← side.get_node n
    let side_fvm_node ← deref (R.region_fvm_node side_node)
    let rest ← side_loop R fvm_node side n_side_node rem (n + 1)
    .ok (side_fvm_node :: rest.1, corner_transfers R fvm_node side_fvm_node n_side_node ++ rest.2)

/-- The loop `for(n=0; n < n_edge_node; n++)` of the residual routine over the nodes of an
edge (lines 190-209), with its `genius_assert(edge_fvm_node!=NULL)`. -/
def Function_edge_loop (R : MetalSimulationRegion) (fvm_node : FVM_Node) (edge : SideEdge)
    (n_edge_node : ℕ) : ℕ → ℕ → Except Fault (List FVM_Node × List Transfer)
  | 0, _ => .ok ([], [])
  | rem + 1, n => do
    let edge_node ← edge.get_node n
    genius_assert_not_null (R.region_fvm_node edge_node)
    let edge_fvm_node ← deref (R.region_fvm_node edge_node)
    let rest ← Function_edge_loop R fvm_node edge n_edge_node rem (n + 1)
    .ok (edge_fvm_node :: rest.1, corner_transfers R fvm_node edge_fvm_node n_edge_node ++ rest.2)

/-- The loop `for(n=0; n < n_edge_node; n++)` of the Jacobian routine over the nodes of an
edge (lines 435-452); it has no assertion on the lookup. -/
def Jacobian_edge_loop (R : MetalSimulationRegion) (fvm_node : FVM_Node) (edge : SideEdge)
    (n_edge_node : ℕ) : ℕ → ℕ → Except Fault (List FVM_Node × List Transfer)
  | 0, _ => .ok ([], [])
  | rem + 1, n => do
    let edge_node ← edge.get_node n
    let edge_fvm_node ← deref (R.region_fvm_node edge_node)
    let rest ← Jacobian_edge_loop R fvm_node edge n_edge_node rem (n + 1)
    .ok (edge_fvm_node :: rest.1, corner_transfers R fvm_node edge_fvm_node n_edge_node ++ rest.2)

/-- The choice of `interpolation_p1`, `interpolation_p2` among `side_fvm_nodes`
(lines 94-121 and 321-348). -/
def interpolation_points (x : ℕ → PetscScalar) :
    List FVM_Node → Except Fault (FVM_Node × FVM_Node)
  | [s0, s1] => .ok (s0, s1)
  | [s0, s1, s2, s3] =>
    let dv1 := |x s0.local_offset - x s2.local_offset|
    let dv2 := |x s1.local_offset - x s3.local_offset|
    if dv1 < dv2 then .ok (s0, s2) else .ok (s1, s3)
  | _ => .error Fault.genius_error

/-- Lines 61-121 (residual) and 285-348 (Jacobian) for one owned side-center hanging node:
the transfer records of its side and its two interpolation points. -/
def side_interpolation (R : MetalSimulationRegion) (x : ℕ → PetscScalar) (hn : HangingNode) :
    Except Fault (List Transfer × FVM_Node × FVM_Node) := do
  let side := hn.2.1.build_side hn.2.2
  let n_side_node := side.n_nodes
  let r ← side_loop R hn.1 side n_side_node n_side_node 0
  let p ← interpolation_points x r.1
  .ok (r.2, p.1, p.2)

/-- The nodes `edge_fvm_nodes[0]`, `edge_fvm_nodes[1]` read after the edge loop. -/
def edge_points : List FVM_Node → Except Fault (FVM_Node × FVM_Node)
  | e0 :: e1 :: _ => .ok (e0, e1)
  | _ => .error Fault.null_dereference

/-- Lines 182-209 of the residual routine for one owned edge-center hanging node. -/
def Function_edge_interpolation (R : MetalSimulationRegion) (hn : HangingNode) :
    Except Fault (List Transfer × FVM_Node × FVM_Node) := do
  let edge := hn.2.1.build_edge hn.2.2
  let n_edge_node := 2
  let r ← Function_edge_loop R hn.1 edge n_edge_node n_edge_node 0
  let p ← edge_points r.1
  .ok (r.2, p.1, p.2)

/-- Lines 427-452 of the Jacobian routine for one owned edge-center hanging node. -/
def Jacobian_edge_interpolation (R : MetalSimulationRegion) (hn : HangingNode) :
    Except Fault (List Transfer × FVM_Node × FVM_Node) := do
  let edge := hn.2.1.build_edge hn.2.2
  let n_edge_node := 2
  let r ← Jacobian_edge_loop R hn.1 edge n_edge_node n_edge_node 0
  let p ← edge_points r.1
  .ok (r.2, p.1, p.2)

/-- The pairs pushed to `insert_index` / `insert_buffer` for one hanging node with
interpolation points `p1`, `p2` (lines 124-141 and 212-229). -/
def Function_constraint (R : MetalSimulationRegion) (x : ℕ → PetscScalar)
    (fvm_node p1 p2 : FVM_Node) : List (ℕ × PetscScalar) :=
  let node_psi_offset := R.ebm_variable_offset .POTENTIAL
  let node_Tl_offset := R.ebm_variable_offset .TEMPERATURE
  let V := x (fvm_node.local_offset + node_psi_offset)
  let V1 := x (p1.local_offset + node_psi_offset)
  let V2 := x (p2.local_offset + node_psi_offset)
  (fvm_node.global_offset + node_psi_offset, V - (1 / 2 : ℚ) * (V1 + V2)) ::
  (if R.enable_Tl then
    let T := x (fvm_node.local_offset + node_Tl_offset)
    let T1 := x (p1.local_offset + node_Tl_offset)
    let T2 := x (p2.local_offset + node_Tl_offset)
    [(fvm_node.global_offset + node_Tl_offset, T - (1 / 2 : ℚ) * (T1 + T2))]
   else [])

/-- The dual number `V - 0.5*(V1+V2)` with `V`, `V1`, `V2` seeded in directions 0, 1, 2
(lines 353-361, 370-378, 462-470, 478-486). -/
def ad_constraint (v v1 v2 : PetscScalar) : AutoDScalar :=
  let V := (AutoDScalar.ofScalar v).setADValue 0 1
  let V1 := (AutoDScalar.ofScalar v1).setADValue 1 1
  let V2 := (AutoDScalar.ofScalar v2).setADValue 2 1
  V.sub (AutoDScalar.smul (1 / 2) (V1.add V2))

/-- The rows pushed to `row_index` / `cols_index` / `ad_values` for one hanging node with
interpolation points `p1`, `p2` (lines 350-382 and 459-490). -/
def Jacobian_constraint (R : MetalSimulationRegion) (x : ℕ → PetscScalar)
    (fvm_node p1 p2 : FVM_Node) : List JacobianRow :=
  let node_psi_offset := R.ebm_variable_offset .POTENTIAL
  let node_Tl_offset := R.ebm_variable_offset .TEMPERATURE
  let ff1 := ad_constraint (x (fvm_node.local_offset + node_psi_offset))
    (x (p1.local_offset + node_psi_offset)) (x (p2.local_offset + node_psi_offset))
  ⟨fvm_node.global_offset + node_psi_offset,
    [fvm_node.global_offset + node_psi_offset, p1.global_offset + node_psi_offset,
      p2.global_offset + node_psi_offset], ff1⟩ ::
  (if R.enable_Tl then
    let ff2 := ad_constraint (x (fvm_node.local_offset + node_Tl_offset))
      (x (p1.local_offset + node_Tl_offset)) (x (p2.local_offset + node_Tl_offset))
    [⟨fvm_node.global_offset + node_Tl_offset,
      [fvm_node.global_offset + node_Tl_offset, p1.global_offset + node_Tl_offset,
        p2.global_offset + node_Tl_offset], ff2⟩]
   else [])

/-- Body of the residual side loop for one owned hanging node (lines 58-141). -/
def Function_side_node (R : MetalSimulationRegion) (x : ℕ → PetscScalar) (hn : HangingNode) :
    Except Fault (List Transfer × List (ℕ × PetscScalar)) := do
  let r ← side_interpolation R x hn
  .ok (r.1, Function_constraint R x hn.1 r.2.1 r.2.2)

/-- Body of the residual edge loop for one owned hanging node (lines 179-229). -/
def Function_edge_node (R : MetalSimulationRegion) (x : ℕ → PetscScalar) (hn : HangingNode) :
    Except Fault (List Transfer × List (ℕ × PetscScalar)) := do
  let r ← Function_edge_interpolation R hn
  .ok (r.1, Function_constraint R x hn.1 r.2.1 r.2.2)

/-- Body of the Jacobian side loop for one owned hanging node (lines 282-382). -/
def Jacobian_side_node (R : MetalSimulationRegion) (x : ℕ → PetscScalar) (hn : HangingNode) :
    Except Fault (List Transfer × List JacobianRow) := do
  let r ← side_interpolation R x hn
  .ok (r.1, Jacobian_constraint R x hn.1 r.2.1 r.2.2)

/-- Body of the Jacobian edge loop for one owned hanging node (lines 424-490). -/
def Jacobian_edge_node (R : MetalSimulationRegion) (x : ℕ → PetscScalar) (hn : HangingNode) :
    Except Fault (List Transfer × List JacobianRow) := do
  let r ← Jacobian_edge_interpolation R hn
  .ok (r.1, Jacobian_constraint R x hn.1 r.2.1 r.2.2)

/-- The loop over a hanging-node map (lines 51-142, 172-230, 275-383, 417-491): an entry whose
`processor_id()` differs from `Genius::processor_id()` is skipped with `continue`, the body
`node_body` of any other entry appends to the two groups of buffers. -/
def hanging_node_loop {β : Type} (node_body : HangingNode → Except Fault (List Transfer × List β))
    (processor_id : ℕ) : List HangingNode → Except Fault (List Transfer × List β)
  | [] => .ok ([], [])
  | hn :: rest =>
    if hn.1.processor_id ≠ processor_id then hanging_node_loop node_body processor_id rest
    else do
      let c ← node_body hn
      let b ← hanging_node_loop node_body processor_id rest
      .ok (c.1 ++ b.1, c.2 ++ b.2)

/-- The buffers of the residual side pass after its loop. -/
def Function_side_buffers (R : MetalSimulationRegion) (processor_id : ℕ) (x : ℕ → PetscScalar) :
    Except Fault (List Transfer × List (ℕ × PetscScalar)) :=
  hanging_node_loop (Function_side_node R x) processor_id R.hanging_node_on_elem_side

/-- The buffers of the residual edge pass after its loop. -/
def Function_edge_buffers (R : MetalSimulationRegion) (processor_id : ℕ) (x : ℕ → PetscScalar) :
    Except Fault (List Transfer × List (ℕ × PetscScalar)) :=
  hanging_node_loop (Function_edge_node R x) processor_id R.hanging_node_on_elem_edge

/-- The buffers of the Jacobian side pass after its loop. -/
def Jacobian_side_buffers (R : MetalSimulationRegion) (processor_id : ℕ) (x : ℕ → PetscScalar) :
    Except Fault (List Transfer × List JacobianRow) :=
  hanging_node_loop (Jacobian_side_node R x) processor_id R.hanging_node_on_elem_side

/-- The buffers of the Jacobian edge pass after its loop. -/
def Jacobian_edge_buffers (R : MetalSimulationRegion) (processor_id : ℕ) (x : ℕ → PetscScalar) :
    Except Fault (List Transfer × List JacobianRow) :=
  hanging_node_loop (Jacobian_edge_node R x) processor_id R.hanging_node_on_elem_edge

/-- Modelled from the spec: `PetscUtils::VecAddRowToRow` (not among the sources), the weighted
row-to-row accumulation: every record adds `alpha` times the content its source row held
before the call to its destination row. -/
def VecAddRowToRow (f : Vec) (ts : List Transfer) : Vec :=
  fun r => f r + ((ts.filter (fun t => t.dst_row = r)).map (fun t => t.alpha * f t.src_row)).sum

/-- Modelled from the spec: PETSc's `VecSetValues(.., INSERT_VALUES)` (not among the sources):
the listed rows are set, in order, the last writer of a row wins. -/
def VecSetValues (f : Vec) (ins : List (ℕ × PetscScalar)) : Vec :=
  ins.foldl (fun g p => Function.update g p.1 p.2) f

/-- Modelled from the spec: `PetscUtils::MatAddRowToRow` (not among the sources), the weighted
row-to-row accumulation on the matrix. -/
def MatAddRowToRow (jac : Mat) (ts : List Transfer) : Mat :=
  fun r c =>
    jac r c + ((ts.filter (fun t => t.dst_row = r)).map (fun t => t.alpha * jac t.src_row c)).sum

/-- Modelled from the spec: `PetscUtils::MatZeroRows(.., 0.0)` (not among the sources): every
listed row is cleared, its diagonal entry included. -/
def MatZeroRows (jac : Mat) (rows : List ℕ) : Mat :=
  fun r c => if r ∈ rows then 0 else jac r c

/-- Modelled from the spec: PETSc's `MatSetValues(jac, 1, &row, ncols, cols, vals,
INSERT_VALUES)` (not among the sources): entry `(row, cols[k])` is set to `vals[k]`. -/
def MatSetValues (jac : Mat) (row : ℕ) (cols : List ℕ) (vals : List PetscScalar) : Mat :=
  (cols.zip vals).foldl (fun j cv => Function.update j row (Function.update (j row) cv.1 cv.2)) jac

/-- Lines 144-148 and 232-236: the transfers, then the inserts when there are any. -/
def Function_flush (f : Vec) (b : List Transfer × List (ℕ × PetscScalar)) : Vec :=
  let f1 := VecAddRowToRow f b.1
  if b.2.length ≠ 0 then VecSetValues f1 b.2 else f1

/-- Lines 386-395 and 494-503: the transfers, the zeroing of the rows, then the insertion of
the buffered derivative values row by row. -/
def Jacobian_flush (jac : Mat) (b : List Transfer × List JacobianRow) : Mat :=
  let j1 := MatAddRowToRow jac b.1
  let j2 := MatZeroRows j1 (b.2.map (·.row))
  b.2.foldl (fun j r => MatSetValues j r.row r.cols r.ad_value.getADValue) j2

/-- `MetalSimulationRegion::EBM3_Function_Hanging_Node(x, f, add_value_flag)`; the result is
the new content of `f` and of `add_value_flag`. -/
def EBM3_Function_Hanging_Node (R : MetalSimulationRegion) (processor_id : ℕ)
    (x : ℕ → PetscScalar) (f : Vec) (add_value_flag : InsertMode) :
    Except Fault (Vec × InsertMode) :=
  if !R.has_2d_hanging_node && !R.has_3d_hanging_node then .ok (f, add_value_flag)
  else do
    let side ← Function_side_buffers R processor_id x
    let f1 := Function_flush f side
    let edge ← Function_edge_buffers R processor_id x
    let f2 := Function_flush f1 edge
    .ok (f2, InsertMode.INSERT_VALUES)

/-- `MetalSimulationRegion::EBM3_Jacobian_Hanging_Node(x, jac, add_value_flag)`; the result is
the new content of `*jac` and of `add_value_flag`. -/
def EBM3_Jacobian_Hanging_Node (R : MetalSimulationRegion) (processor_id : ℕ)
    (x : ℕ → PetscScalar) (jac : Mat) (add_value_flag : InsertMode) :
    Except Fault (Mat × InsertMode) :=
  if !R.has_2d_hanging_node && !R.has_3d_hanging_node then .ok (jac, add_value_flag)
  else do
    let side ← Jacobian_side_buffers R processor_id x
    let j1 := Jacobian_flush jac side
    let edge ← Jacobian_edge_buffers R processor_id x
    let j2 := Jacobian_flush j1 edge
    .ok (j2, InsertMode.INSERT_VALUES)

/-! ## Vocabulary of the properties -/

/-- The hanging-node entry belongs to the local processor. -/
def owned (processor_id : ℕ) (hn : HangingNode) : Bool :=
  decide (hn.1.processor_id = processor_id)

/-- The offsets of the active variables: the potential always, the lattice temperature when
its equation is enabled. -/
def active_offsets (R : MetalSimulationRegion) : List ℕ :=
  R.ebm_variable_offset .POTENTIAL ::
  (if R.enable_Tl then [R.ebm_variable_offset .TEMPERATURE] else [])

/-- The rows of the constraint equations of a hanging node, one per active variable. -/
def constraint_rows (R : MetalSimulationRegion) (fvm_node : FVM_Node) : List ℕ :=
  (active_offsets R).map (fun off => fvm_node.global_offset + off)

/-- The constraint rows of the hanging nodes of a map that the local processor owns. -/
def owned_rows (R : MetalSimulationRegion) (processor_id : ℕ) (L : List HangingNode) : List ℕ :=
  (L.filter (owned processor_id)).flatMap (fun hn => constraint_rows R hn.1)

/-- The weights of the records that leave a given source row, in buffer order. -/
def outgoing_weights (ts : List Transfer) (row : ℕ) : List ℚ :=
  (ts.filter (fun t => decide (t.src_row = row))).map (·.alpha)

/-- The sum of the weights of the records that leave a given source row. -/
def outgoing_weight (ts : List Transfer) (row : ℕ) : ℚ :=
  (outgoing_weights ts row).sum

/-- The mesh node behind corner `i` of side `k` of an element: what `get_node(i)` of the proxy
built by `build_side(k)` returns. -/
def Elem.side_corner (e : Elem) (k i : ℕ) : Node := e.get_node (e.side_nodes_map k i)

/-- The mesh node behind node `i` of edge `k` of an element: what `get_node(i)` of the proxy
built by `build_edge(k)` returns. -/
def Elem.edge_corner (e : Elem) (k i : ℕ) : Node := e.get_node (e.edge_nodes_map k i)

/-! ## Sample data -/

/-- A sample element: side 0 is a quadrilateral, side 1 an edge, any other side a triangle;
every edge has two nodes.  Local node `i` is the mesh node `i`, has the global id `100 + i` and
lies at `(i, 2i, 0)`. -/
def demoElem : Elem where
  get_node := fun i => i
  node := fun i => 100 + i
  point := fun i => ((i : ℚ), 2 * (i : ℚ), 0)
  side_nodes_map := fun k i => 4 * k + i + 1
  edge_nodes_map := fun k i => 2 * k + i + 1
  side_n_nodes := fun k => if k = 0 then 4 else if k = 1 then 2 else 3
  edge_n_nodes := fun _ => 2

/-- A sample region with the lattice temperature enabled: two owned side-center hanging nodes
(on a quadrilateral and on an edge), one side-center hanging node of another processor (on a
triangle), and one owned edge-center hanging node. -/
def demoRegion : MetalSimulationRegion where
  has_2d_hanging_node := true
  has_3d_hanging_node := true
  ebm_variable_offset := fun v => match v with
    | .POTENTIAL => 0
    | .TEMPERATURE => 1
  enable_Tl := true
  hanging_node_on_elem_side :=
    [(⟨0, 20, 20⟩, demoElem, 0), (⟨1, 30, 30⟩, demoElem, 2), (⟨0, 40, 40⟩, demoElem, 1)]
  hanging_node_on_elem_edge := [(⟨0, 50, 50⟩, demoElem, 0)]
  region_fvm_node := fun n => if n < 9 then some ⟨0, 2 * n, 2 * n⟩ else none

/-- A sample solution array. -/
def demoX : ℕ → PetscScalar := fun i => [0, 0, 0, 5, 10, 7, 0, 3, 0, 1].getD i 0

/-- The transfer records of the side pass on the sample data. -/
def demoSideTransfers : List Transfer :=
  [⟨20, 2, 1/4⟩, ⟨21, 3, 1/4⟩, ⟨20, 4, 1/4⟩, ⟨21, 5, 1/4⟩, ⟨20, 6, 1/4⟩, ⟨21, 7, 1/4⟩,
   ⟨20, 8, 1/4⟩, ⟨21, 9, 1/4⟩, ⟨40, 10, 1/2⟩, ⟨41, 11, 1/2⟩, ⟨40, 12, 1/2⟩, ⟨41, 13, 1/2⟩]

/-- The transfer records of the edge pass on the sample data. -/
def demoEdgeTransfers : List Transfer :=
  [⟨50, 2, 1/2⟩, ⟨51, 3, 1/2⟩, ⟨50, 4, 1/2⟩, ⟨51, 5, 1/2⟩]

/-- The overwrite pairs of the residual side pass on the sample data. -/
def demoSideInserts : List (ℕ × PetscScalar) := [(20, 0), (21, -4), (40, 0), (41, 0)]

/-- The overwrite pairs of the residual edge pass on the sample data. -/
def demoEdgeInserts : List (ℕ × PetscScalar) := [(50, -5), (51, -6)]

/-- The buffered rows of the Jacobian side pass on the sample data. -/
def demoSideRows : List JacobianRow :=
  [⟨20, [20, 2, 6], ⟨0, [1, -1/2, -1/2]⟩⟩, ⟨21, [21, 3, 7], ⟨-4, [1, -1/2, -1/2]⟩⟩,
   ⟨40, [40, 10, 12], ⟨0, [1, -1/2, -1/2]⟩⟩, ⟨41, [41, 11, 13], ⟨0, [1, -1/2, -1/2]⟩⟩]

/-- The buffered rows of the Jacobian edge pass on the sample data. -/
def demoEdgeRows : List JacobianRow :=
  [⟨50, [50, 2, 4], ⟨-5, [1, -1/2, -1/2]⟩⟩, ⟨51, [51, 3, 5], ⟨-6, [1, -1/2, -1/2]⟩⟩]

/-- The owned hanging node on the quadrilateral side of the sample element. -/
def demoQuadNode : HangingNode := (⟨0, 20, 20⟩, demoElem, 0)

/-- A second sample solution array, with the larger difference on the first diagonal. -/
def demoX2 : ℕ → PetscScalar := fun i => [0, 0, 0, 5, 0, 7, 10, 3, 0, 1].getD i 0

/-- A sample region whose potential is the second variable of a node (offset 1) and whose
lattice temperature is disabled, with one owned hanging node on a quadrilateral side. -/
def offsetRegion : MetalSimulationRegion where
  has_2d_hanging_node := true
  has_3d_hanging_node := false
  ebm_variable_offset := fun v => match v with
    | .POTENTIAL => 1
    | .TEMPERATURE => 0
  enable_Tl := false
  hanging_node_on_elem_side := [demoQuadNode]
  hanging_node_on_elem_edge := []
  region_fvm_node := fun n => if n < 9 then some ⟨0, 2 * n, 2 * n⟩ else none

/-- A solution array for `offsetRegion`: the potentials of the four corners (entries 3, 5, 7,
9) are 0, 10, 0, 0; the first variable of corner 2 (entry 6) is 5. -/
def offsetX : ℕ → PetscScalar := fun i => [0, 0, 0, 0, 0, 10, 5, 0, 0, 0].getD i 0

/-- A sample region that reports no hanging node. -/
def plainRegion : MetalSimulationRegion where
  has_2d_hanging_node := false
  has_3d_hanging_node := false
  ebm_variable_offset := fun v => match v with
    | .POTENTIAL => 0
    | .TEMPERATURE => 1
  enable_Tl := true
  hanging_node_on_elem_side := []
  hanging_node_on_elem_edge := []
  region_fvm_node := fun n => if n < 9 then some ⟨0, 2 * n, 2 * n⟩ else none

/-- A sample region whose hanging nodes all belong to processor 1; the side of the
side-center one is a triangle and the lookup of every corner fails. -/
def foreignRegion : MetalSimulationRegion where
  has_2d_hanging_node := true
  has_3d_hanging_node := true
  ebm_variable_offset := fun v => match v with
    | .POTENTIAL => 0
    | .TEMPERATURE => 1
  enable_Tl := true
  hanging_node_on_elem_side := [(⟨1, 30, 30⟩, demoElem, 2)]
  hanging_node_on_elem_edge := [(⟨1, 50, 50⟩, demoElem, 0)]
  region_fvm_node := fun _ => none

/-- The transfer records of `demoQuadNode`. -/
def demoQuadTransfers : List Transfer :=
  [⟨20, 2, 1/4⟩, ⟨21, 3, 1/4⟩, ⟨20, 4, 1/4⟩, ⟨21, 5, 1/4⟩, ⟨20, 6, 1/4⟩, ⟨21, 7, 1/4⟩,
   ⟨20, 8, 1/4⟩, ⟨21, 9, 1/4⟩]

/-- A sample region without side-center hanging nodes whose only edge-center hanging node is
owned and has no node of its edge in the region. -/
def lostEdgeRegion : MetalSimulationRegion where
  has_2d_hanging_node := false
  has_3d_hanging_node := true
  ebm_variable_offset := fun v => match v with
    | .POTENTIAL => 0
    | .TEMPERATURE => 1
  enable_Tl := true
  hanging_node_on_elem_side := []
  hanging_node_on_elem_edge := [(⟨0, 50, 50⟩, demoElem, 0)]
  region_fvm_node := fun _ => none

/-- A sample region whose only hanging node is owned and lies on a triangular side of which
no corner is found in the region. -/
def lostTriangleRegion : MetalSimulationRegion where
  has_2d_hanging_node := true
  has_3d_hanging_node := false
  ebm_variable_offset := fun v => match v with
    | .POTENTIAL => 0
    | .TEMPERATURE => 1
  enable_Tl := true
  hanging_node_on_elem_side := [(⟨0, 30, 30⟩, demoElem, 2)]
  hanging_node_on_elem_edge := []
  region_fvm_node := fun _ => none

/-- A sample region like `demoRegion` with one more owned side-center hanging node, on a
triangular side. -/
def triangleRegion : MetalSimulationRegion where
  has_2d_hanging_node := true
  has_3d_hanging_node := true
  ebm_variable_offset := fun v => match v with
    | .POTENTIAL => 0
    | .TEMPERATURE => 1
  enable_Tl := true
  hanging_node_on_elem_side :=
    [(⟨0, 20, 20⟩, demoElem, 0), (⟨0, 30, 30⟩, demoElem, 2), (⟨0, 40, 40⟩, demoElem, 1)]
  hanging_node_on_elem_edge := [(⟨0, 50, 50⟩, demoElem, 0)]
  region_fvm_node := fun n => if n < 13 then some ⟨0, 2 * n, 2 * n⟩ else none

/-- A sample residual vector. -/
def demoVec : Vec := fun r => (r : ℚ) + 7

/-- A sample Jacobian matrix. -/
def demoMat : Mat := fun r c => (r : ℚ) * c + 1

/-- A sample element whose edges have three nodes. -/
def longEdgeElem : Elem where
  get_node := fun i => i
  node := fun i => 100 + i
  point := fun i => ((i : ℚ), 2 * (i : ℚ), 0)
  side_nodes_map := fun k i => 4 * k + i + 1
  edge_nodes_map := fun k i => 2 * k + i + 1
  side_n_nodes := fun _ => 4
  edge_n_nodes := fun _ => 3

/-- A sample element whose edges have a single node. -/
def shortEdgeElem : Elem where
  get_node := fun i => i
  node := fun i => 100 + i
  point := fun i => ((i : ℚ), 2 * (i : ℚ), 0)
  side_nodes_map := fun k i => 4 * k + i + 1
  edge_nodes_map := fun k i => 2 * k + i + 1
  side_n_nodes := fun _ => 4
  edge_n_nodes := fun _ => 1

/-- A sample region whose only hanging node is owned and lies on an edge of three nodes. -/
def longEdgeRegion : MetalSimulationRegion where
  has_2d_hanging_node := false
  has_3d_hanging_node := true
  ebm_variable_offset := fun v => match v with
    | .POTENTIAL => 0
    | .TEMPERATURE => 1
  enable_Tl := true
  hanging_node_on_elem_side := []
  hanging_node_on_elem_edge := [(⟨0, 50, 50⟩, longEdgeElem, 0)]
  region_fvm_node := fun n => if n < 9 then some ⟨0, 2 * n, 2 * n⟩ else none

/-- Every side-center hanging node owned by the local processor lies on a side of 2 or 4
corner nodes, all of which are found in the region. -/
def side_entries_regular (R : MetalSimulationRegion) (processor_id : ℕ) : Prop :=
  ∀ hn ∈ R.hanging_node_on_elem_side, hn.1.processor_id = processor_id →
    (hn.2.1.side_n_nodes hn.2.2 = 2 ∨ hn.2.1.side_n_nodes hn.2.2 = 4) ∧
    ∀ i < hn.2.1.side_n_nodes hn.2.2,
      (R.region_fvm_node (hn.2.1.side_corner hn.2.2 i)).isSome = true

/-- Every edge-center hanging node owned by the local processor lies on an edge of at least 2
nodes, of which nodes 0 and 1 are found in the region. -/
def edge_entries_regular (R : MetalSimulationRegion) (processor_id : ℕ) : Prop :=
  ∀ hn ∈ R.hanging_node_on_elem_edge, hn.1.processor_id = processor_id →
    2 ≤ hn.2.1.edge_n_nodes hn.2.2 ∧
    ∀ i < 2, (R.region_fvm_node (hn.2.1.edge_corner hn.2.2 i)).isSome = true

instance (R : MetalSimulationRegion) (processor_id : ℕ) :
    Decidable (side_entries_regular R processor_id) := by
  unfold side_entries_regular
  infer_instance

instance (R : MetalSimulationRegion) (processor_id : ℕ) :
    Decidable (edge_entries_regular R processor_id) := by
  unfold edge_entries_regular
  infer_instance

/-- A sample region whose only hanging node is owned and lies on a quadrilateral side of which
the second corner (mesh node 2) is not found in the region. -/
def gapSideRegion : MetalSimulationRegion where
  has_2d_hanging_node := true
  has_3d_hanging_node := false
  ebm_variable_offset := fun v => match v with
    | .POTENTIAL => 0
    | .TEMPERATURE => 1
  enable_Tl := true
  hanging_node_on_elem_side := [(⟨0, 20, 20⟩, demoElem, 0)]
  hanging_node_on_elem_edge := []
  region_fvm_node := fun n => if n = 2 then none else some ⟨0, 2 * n, 2 * n⟩

/-- A sample region whose only hanging node is owned and lies on an edge of which the second
node (mesh node 2) is not found in the region. -/
def gapEdgeRegion : MetalSimulationRegion where
  has_2d_hanging_node := false
  has_3d_hanging_node := true
  ebm_variable_offset := fun v => match v with
    | .POTENTIAL => 0
    | .TEMPERATURE => 1
  enable_Tl := true
  hanging_node_on_elem_side := []
  hanging_node_on_elem_edge := [(⟨0, 50, 50⟩, demoElem, 0)]
  region_fvm_node := fun n => if n = 2 then none else some ⟨0, 2 * n, 2 * n⟩

/-- The owned edge-center hanging node of `demoRegion`. -/
def demoEdgeNode : HangingNode := (⟨0, 50, 50⟩, demoElem, 0)

/-! ## The Newton damping hook of `HallSolver` (`include/solver/hall/hall.h`) -/

/-- Modelled from the spec: the enumeration behind `SolverSpecify::Damping` (declared outside
the sources): the three enumerators that `hall.h` names, and `other v` for any further value
the variable may hold. -/
inductive DampingScheme where
  | DampingNo
  | DampingPotential
  | DampingBankRose
  | other (v : ℕ)
deriving DecidableEq, Repr

/-- The contents behind the arguments `x, y, w, changed_y, changed_w` of the line-search
post-check: the three vectors and the two flags. -/
structure LineSearchArgs where
  x : Vec
  y : Vec
  w : Vec
  changed_y : Bool
  changed_w : Bool

/-- The functions that `HallSolver::sens_line_search_post_check` may call. -/
inductive Callee where
  | potential_damping
  | bank_rose_damping
  | positive_density_damping
  | FVM_NonlinearSolver_sens_line_search_post_check
deriving DecidableEq, Repr

/-- The effect of each callee on the contents of the arguments.  The three damping functions
are only declared in `hall.h` and the post-check of the base class lies outside the sources:
their effects are taken as given. -/
structure HallSolver where
  potential_damping : LineSearchArgs → LineSearchArgs
  bank_rose_damping : LineSearchArgs → LineSearchArgs
  positive_density_damping : LineSearchArgs → LineSearchArgs
  FVM_NonlinearSolver_sens_line_search_post_check : LineSearchArgs → LineSearchArgs

/-- The effect of a callee, by name. -/
def HallSolver.call (S : HallSolver) : Callee → LineSearchArgs → LineSearchArgs
  | .potential_damping => S.potential_damping
  | .bank_rose_damping => S.bank_rose_damping
  | .positive_density_damping => S.positive_density_damping
  | .FVM_NonlinearSolver_sens_line_search_post_check =>
    S.FVM_NonlinearSolver_sens_line_search_post_check

/-- `HallSolver::sens_line_search_post_check(x, y, w, changed_y, changed_w)` (lines 176-186)
under the setting `Damping` of `SolverSpecify::Damping`.  The result is the list of the calls
made, in order, each with the contents of the arguments when it was made, and the contents of
the arguments on return. -/
def HallSolver.sens_line_search_post_check (S : HallSolver) (Damping : DampingScheme)
    (a : LineSearchArgs) : List (Callee × LineSearchArgs) × LineSearchArgs :=
  let switched : List (Callee × LineSearchArgs) × LineSearchArgs :=
    match Damping with
    | .DampingPotential => ([(Callee.potential_damping, a)], S.potential_damping a)
    | .DampingBankRose => ([(Callee.bank_rose_damping, a)], S.bank_rose_damping a)
    | .DampingNo => ([(Callee.positive_density_damping, a)], S.positive_density_damping a)
    | _ => ([(Callee.positive_density_damping, a)], S.positive_density_damping a)
  (switched.1 ++ [(Callee.FVM_NonlinearSolver_sens_line_search_post_check, switched.2)],
    S.FVM_NonlinearSolver_sens_line_search_post_check switched.2)

/-- The callee is one of the three damping functions. -/
def Callee.is_damping : Callee → Bool
  | .FVM_NonlinearSolver_sens_line_search_post_check => false
  | _ => true

/-- Modelled from the spec: the body of `HallSolver::positive_density_damping` (declared at
lines 225-228 of `hall.h`, defined outside the sources).  The spec gives its contract only:
it clips the steps that would drive a carrier-density unknown negative and signals a change.
Here the step `y` is the increment added to the iterate `x`; among the first `n` unknowns,
the step of a density unknown whose value after the step `x[i] + y[i]` would be negative is
cut back to `-x[i]`, every other component is kept, and `changed_y` is raised when a component
was cut. -/
def positive_density_damping (n : ℕ) (is_density : ℕ → Bool) (a : LineSearchArgs) :
    LineSearchArgs :=
  { a with
    y := fun i => if i < n ∧ is_density i = true ∧ a.x i + a.y i < 0 then -a.x i else a.y i
    changed_y := a.changed_y ||
      (List.range n).any (fun i => is_density i && decide (a.x i + a.y i < 0)) }

/-- A sample solver whose callees mark what they did in the vector `w`: the three damping
functions write 1, 2 and 3 into entry 0, the post-check of the base class adds 10 to that
entry and raises `changed_w`. -/
def demoSolver : HallSolver where
  potential_damping := fun a => { a with w := Function.update a.w 0 1 }
  bank_rose_damping := fun a => { a with w := Function.update a.w 0 2 }
  positive_density_damping := fun a => { a with w := Function.update a.w 0 3 }
  FVM_NonlinearSolver_sens_line_search_post_check := fun a =>
    { a with w := Function.update a.w 0 (a.w 0 + 10), changed_w := true }

/-- Sample arguments of the post-check: the iterate, a step that would take unknown 1 to
`-3`, and no change signalled. -/
def demoArgs : LineSearchArgs where
  x := fun i => [5, 2, 4].getD i 0
  y := fun i => [1, -5, -1].getD i 0
  w := fun _ => 0
  changed_y := false
  changed_w := false

/-! ## The two passes in the other order -/

/-- The residual contribution with its two blocks exchanged: the edge-center block (lines
158-237) runs first, the side-center block (lines 37-150) second.  The source has them in the
opposite order; this is the routine that `EBM3_Function_Hanging_Node` is compared with when the
order of the passes is in question. -/
def EBM3_Function_Hanging_Node_edge_first (R : MetalSimulationRegion) (processor_id : ℕ)
    (x : ℕ → PetscScalar) (f : Vec) (add_value_flag : InsertMode) :
    Except Fault (Vec × InsertMode) :=
  if !R.has_2d_hanging_node && !R.has_3d_hanging_node then .ok (f, add_value_flag)
  else do
    let edge ← Function_edge_buffers R processor_id x
    let f1 := Function_flush f edge
    let side ← Function_side_buffers R processor_id x
    let f2 := Function_flush f1 side
    .ok (f2, InsertMode.INSERT_VALUES)

/-- The Jacobian contribution with its two blocks exchanged: the edge-center block (lines
401-505) runs first, the side-center block (lines 259-398) second. -/
def EBM3_Jacobian_Hanging_Node_edge_first (R : MetalSimulationRegion) (processor_id : ℕ)
    (x : ℕ → PetscScalar) (jac : Mat) (add_value_flag : InsertMode) :
    Except Fault (Mat × InsertMode) :=
  if !R.has_2d_hanging_node && !R.has_3d_hanging_node then .ok (jac, add_value_flag)
  else do
    let edge ← Jacobian_edge_buffers R processor_id x
    let j1 := Jacobian_flush jac edge
    let side ← Jacobian_side_buffers R processor_id x
    let j2 := Jacobian_flush j1 side
    .ok (j2, InsertMode.INSERT_VALUES)

/-- A sample region, without lattice temperature, in which an endpoint of the edge of the
edge-center hanging node (mesh node 1) is the side-center hanging node itself: the node with
offsets 20 hangs on the 2-node side 1 of the sample element, the node with offsets 50 hangs on
edge 0, whose nodes are the mesh nodes 1 and 2. -/
def chainRegion : MetalSimulationRegion where
  has_2d_hanging_node := true
  has_3d_hanging_node := true
  ebm_variable_offset := fun v => match v with
    | .POTENTIAL => 0
    | .TEMPERATURE => 1
  enable_Tl := false
  hanging_node_on_elem_side := [(⟨0, 20, 20⟩, demoElem, 1)]
  hanging_node_on_elem_edge := [(⟨0, 50, 50⟩, demoElem, 0)]
  region_fvm_node := fun n =>
    if n = 1 then some ⟨0, 20, 20⟩ else if n < 9 then some ⟨0, 2 * n, 2 * n⟩ else none

/-- A sample region with the lattice temperature enabled in which the local processor owns a
single side-center hanging node, on the quadrilateral side of the sample element, and a single
edge-center hanging node; the other side-center hanging node belongs to processor 1. -/
def soloRegion : MetalSimulationRegion where
  has_2d_hanging_node := true
  has_3d_hanging_node := true
  ebm_variable_offset := fun v => match v with
    | .POTENTIAL => 0
    | .TEMPERATURE => 1
  enable_Tl := true
  hanging_node_on_elem_side := [demoQuadNode, (⟨1, 30, 30⟩, demoElem, 2)]
  hanging_node_on_elem_edge := [demoEdgeNode]
  region_fvm_node := fun n => if n < 9 then some ⟨0, 2 * n, 2 * n⟩ else none

/-- The variables that a hanging node of the region carries: the potential always, the lattice
temperature when its equation is enabled. -/
def carried_variables (R : MetalSimulationRegion) : List SolutionVariable :=
  if R.enable_Tl then [.POTENTIAL, .TEMPERATURE] else [.POTENTIAL]

/-- Corner after corner, one transfer record per carried variable, source and destination row
both taken at the offset of that variable, with weight `1/n`. -/
def variable_transfers (R : MetalSimulationRegion) (H : FVM_Node) (corners : List FVM_Node)
    (n : ℕ) : List Transfer :=
  corners.flatMap (fun q => (carried_variables R).map (fun v =>
    (⟨H.global_offset + R.ebm_variable_offset v, q.global_offset + R.ebm_variable_offset v,
      1 / (n : ℚ)⟩ : Transfer)))

/-- One overwrite pair per carried variable, row and values all taken at the offset of that
variable. -/
def variable_inserts (R : MetalSimulationRegion) (x : ℕ → PetscScalar) (H P1 P2 : FVM_Node) :
    List (ℕ × PetscScalar) :=
  (carried_variables R).map (fun v =>
    (H.global_offset + R.ebm_variable_offset v,
      x (H.local_offset + R.ebm_variable_offset v) -
        1 / 2 * (x (P1.local_offset + R.ebm_variable_offset v) +
          x (P2.local_offset + R.ebm_variable_offset v))))

/-- One Jacobian row per carried variable, row, columns and values all taken at the offset of
that variable. -/
def variable_rows (R : MetalSimulationRegion) (x : ℕ → PetscScalar) (H P1 P2 : FVM_Node) :
    List JacobianRow :=
  (carried_variables R).map (fun v =>
    (⟨H.global_offset + R.ebm_variable_offset v,
      [H.global_offset + R.ebm_variable_offset v, P1.global_offset + R.ebm_variable_offset v,
        P2.global_offset + R.ebm_variable_offset v],
      ⟨x (H.local_offset + R.ebm_variable_offset v) -
        1 / 2 * (x (P1.local_offset + R.ebm_variable_offset v) +
          x (P2.local_offset + R.ebm_variable_offset v)),
        [1, -1 / 2, -1 / 2]⟩⟩ : JacobianRow))

/-- The row and the value part of the dual number of a buffered Jacobian row: what the row has
in common with an overwrite pair of the residual contribution. -/
def JacobianRow.residual_pair (jr : JacobianRow) : ℕ × PetscScalar := (jr.row, jr.ad_value.val)

/-! ## The degree-of-freedom tables of `HallSolver` (`include/solver/hall/hall.h`) -/

/-- Modelled from the spec: the enumeration behind `region->type()` (declared outside the
sources): the four enumerators that `hall.h` names, and `other v` for any further value. -/
inductive SimulationRegionType where
  | SemiconductorRegion
  | InsulatorRegion
  | ElectrodeRegion
  | MetalRegion
  | other (v : ℕ)
deriving DecidableEq, Repr

/-- Modelled from the spec: the enumeration behind `bc->bc_type()` (declared outside the
sources): the seven enumerators that `hall.h` names, and `other v` for any further value. -/
inductive BCType where
  | OhmicContact
  | SchottkyContact
  | SimpleGateContact
  | GateContact
  | SolderPad
  | ChargedContact
  | InterConnect
  | other (v : ℕ)
deriving DecidableEq, Repr

/-- What `hall.h` reads of a `BoundaryCondition`: `bc_type()` and the number of entries
`inter_connect().size()`. -/
structure BoundaryCondition where
  bc_type : BCType
  inter_connect_size : ℕ
deriving DecidableEq, Repr

/-- `HallSolver::node_dofs(region)` (lines 78-88); the argument is `region->type()`. -/
def HallSolver.node_dofs (region_type : SimulationRegionType) : ℕ :=
  match region_type with
  | .SemiconductorRegion => 3
  | .InsulatorRegion => 1
  | .ElectrodeRegion => 1
  | .MetalRegion => 1
  | _ => 0

/-- `HallSolver::bc_dofs(bc)` (lines 93-106). -/
def HallSolver.bc_dofs (bc : BoundaryCondition) : ℕ :=
  match bc.bc_type with
  | .OhmicContact => 1
  | .SchottkyContact => 1
  | .SimpleGateContact => 1
  | .GateContact => 1
  | .SolderPad => 1
  | .ChargedContact => 1
  | .InterConnect => 1
  | _ => 0

/-- `HallSolver::bc_bandwidth(bc)` (lines 112-125).  The result is an `unsigned int`, taken of
32 bits: the sum `inter_connect().size()+1` is returned modulo `2^32`. -/
def HallSolver.bc_bandwidth (bc : BoundaryCondition) : ℕ :=
  match bc.bc_type with
  | .OhmicContact => 2
  | .SchottkyContact => 2
  | .SimpleGateContact => 2
  | .SolderPad => 2
  | .GateContact => 2
  | .ChargedContact => 1
  | .InterConnect => (bc.inter_connect_size + 1) % 2 ^ 32
  | _ => 0

/-- A sample solution array with equal differences on the two diagonals of the quadrilateral
side of the sample element: the entries read for its corners (2, 4, 6, 8) are 1, 7, 4, 4. -/
def tieX : ℕ → PetscScalar := fun i => [0, 0, 1, 0, 7, 0, 4, 0, 4].getD i 0

/-- A sample region with the lattice temperature enabled whose temperature is the first
variable of a node (offset 0) and whose potential is the second (offset 1), with one owned
hanging node on the quadrilateral side of the sample element.  The corners `n0 .. n3` have the
local offsets 2, 4, 6, 8: their temperatures are the entries 2, 4, 6, 8 of the solution array,
their potentials the entries 3, 5, 7, 9. -/
def coldRegion : MetalSimulationRegion where
  has_2d_hanging_node := true
  has_3d_hanging_node := false
  ebm_variable_offset := fun v => match v with
    | .POTENTIAL => 1
    | .TEMPERATURE => 0
  enable_Tl := true
  hanging_node_on_elem_side := [demoQuadNode]
  hanging_node_on_elem_edge := []
  region_fvm_node := fun n => if n < 9 then some ⟨0, 2 * n, 2 * n⟩ else none

/-- A solution array for `coldRegion`: the potentials of the four corners (entries 3, 5, 7,
9) are 0, 10, 0, 0 and every temperature is 0. -/
def coldX : ℕ → PetscScalar := fun i => if i = 5 then 10 else 0

/-- The array `coldX` with the temperature of corner `n1` (entry 4) raised to 5; the potentials
and every other entry are unchanged. -/
def warmX : ℕ → PetscScalar := fun i => if i = 5 then 10 else if i = 4 then 5 else 0

/-- The transfer records of the hanging node of `coldRegion`. -/
def coldTransfers : List Transfer :=
  [⟨21, 3, 1/4⟩, ⟨20, 2, 1/4⟩, ⟨21, 5, 1/4⟩, ⟨20, 4, 1/4⟩, ⟨21, 7, 1/4⟩, ⟨20, 6, 1/4⟩,
   ⟨21, 9, 1/4⟩, ⟨20, 8, 1/4⟩]

/-! ## The compatibility class `OStringStream` (`include/base/o_string_stream.h`) -/

/-- Modelled from the spec: the base class `std::ostringstream` (standard library), by the
characters written to it so far.  The stream is taken in its default formatting state (field
width 0), in which `operator<<` appends its argument unchanged; a `char` of the stream is a
character of the string. -/
structure OStringStream where
  str : String
deriving DecidableEq, Repr

/-- `*this << s` for a `std::string`. -/
def OStringStream.write (o : OStringStream) (s : String) : OStringStream :=
  ⟨o.str ++ s⟩

/-- `*this << c` for a `char`. -/
def OStringStream.put (o : OStringStream) (c : Char) : OStringStream :=
  ⟨o.str.push c⟩

/-- The blank that `print_ws` pads with by default. -/
def whitespace : Char := Char.ofNat 32

/-- The difference `a - b` of two values of `sizetype` (`std::string::size_type`), an unsigned
type taken as 64 bits wide: the result is reduced modulo `2^64`. -/
def sizetype_sub (a b : ℕ) : ℕ :=
  (a + 2 ^ 64 - b % 2 ^ 64) % 2 ^ 64

/-- `OStringStream::print_ws(n, c)` (lines 352-358): the loop
`for (sizetype i = 0; i < n; i++) *this << c;`, by the number of iterations left. -/
def OStringStream.print_ws (n : ℕ) (c : Char) (o : OStringStream) : OStringStream :=
  match n with
  | 0 => o
  | k + 1 => OStringStream.print_ws k c (o.put c)

/-- `OStringStream::left(w, s)` for a string (lines 262-269): the string, then
`print_ws(w - s.size())`. -/
def OStringStream.left (o : OStringStream) (w : ℕ) (s : String) : OStringStream :=
  (o.write s).print_ws (sizetype_sub w s.length) whitespace

/-- `OStringStream::right(w, s)` for a string (lines 307-314): `print_ws(w - s.size())`, then
the string. -/
def OStringStream.right (o : OStringStream) (w : ℕ) (s : String) : OStringStream :=
  (o.print_ws (sizetype_sub w s.length) whitespace).write s

/-! ## Properties -/

/-! ### Auxiliary lemmas -/

theorem bind_eq_ok {ε α β : Type} (m : Except ε α) (f : α → Except ε β) (b : β) :
    (m >>= f) = .ok b ↔ ∃ a, m = .ok a ∧ f a = .ok b := by
  cases m <;> simp [bind, Except.bind]

theorem hanging_node_loop_filter {β : Type}
    (body : HangingNode → Except Fault (List Transfer × List β)) (pid : ℕ) (L : List HangingNode) :
    hanging_node_loop body pid L = hanging_node_loop body pid (L.filter (owned pid)) := by
  induction L with
  | nil => rfl
  | cons hn rest ih =>
    by_cases h : hn.1.processor_id = pid
    · have ho : owned pid hn = true := by simp [owned, h]
      rw [List.filter_cons_of_pos ho]
      simp only [hanging_node_loop, h, ne_eq, not_true_eq_false, if_false, ih]
    · have ho : ¬ (owned pid hn = true) := by simp [owned, h]
      rw [List.filter_cons_of_neg ho]
      simp only [hanging_node_loop, h, ne_eq, not_false_eq_true, if_true, ih]

theorem hanging_node_loop_ok {β : Type}
    (body : HangingNode → Except Fault (List Transfer × List β)) (pid : ℕ) :
    ∀ (L : List HangingNode) (b : List Transfer × List β),
      hanging_node_loop body pid L = .ok b ↔
        ∃ cs : List (List Transfer × List β),
          List.Forall₂ (fun hn c => body hn = .ok c) (L.filter (owned pid)) cs ∧
          b = ((cs.map Prod.fst).flatten, (cs.map Prod.snd).flatten) := by
  intro L
  induction L with
  | nil =>
    intro b
    simp [hanging_node_loop, eq_comm]
  | cons hn rest ih =>
    intro b
    by_cases h : hn.1.processor_id = pid
    · have ho : owned pid hn = true := by simp [owned, h]
      rw [List.filter_cons_of_pos ho]
      simp only [hanging_node_loop, h, ne_eq, not_true_eq_false, if_false]
      rw [bind_eq_ok]
      constructor
      · rintro ⟨c, hc, h2⟩
        rw [bind_eq_ok] at h2
        obtain ⟨b', hb', h3⟩ := h2
        obtain ⟨cs, hcs, rfl⟩ := (ih b').1 hb'
        refine ⟨c :: cs, List.Forall₂.cons hc hcs, ?_⟩
        simp only [pure, Except.pure, Except.ok.injEq] at h3
        simp [← h3]
      · rintro ⟨cs, hcs, rfl⟩
        cases hcs with
        | cons hc hcs' =>
          rename_i c cs'
          refine ⟨c, hc, ?_⟩
          rw [bind_eq_ok]
          exact ⟨_, (ih _).2 ⟨cs', hcs', rfl⟩, by simp [pure, Except.pure]⟩
    · have ho : ¬ (owned pid hn = true) := by simp [owned, h]
      rw [List.filter_cons_of_neg ho]
      simp only [hanging_node_loop, h, ne_eq, not_false_eq_true, if_true]
      exact ih b

theorem pure_eq_ok {ε α : Type} (a b : α) : (pure a : Except ε α) = .ok b ↔ a = b := by
  simp [pure, Except.pure]

theorem deref_eq_ok (p : Option FVM_Node) (q : FVM_Node) : deref p = .ok q ↔ p = some q := by
  cases p <;> simp [deref]

theorem side_get_node_eq_ok (s : Side) (i : ℕ) (nd : Node) :
    s.get_node i = .ok nd ↔ i < s.n_nodes ∧ nd = s.parent.get_node (s.parent.side_nodes_map s.side_number i) := by
  unfold Side.get_node
  split <;> simp_all [eq_comm]

theorem side_loop_eq_ok (R : MetalSimulationRegion) (H : FVM_Node) (side : Side) (N : ℕ) :
    ∀ (rem n : ℕ) (r : List FVM_Node × List Transfer),
      side_loop R H side N rem n = .ok r ↔
        (rem = 0 ∨ n + rem ≤ side.n_nodes) ∧
        r.1.map some = (List.range' n rem).map
          (fun i => R.region_fvm_node (side.parent.side_corner side.side_number i)) ∧
        r.2 = r.1.flatMap (fun c => corner_transfers R H c N) := by
  intro rem
  induction rem with
  | zero =>
    rintro n ⟨ps, ts⟩
    simp only [side_loop, Except.ok.injEq, Prod.mk.injEq, List.range'_zero, List.map_nil,
      List.map_eq_nil_iff, true_or, true_and]
    constructor
    · rintro ⟨rfl, rfl⟩; simp
    · rintro ⟨rfl, h⟩; simpa using h.symm
  | succ rem ih =>
    rintro n ⟨ps, ts⟩
    simp only [side_loop, bind_eq_ok, side_get_node_eq_ok, deref_eq_ok, ih, pure_eq_ok]
    constructor
    · rintro ⟨nd, ⟨hlt, rfl⟩, q, hq, ⟨ps', ts'⟩, ⟨hrange, hps, hts⟩, heq⟩
      simp only [Prod.mk.injEq] at heq
      obtain ⟨rfl, rfl⟩ := heq
      refine ⟨Or.inr ?_, ?_, ?_⟩
      · rcases hrange with h0 | h1 <;> omega
      · simp only [List.map_cons, List.range'_succ, hps, Elem.side_corner, hq]
      · dsimp only at hts
        simp only [List.flatMap_cons, hts]
    · rintro ⟨hrange, hps, hts⟩
      have hlt : n < side.n_nodes := by omega
      cases ps with
      | nil => simp [List.range'_succ] at hps
      | cons q ps' =>
        simp only [List.map_cons, List.range'_succ, List.cons.injEq] at hps
        refine ⟨_, ⟨hlt, rfl⟩, q, hps.1.symm, (ps', ps'.flatMap (fun c => corner_transfers R H c N)),
          ⟨?_, hps.2, rfl⟩, ?_⟩
        · omega
        · simp only [hts, List.flatMap_cons]

theorem edge_get_node_eq_ok (s : SideEdge) (i : ℕ) (nd : Node) :
    s.get_node i = .ok nd ↔
      i < s.n_nodes ∧ nd = s.parent.get_node (s.parent.edge_nodes_map s.edge_number i) := by
  unfold SideEdge.get_node
  split <;> simp_all [eq_comm]

theorem genius_assert_not_null_eq_ok (p : Option FVM_Node) (u : Unit) :
    genius_assert_not_null p = .ok u ↔ p.isSome = true := by
  cases p <;> simp [genius_assert_not_null]

theorem edge_points_eq_ok (ps : List FVM_Node) (p : FVM_Node × FVM_Node) :
    edge_points ps = .ok p ↔ ∃ rest, ps = p.1 :: p.2 :: rest := by
  match ps with
  | [] => simp [edge_points]
  | [_] => simp [edge_points]
  | e0 :: e1 :: rest =>
    obtain ⟨p1, p2⟩ := p
    simp [edge_points]

theorem Function_edge_interpolation_eq_ok (R : MetalSimulationRegion) (hn : HangingNode)
    (ts : List Transfer) (p1 p2 : FVM_Node) :
    Function_edge_interpolation R hn = .ok (ts, p1, p2) ↔
      2 ≤ hn.2.1.edge_n_nodes hn.2.2 ∧
      R.region_fvm_node (hn.2.1.edge_corner hn.2.2 0) = some p1 ∧
      R.region_fvm_node (hn.2.1.edge_corner hn.2.2 1) = some p2 ∧
      ts = corner_transfers R hn.1 p1 2 ++ corner_transfers R hn.1 p2 2 := by
  simp only [Function_edge_interpolation, Function_edge_loop, bind_eq_ok, edge_get_node_eq_ok,
    genius_assert_not_null_eq_ok, deref_eq_ok, Except.ok.injEq, edge_points_eq_ok,
    Elem.build_edge, Elem.edge_corner]
  constructor
  · rintro ⟨r, ⟨nd0, ⟨h0, rfl⟩, u, hu, q0, hq0, r1, ⟨nd1, ⟨h1, rfl⟩, u1, hu1, q1, hq1, r2, rfl, rfl⟩,
      rfl⟩, p, ⟨rest, hrest⟩, hp⟩
    simp only [Prod.mk.injEq, List.cons.injEq] at hrest hp
    obtain ⟨rfl, rfl, -⟩ := hrest
    obtain ⟨rfl, rfl, rfl⟩ := hp
    refine ⟨by omega, hq0, hq1, by simp⟩
  · rintro ⟨hn2, hq0, hq1, rfl⟩
    refine ⟨([p1, p2], _), ⟨_, ⟨by omega, rfl⟩, (), by simp [hq0], p1, hq0, ([p2], _),
      ⟨_, ⟨by omega, rfl⟩, (), by simp [hq1], p2, hq1, ([], []), rfl, rfl⟩, rfl⟩, (p1, p2),
      ⟨[], rfl⟩, by simp⟩

theorem Jacobian_edge_interpolation_eq_ok (R : MetalSimulationRegion) (hn : HangingNode)
    (ts : List Transfer) (p1 p2 : FVM_Node) :
    Jacobian_edge_interpolation R hn = .ok (ts, p1, p2) ↔
      2 ≤ hn.2.1.edge_n_nodes hn.2.2 ∧
      R.region_fvm_node (hn.2.1.edge_corner hn.2.2 0) = some p1 ∧
      R.region_fvm_node (hn.2.1.edge_corner hn.2.2 1) = some p2 ∧
      ts = corner_transfers R hn.1 p1 2 ++ corner_transfers R hn.1 p2 2 := by
  simp only [Jacobian_edge_interpolation, Jacobian_edge_loop, bind_eq_ok, edge_get_node_eq_ok,
    deref_eq_ok, Except.ok.injEq, edge_points_eq_ok, Elem.build_edge, Elem.edge_corner]
  constructor
  · rintro ⟨r, ⟨nd0, ⟨h0, rfl⟩, q0, hq0, r1, ⟨nd1, ⟨h1, rfl⟩, q1, hq1, r2, rfl, rfl⟩,
      rfl⟩, p, ⟨rest, hrest⟩, hp⟩
    simp only [Prod.mk.injEq, List.cons.injEq] at hrest hp
    obtain ⟨rfl, rfl, -⟩ := hrest
    obtain ⟨rfl, rfl, rfl⟩ := hp
    refine ⟨by omega, hq0, hq1, by simp⟩
  · rintro ⟨hn2, hq0, hq1, rfl⟩
    refine ⟨([p1, p2], _), ⟨_, ⟨by omega, rfl⟩, p1, hq0, ([p2], _),
      ⟨_, ⟨by omega, rfl⟩, p2, hq1, ([], []), rfl, rfl⟩, rfl⟩, (p1, p2),
      ⟨[], rfl⟩, by simp⟩

theorem interpolation_points_eq_error (x : ℕ → PetscScalar) (ps : List FVM_Node) (e : Fault) :
    interpolation_points x ps = .error e ↔ ps.length ≠ 2 ∧ ps.length ≠ 4 ∧ e = Fault.genius_error := by
  match ps with
  | [] => simp [interpolation_points, eq_comm]
  | [_] => simp [interpolation_points, eq_comm]
  | [_, _] => simp [interpolation_points]
  | [_, _, _] => simp [interpolation_points, eq_comm]
  | [s0, s1, s2, s3] =>
    simp only [interpolation_points]
    split <;> simp
  | _ :: _ :: _ :: _ :: _ :: _ => simp [interpolation_points, eq_comm]

theorem interpolation_points_length (x : ℕ → PetscScalar) (ps : List FVM_Node)
    (p : FVM_Node × FVM_Node) (h : interpolation_points x ps = .ok p) :
    ps.length = 2 ∨ ps.length = 4 := by
  match ps with
  | [] => simp [interpolation_points] at h
  | [_] => simp [interpolation_points] at h
  | [_, _] => simp
  | [_, _, _] => simp [interpolation_points] at h
  | [s0, s1, s2, s3] => simp
  | _ :: _ :: _ :: _ :: _ :: _ => simp [interpolation_points] at h

theorem side_interpolation_eq_ok (R : MetalSimulationRegion) (x : ℕ → PetscScalar)
    (hn : HangingNode) (ts : List Transfer) (p1 p2 : FVM_Node) :
    side_interpolation R x hn = .ok (ts, p1, p2) ↔
      ∃ ps : List FVM_Node,
        ps.map some = (List.range' 0 (hn.2.1.side_n_nodes hn.2.2)).map
          (fun i => R.region_fvm_node (hn.2.1.side_corner hn.2.2 i)) ∧
        ts = ps.flatMap (fun c => corner_transfers R hn.1 c (hn.2.1.side_n_nodes hn.2.2)) ∧
        interpolation_points x ps = .ok (p1, p2) := by
  simp only [side_interpolation, bind_eq_ok, side_loop_eq_ok, Elem.build_side, zero_add, le_refl,
    or_true, true_and, Except.ok.injEq, Prod.mk.injEq]
  constructor
  · rintro ⟨⟨ps, ts'⟩, ⟨hps, hts⟩, ⟨q1, q2⟩, hq, rfl, rfl, rfl⟩
    exact ⟨ps, hps, hts, hq⟩
  · rintro ⟨ps, hps, hts, hq⟩
    exact ⟨(ps, ts), ⟨hps, hts⟩, (p1, p2), hq, rfl, rfl, rfl⟩

theorem side_interpolation_of_corners (R : MetalSimulationRegion) (x : ℕ → PetscScalar)
    (hn : HangingNode) (ps : List FVM_Node)
    (hps : ps.map some = (List.range' 0 (hn.2.1.side_n_nodes hn.2.2)).map
      (fun i => R.region_fvm_node (hn.2.1.side_corner hn.2.2 i))) :
    side_interpolation R x hn =
      (interpolation_points x ps).map (fun p =>
        (ps.flatMap (fun c => corner_transfers R hn.1 c (hn.2.1.side_n_nodes hn.2.2)), p.1, p.2)) := by
  have hloop : side_loop R hn.1 (hn.2.1.build_side hn.2.2) (hn.2.1.side_n_nodes hn.2.2)
      (hn.2.1.side_n_nodes hn.2.2) 0 =
      .ok (ps, ps.flatMap (fun c => corner_transfers R hn.1 c (hn.2.1.side_n_nodes hn.2.2))) := by
    rw [side_loop_eq_ok]
    exact ⟨Or.inr (by simp [Elem.build_side]), hps, rfl⟩
  simp only [side_interpolation]
  have hn_nodes : (hn.2.1.build_side hn.2.2).n_nodes = hn.2.1.side_n_nodes hn.2.2 := rfl
  rw [hn_nodes, hloop]
  cases h : interpolation_points x ps <;> simp [bind, Except.bind, Except.map, h]

theorem exists_map_some {α β : Type} (f : α → Option β) (l : List α)
    (h : ∀ a ∈ l, (f a).isSome = true) : ∃ ps : List β, ps.map some = l.map f := by
  induction l with
  | nil => exact ⟨[], rfl⟩
  | cons a l ih =>
    obtain ⟨ps, hps⟩ := ih (fun b hb => h b (List.mem_cons_of_mem _ hb))
    obtain ⟨q, hq⟩ := Option.isSome_iff_exists.1 (h a (List.mem_cons_self _ _))
    exact ⟨q :: ps, by simp [hps, hq]⟩

theorem length_of_map_some {α β : Type} (f : α → Option β) (l : List α) (ps : List β)
    (h : ps.map some = l.map f) : ps.length = l.length := by
  have := congrArg List.length h
  simpa using this

theorem Function_side_node_eq_ok (R : MetalSimulationRegion) (x : ℕ → PetscScalar)
    (hn : HangingNode) (c : List Transfer × List (ℕ × PetscScalar)) :
    Function_side_node R x hn = .ok c ↔
      ∃ ts p1 p2, side_interpolation R x hn = .ok (ts, p1, p2) ∧
        c = (ts, Function_constraint R x hn.1 p1 p2) := by
  simp only [Function_side_node, bind_eq_ok, Except.ok.injEq]
  constructor
  · rintro ⟨⟨ts, p1, p2⟩, h, rfl⟩; exact ⟨ts, p1, p2, h, rfl⟩
  · rintro ⟨ts, p1, p2, h, rfl⟩; exact ⟨(ts, p1, p2), h, rfl⟩

theorem Jacobian_side_node_eq_ok (R : MetalSimulationRegion) (x : ℕ → PetscScalar)
    (hn : HangingNode) (c : List Transfer × List JacobianRow) :
    Jacobian_side_node R x hn = .ok c ↔
      ∃ ts p1 p2, side_interpolation R x hn = .ok (ts, p1, p2) ∧
        c = (ts, Jacobian_constraint R x hn.1 p1 p2) := by
  simp only [Jacobian_side_node, bind_eq_ok, Except.ok.injEq]
  constructor
  · rintro ⟨⟨ts, p1, p2⟩, h, rfl⟩; exact ⟨ts, p1, p2, h, rfl⟩
  · rintro ⟨ts, p1, p2, h, rfl⟩; exact ⟨(ts, p1, p2), h, rfl⟩

theorem Function_edge_node_eq_ok (R : MetalSimulationRegion) (x : ℕ → PetscScalar)
    (hn : HangingNode) (c : List Transfer × List (ℕ × PetscScalar)) :
    Function_edge_node R x hn = .ok c ↔
      ∃ ts p1 p2, Function_edge_interpolation R hn = .ok (ts, p1, p2) ∧
        c = (ts, Function_constraint R x hn.1 p1 p2) := by
  simp only [Function_edge_node, bind_eq_ok, Except.ok.injEq]
  constructor
  · rintro ⟨⟨ts, p1, p2⟩, h, rfl⟩; exact ⟨ts, p1, p2, h, rfl⟩
  · rintro ⟨ts, p1, p2, h, rfl⟩; exact ⟨(ts, p1, p2), h, rfl⟩

theorem Jacobian_edge_node_eq_ok (R : MetalSimulationRegion) (x : ℕ → PetscScalar)
    (hn : HangingNode) (c : List Transfer × List JacobianRow) :
    Jacobian_edge_node R x hn = .ok c ↔
      ∃ ts p1 p2, Jacobian_edge_interpolation R hn = .ok (ts, p1, p2) ∧
        c = (ts, Jacobian_constraint R x hn.1 p1 p2) := by
  simp only [Jacobian_edge_node, bind_eq_ok, Except.ok.injEq]
  constructor
  · rintro ⟨⟨ts, p1, p2⟩, h, rfl⟩; exact ⟨ts, p1, p2, h, rfl⟩
  · rintro ⟨ts, p1, p2, h, rfl⟩; exact ⟨(ts, p1, p2), h, rfl⟩

theorem outgoing_weights_append (a b : List Transfer) (row : ℕ) :
    outgoing_weights (a ++ b) row = outgoing_weights a row ++ outgoing_weights b row := by
  simp [outgoing_weights]

theorem outgoing_weights_corner (R : MetalSimulationRegion) (H c : FVM_Node) (N row : ℕ) :
    outgoing_weights (corner_transfers R H c N) row =
      List.replicate ((constraint_rows R H).count row) (1 / (N : ℚ)) := by
  unfold outgoing_weights corner_transfers constraint_rows active_offsets
  by_cases h1 : H.global_offset + R.ebm_variable_offset .POTENTIAL = row <;>
  by_cases h2 : H.global_offset + R.ebm_variable_offset .TEMPERATURE = row <;>
  cases hT : R.enable_Tl <;>
  simp [List.filter_cons, List.count_cons, h1, h2, List.replicate]

theorem outgoing_weights_corners (R : MetalSimulationRegion) (H : FVM_Node) (N row : ℕ)
    (ps : List FVM_Node) :
    outgoing_weights (ps.flatMap (fun c => corner_transfers R H c N)) row =
      List.replicate (ps.length * (constraint_rows R H).count row) (1 / (N : ℚ)) := by
  induction ps with
  | nil => simp [outgoing_weights]
  | cons c ps ih =>
    rw [List.flatMap_cons, outgoing_weights_append, ih, outgoing_weights_corner,
      List.append_replicate_replicate, List.length_cons]
    congr 1
    ring

theorem outgoing_weights_loop_nil {β : Type} (R : MetalSimulationRegion)
    (body : HangingNode → Except Fault (List Transfer × List β)) (row : ℕ)
    (hbody : ∀ hn c, body hn = .ok c → ∃ (N : ℕ) (ps : List FVM_Node),
      c.1 = ps.flatMap (fun p => corner_transfers R hn.1 p N)) :
    ∀ (L : List HangingNode) (cs : List (List Transfer × List β)),
      List.Forall₂ (fun hn c => body hn = .ok c) L cs →
      row ∉ L.flatMap (fun hn => constraint_rows R hn.1) →
      outgoing_weights (cs.map Prod.fst).flatten row = [] := by
  intro L cs h
  induction h with
  | nil => intro _; simp [outgoing_weights]
  | cons hc _ ih =>
    rename_i hn c L' cs'
    intro hrow
    rw [List.flatMap_cons, List.mem_append, not_or] at hrow
    obtain ⟨N, ps, hts⟩ := hbody _ _ hc
    rw [List.map_cons, List.flatten_cons, outgoing_weights_append, ih hrow.2, hts,
      outgoing_weights_corners, List.count_eq_zero_of_not_mem hrow.1]
    simp

theorem outgoing_weights_loop {β : Type} (R : MetalSimulationRegion)
    (body : HangingNode → Except Fault (List Transfer × List β)) (good : ℕ → Prop) (row : ℕ)
    (hbody : ∀ hn c, body hn = .ok c → ∃ (N : ℕ) (ps : List FVM_Node),
      good N ∧ ps.length = N ∧ c.1 = ps.flatMap (fun p => corner_transfers R hn.1 p N)) :
    ∀ (L : List HangingNode) (cs : List (List Transfer × List β)),
      List.Forall₂ (fun hn c => body hn = .ok c) L cs →
      (L.flatMap (fun hn => constraint_rows R hn.1)).Nodup →
      row ∈ L.flatMap (fun hn => constraint_rows R hn.1) →
      ∃ N : ℕ, good N ∧
        outgoing_weights (cs.map Prod.fst).flatten row = List.replicate N (1 / (N : ℚ)) := by
  intro L cs h
  induction h with
  | nil => intro _ hrow; simp at hrow
  | cons hc htail ih =>
    rename_i hn c L' cs'
    intro hnodup hrow
    rw [List.flatMap_cons] at hnodup hrow
    obtain ⟨hnd1, hnd2, hdisj⟩ := List.nodup_append.1 hnodup
    obtain ⟨N, ps, hN, hlen, hts⟩ := hbody _ _ hc
    rw [List.map_cons, List.flatten_cons, outgoing_weights_append, hts,
      outgoing_weights_corners, hlen]
    by_cases hin : row ∈ constraint_rows R hn.1
    · have htl : outgoing_weights (cs'.map Prod.fst).flatten row = [] :=
        outgoing_weights_loop_nil R body row
          (fun a c' hc' => by
            obtain ⟨N', ps', -, -, h'⟩ := hbody a c' hc'
            exact ⟨N', ps', h'⟩) L' cs' htail (fun hmem => hdisj hin hmem)
      refine ⟨N, hN, ?_⟩
      rw [htl, List.count_eq_one_of_mem hnd1 hin]
      simp
    · have hrest : row ∈ L'.flatMap (fun hn => constraint_rows R hn.1) := by
        rcases List.mem_append.1 hrow with h1 | h2
        · exact absurd h1 hin
        · exact h2
      obtain ⟨N', hN', hw⟩ := ih hnd2 hrest
      refine ⟨N', hN', ?_⟩
      rw [hw, List.count_eq_zero_of_not_mem hin]
      simp

theorem side_node_transfers {β : Type} (R : MetalSimulationRegion) (x : ℕ → PetscScalar)
    (hn : HangingNode) (c : List Transfer × List β)
    (h : ∃ p1 p2, side_interpolation R x hn = .ok (c.1, p1, p2)) :
    ∃ (N : ℕ) (ps : List FVM_Node), (N = 2 ∨ N = 4) ∧ ps.length = N ∧
      c.1 = ps.flatMap (fun p => corner_transfers R hn.1 p N) := by
  obtain ⟨p1, p2, h⟩ := h
  obtain ⟨ps, hps, hts, hp⟩ := (side_interpolation_eq_ok R x hn c.1 p1 p2).1 h
  have hlen : ps.length = hn.2.1.side_n_nodes hn.2.2 := by
    rw [length_of_map_some _ _ _ hps, List.length_range']
  have h24 := interpolation_points_length x ps _ hp
  exact ⟨_, ps, hlen ▸ h24, hlen, hts⟩

theorem edge_node_transfers (R : MetalSimulationRegion) (H p1 p2 : FVM_Node) :
    ∃ (N : ℕ) (ps : List FVM_Node), N = 2 ∧ ps.length = N ∧
      corner_transfers R H p1 2 ++ corner_transfers R H p2 2 =
        ps.flatMap (fun p => corner_transfers R H p N) :=
  ⟨2, [p1, p2], rfl, rfl, by simp⟩

theorem sum_replicate_inv (N : ℕ) (hN : N ≠ 0) :
    (List.replicate N (1 / (N : ℚ))).sum = 1 := by
  have : (N : ℚ) ≠ 0 := by exact_mod_cast hN
  rw [List.sum_replicate]
  simp [this]

theorem loop_weights {β : Type} (R : MetalSimulationRegion) (pid : ℕ)
    (body : HangingNode → Except Fault (List Transfer × List β)) (good : ℕ → Prop)
    (hbody : ∀ hn c, body hn = .ok c → ∃ (N : ℕ) (ps : List FVM_Node),
      good N ∧ ps.length = N ∧ c.1 = ps.flatMap (fun p => corner_transfers R hn.1 p N))
    (L : List HangingNode) (b : List Transfer × List β)
    (hb : hanging_node_loop body pid L = .ok b) (hnodup : (owned_rows R pid L).Nodup)
    (row : ℕ) (hrow : row ∈ owned_rows R pid L) :
    ∃ N : ℕ, good N ∧ outgoing_weights b.1 row = List.replicate N (1 / (N : ℚ)) := by
  obtain ⟨cs, hcs, rfl⟩ := (hanging_node_loop_ok body pid L b).1 hb
  exact outgoing_weights_loop R body good row hbody _ cs hcs hnodup hrow

theorem demo_Function_side_buffers :
    Function_side_buffers demoRegion 0 demoX =
      .ok (demoSideTransfers, demoSideInserts) := by
  simp [Function_side_buffers, hanging_node_loop, demoRegion, Function_side_node,
    side_interpolation, side_loop, demoElem, Elem.build_side, Side.get_node, deref,
    corner_transfers, interpolation_points, Function_constraint, demoX, bind, Except.bind,
    demoSideTransfers, demoSideInserts]
  norm_num

theorem demo_Function_edge_buffers :
    Function_edge_buffers demoRegion 0 demoX = .ok (demoEdgeTransfers, demoEdgeInserts) := by
  simp [Function_edge_buffers, hanging_node_loop, demoRegion, Function_edge_node,
    Function_edge_interpolation, Function_edge_loop, demoElem, Elem.build_edge,
    SideEdge.get_node, genius_assert_not_null, deref, corner_transfers, edge_points,
    Function_constraint, demoX, bind, Except.bind, demoEdgeTransfers, demoEdgeInserts]
  norm_num

theorem demo_owned_rows_side :
    owned_rows demoRegion 0 demoRegion.hanging_node_on_elem_side = [20, 21, 40, 41] := by
  simp [owned_rows, demoRegion, owned, constraint_rows, active_offsets, List.filter]

theorem demo_owned_rows_edge :
    owned_rows demoRegion 0 demoRegion.hanging_node_on_elem_edge = [50, 51] := by
  simp [owned_rows, demoRegion, owned, constraint_rows, active_offsets, List.filter]

theorem ad_constraint_eq (v v1 v2 : PetscScalar) :
    ad_constraint v v1 v2 = ⟨v - 1 / 2 * (v1 + v2), [1, -1 / 2, -1 / 2]⟩ := by
  simp [ad_constraint, AutoDScalar.ofScalar, AutoDScalar.setADValue, AutoDScalar.sub,
    AutoDScalar.smul, AutoDScalar.add, numdir, List.replicate]
  norm_num

theorem demo_Jacobian_side_buffers :
    Jacobian_side_buffers demoRegion 0 demoX = .ok (demoSideTransfers, demoSideRows) := by
  simp [Jacobian_side_buffers, hanging_node_loop, demoRegion, Jacobian_side_node,
    side_interpolation, side_loop, demoElem, Elem.build_side, Side.get_node, deref,
    corner_transfers, interpolation_points, Jacobian_constraint, ad_constraint_eq, demoX, bind,
    Except.bind, demoSideTransfers, demoSideRows]
  norm_num

theorem demo_Jacobian_edge_buffers :
    Jacobian_edge_buffers demoRegion 0 demoX = .ok (demoEdgeTransfers, demoEdgeRows) := by
  simp [Jacobian_edge_buffers, hanging_node_loop, demoRegion, Jacobian_edge_node,
    Jacobian_edge_interpolation, Jacobian_edge_loop, demoElem, Elem.build_edge,
    SideEdge.get_node, deref, corner_transfers, edge_points, Jacobian_constraint,
    ad_constraint_eq, demoX, bind, Except.bind, demoEdgeTransfers, demoEdgeRows]
  norm_num

theorem loop_supports {β σ : Type} (body : HangingNode → Except Fault (List Transfer × List β))
    (interp : HangingNode → σ → Prop) (g : HangingNode → σ → List β)
    (hbody : ∀ hn c, body hn = .ok c → ∃ s, interp hn s ∧ c.2 = g hn s) :
    ∀ (L : List HangingNode) (cs : List (List Transfer × List β)),
      List.Forall₂ (fun hn c => body hn = .ok c) L cs →
      ∃ sup : List σ, List.Forall₂ interp L sup ∧
        (cs.map Prod.snd).flatten = (L.zip sup).flatMap (fun hs => g hs.1 hs.2) := by
  intro L cs h
  induction h with
  | nil => exact ⟨[], List.Forall₂.nil, rfl⟩
  | cons hc _ ih =>
    obtain ⟨sup, hsup, heq⟩ := ih
    obtain ⟨s, hs, hg⟩ := hbody _ _ hc
    refine ⟨s :: sup, List.Forall₂.cons hs hsup, ?_⟩
    simp [heq, hg]

theorem Function_constraint_eq (R : MetalSimulationRegion) (x : ℕ → PetscScalar)
    (H p1 p2 : FVM_Node) :
    Function_constraint R x H p1 p2 =
      (active_offsets R).map (fun off =>
        (H.global_offset + off,
          x (H.local_offset + off) -
            1 / 2 * (x (p1.local_offset + off) + x (p2.local_offset + off)))) := by
  unfold Function_constraint active_offsets
  cases R.enable_Tl <;> simp

theorem Jacobian_constraint_eq (R : MetalSimulationRegion) (x : ℕ → PetscScalar)
    (H p1 p2 : FVM_Node) :
    Jacobian_constraint R x H p1 p2 =
      (active_offsets R).map (fun off =>
        (⟨H.global_offset + off,
          [H.global_offset + off, p1.global_offset + off, p2.global_offset + off],
          ⟨x (H.local_offset + off) -
            1 / 2 * (x (p1.local_offset + off) + x (p2.local_offset + off)),
            [1, -1 / 2, -1 / 2]⟩⟩ : JacobianRow)) := by
  unfold Jacobian_constraint active_offsets
  cases R.enable_Tl <;> simp [ad_constraint_eq]

theorem corner_transfers_eq (R : MetalSimulationRegion) (H c : FVM_Node) (N : ℕ) :
    corner_transfers R H c N =
      (active_offsets R).map (fun off =>
        (⟨H.global_offset + off, c.global_offset + off, 1 / (N : ℚ)⟩ : Transfer)) := by
  unfold corner_transfers active_offsets
  cases R.enable_Tl <;> simp

theorem four_corners (R : MetalSimulationRegion) (hn : HangingNode) (n0 n1 n2 n3 : FVM_Node)
    (h4 : hn.2.1.side_n_nodes hn.2.2 = 4)
    (h0 : R.region_fvm_node (hn.2.1.side_corner hn.2.2 0) = some n0)
    (h1 : R.region_fvm_node (hn.2.1.side_corner hn.2.2 1) = some n1)
    (h2 : R.region_fvm_node (hn.2.1.side_corner hn.2.2 2) = some n2)
    (h3 : R.region_fvm_node (hn.2.1.side_corner hn.2.2 3) = some n3) :
    [n0, n1, n2, n3].map some = (List.range' 0 (hn.2.1.side_n_nodes hn.2.2)).map
      (fun i => R.region_fvm_node (hn.2.1.side_corner hn.2.2 i)) := by
  simp [h4, List.range', h0, h1, h2, h3]

theorem side_nodes_of_interpolation (R : MetalSimulationRegion) (x : ℕ → PetscScalar)
    (hn : HangingNode) (ts : List Transfer) (p1 p2 : FVM_Node)
    (h : side_interpolation R x hn = .ok (ts, p1, p2)) :
    Function_side_node R x hn = .ok (ts, Function_constraint R x hn.1 p1 p2) ∧
    Jacobian_side_node R x hn = .ok (ts, Jacobian_constraint R x hn.1 p1 p2) :=
  ⟨(Function_side_node_eq_ok R x hn _).2 ⟨ts, p1, p2, h, rfl⟩,
   (Jacobian_side_node_eq_ok R x hn _).2 ⟨ts, p1, p2, h, rfl⟩⟩

theorem hanging_node_loop_none_owned {β : Type}
    (body : HangingNode → Except Fault (List Transfer × List β)) (pid : ℕ)
    (L : List HangingNode) (h : ∀ hn ∈ L, hn.1.processor_id ≠ pid) :
    hanging_node_loop body pid L = .ok ([], []) := by
  induction L with
  | nil => rfl
  | cons hn rest ih =>
    have h1 : hn.1.processor_id ≠ pid := h hn (List.mem_cons_self _ _)
    simp only [hanging_node_loop, h1, ne_eq, not_false_eq_true, if_true]
    exact ih (fun a ha => h a (List.mem_cons_of_mem _ ha))

theorem demo_Function_side_node :
    Function_side_node demoRegion demoX demoQuadNode =
      .ok (demoQuadTransfers, [(20, 0), (21, -4)]) := by
  simp [demoRegion, demoQuadNode, Function_side_node, side_interpolation, side_loop, demoElem,
    Elem.build_side, Side.get_node, deref, corner_transfers, interpolation_points,
    Function_constraint, demoX, bind, Except.bind, demoQuadTransfers]
  norm_num

theorem length_flatMap_const {α β : Type} (l : List α) (g : α → List β) (k : ℕ)
    (hg : ∀ a, (g a).length = k) : (l.flatMap g).length = l.length * k := by
  induction l with
  | nil => simp
  | cons a l ih => simp [List.flatMap_cons, ih, hg, Nat.succ_mul, Nat.add_comm]

theorem side_transfers_of_node (R : MetalSimulationRegion) (x : ℕ → PetscScalar)
    (hn : HangingNode) (ts : List Transfer)
    (h : (∃ c, Function_side_node R x hn = .ok c ∧ c.1 = ts) ∨
      (∃ c, Jacobian_side_node R x hn = .ok c ∧ c.1 = ts)) :
    ∃ p1 p2, side_interpolation R x hn = .ok (ts, p1, p2) := by
  rcases h with ⟨c, hc, rfl⟩ | ⟨c, hc, rfl⟩
  · obtain ⟨ts, p1, p2, h, rfl⟩ := (Function_side_node_eq_ok R x hn c).1 hc
    exact ⟨p1, p2, h⟩
  · obtain ⟨ts, p1, p2, h, rfl⟩ := (Jacobian_side_node_eq_ok R x hn c).1 hc
    exact ⟨p1, p2, h⟩

theorem bind_eq_error {ε α β : Type} (m : Except ε α) (f : α → Except ε β) (e : ε) :
    (m >>= f) = .error e ↔ m = .error e ∨ ∃ a, m = .ok a ∧ f a = .error e := by
  cases m <;> simp [bind, Except.bind]

theorem hanging_node_loop_complete {β : Type}
    (body : HangingNode → Except Fault (List Transfer × List β)) (pid : ℕ)
    (L : List HangingNode)
    (h : ∀ hn ∈ L, hn.1.processor_id = pid → ∃ c, body hn = .ok c) :
    ∃ b, hanging_node_loop body pid L = .ok b := by
  induction L with
  | nil => exact ⟨_, rfl⟩
  | cons hn rest ih =>
    obtain ⟨b, hb⟩ := ih (fun a ha => h a (List.mem_cons_of_mem _ ha))
    by_cases ho : hn.1.processor_id = pid
    · obtain ⟨c, hc⟩ := h hn (List.mem_cons_self _ _) ho
      exact ⟨(c.1 ++ b.1, c.2 ++ b.2), by simp [hanging_node_loop, ho, hc, hb, bind, Except.bind]⟩
    · exact ⟨b, by simp [hanging_node_loop, ho, hb]⟩

theorem hanging_node_loop_error {β : Type}
    (body : HangingNode → Except Fault (List Transfer × List β)) (pid : ℕ)
    (L : List HangingNode) (e : Fault) (h : hanging_node_loop body pid L = .error e) :
    ∃ hn ∈ L, hn.1.processor_id = pid ∧ body hn = .error e := by
  induction L with
  | nil => simp [hanging_node_loop] at h
  | cons hn rest ih =>
    by_cases ho : hn.1.processor_id = pid
    · simp only [hanging_node_loop, ho, ne_eq, not_true_eq_false, if_false, bind_eq_error] at h
      rcases h with h | ⟨c, -, h⟩
      · exact ⟨hn, List.mem_cons_self _ _, ho, h⟩
      · rcases h with h | ⟨b, -, h⟩
        · obtain ⟨a, ha, hao, hae⟩ := ih h
          exact ⟨a, List.mem_cons_of_mem _ ha, hao, hae⟩
        · simp at h
    · simp only [hanging_node_loop, ho, ne_eq, not_false_eq_true, if_true] at h
      obtain ⟨a, ha, hao, hae⟩ := ih h
      exact ⟨a, List.mem_cons_of_mem _ ha, hao, hae⟩

theorem hanging_node_loop_all_ok {β : Type}
    (body : HangingNode → Except Fault (List Transfer × List β)) (pid : ℕ)
    (L : List HangingNode) (b : List Transfer × List β)
    (h : hanging_node_loop body pid L = .ok b) :
    ∀ hn ∈ L, hn.1.processor_id = pid → ∃ c, body hn = .ok c := by
  induction L generalizing b with
  | nil => simp
  | cons hn rest ih =>
    intro a ha hao
    by_cases ho : hn.1.processor_id = pid
    · simp only [hanging_node_loop, ho, ne_eq, not_true_eq_false, if_false, bind_eq_ok] at h
      obtain ⟨c, hc, b', hb', -⟩ := h
      rcases List.mem_cons.1 ha with rfl | ha'
      · exact ⟨c, hc⟩
      · exact ih b' hb' a ha' hao
    · simp only [hanging_node_loop, ho, ne_eq, not_false_eq_true, if_true] at h
      rcases List.mem_cons.1 ha with rfl | ha'
      · exact absurd hao ho
      · exact ih b h a ha' hao

theorem side_interpolation_found (R : MetalSimulationRegion) (x : ℕ → PetscScalar)
    (hn : HangingNode)
    (hfound : ∀ i < hn.2.1.side_n_nodes hn.2.2,
      (R.region_fvm_node (hn.2.1.side_corner hn.2.2 i)).isSome = true) :
    ((hn.2.1.side_n_nodes hn.2.2 = 2 ∨ hn.2.1.side_n_nodes hn.2.2 = 4) →
      ∃ r, side_interpolation R x hn = .ok r) ∧
    ((hn.2.1.side_n_nodes hn.2.2 ≠ 2 ∧ hn.2.1.side_n_nodes hn.2.2 ≠ 4) →
      side_interpolation R x hn = .error Fault.genius_error) := by
  obtain ⟨ps, hps⟩ := exists_map_some
    (fun i => R.region_fvm_node (hn.2.1.side_corner hn.2.2 i))
    (List.range' 0 (hn.2.1.side_n_nodes hn.2.2))
    (fun i hi => hfound i (by simpa using hi))
  have hlen : ps.length = hn.2.1.side_n_nodes hn.2.2 := by
    rw [length_of_map_some _ _ _ hps, List.length_range']
  rw [side_interpolation_of_corners R x hn ps hps]
  constructor
  · intro h24
    cases hp : interpolation_points x ps with
    | ok p => exact ⟨_, rfl⟩
    | error e =>
      have := (interpolation_points_eq_error x ps e).1 hp
      omega
  · intro hbad
    rw [(interpolation_points_eq_error x ps Fault.genius_error).2
      ⟨by omega, by omega, rfl⟩]
    rfl

theorem side_node_found (R : MetalSimulationRegion) (x : ℕ → PetscScalar) (hn : HangingNode)
    (hfound : ∀ i < hn.2.1.side_n_nodes hn.2.2,
      (R.region_fvm_node (hn.2.1.side_corner hn.2.2 i)).isSome = true) :
    ((hn.2.1.side_n_nodes hn.2.2 = 2 ∨ hn.2.1.side_n_nodes hn.2.2 = 4) →
      (∃ c, Function_side_node R x hn = .ok c) ∧ (∃ c, Jacobian_side_node R x hn = .ok c)) ∧
    ((hn.2.1.side_n_nodes hn.2.2 ≠ 2 ∧ hn.2.1.side_n_nodes hn.2.2 ≠ 4) →
      Function_side_node R x hn = .error Fault.genius_error ∧
      Jacobian_side_node R x hn = .error Fault.genius_error) := by
  obtain ⟨hgood, hbad⟩ := side_interpolation_found R x hn hfound
  constructor
  · intro h24
    obtain ⟨⟨ts, p1, p2⟩, hr⟩ := hgood h24
    exact ⟨⟨_, (Function_side_node_eq_ok R x hn _).2 ⟨ts, p1, p2, hr, rfl⟩⟩,
      ⟨_, (Jacobian_side_node_eq_ok R x hn _).2 ⟨ts, p1, p2, hr, rfl⟩⟩⟩
  · intro h
    simp [Function_side_node, Jacobian_side_node, hbad h, bind, Except.bind]

theorem Function_edge_loop_no_genius_error (R : MetalSimulationRegion) (H : FVM_Node)
    (edge : SideEdge) (N : ℕ) :
    ∀ rem n, Function_edge_loop R H edge N rem n ≠ .error Fault.genius_error := by
  intro rem
  induction rem with
  | zero => intro n; simp [Function_edge_loop]
  | succ rem ih =>
    intro n h
    simp only [Function_edge_loop, bind_eq_error] at h
    rcases h with h | ⟨nd, -, h | ⟨u, -, h | ⟨q, -, h | ⟨r, -, h⟩⟩⟩⟩
    · unfold SideEdge.get_node at h; split at h <;> simp at h
    · unfold genius_assert_not_null at h; split at h <;> simp at h
    · unfold deref at h; split at h <;> simp at h
    · exact ih _ h
    · simp at h

theorem Jacobian_edge_loop_no_genius_error (R : MetalSimulationRegion) (H : FVM_Node)
    (edge : SideEdge) (N : ℕ) :
    ∀ rem n, Jacobian_edge_loop R H edge N rem n ≠ .error Fault.genius_error := by
  intro rem
  induction rem with
  | zero => intro n; simp [Jacobian_edge_loop]
  | succ rem ih =>
    intro n h
    simp only [Jacobian_edge_loop, bind_eq_error] at h
    rcases h with h | ⟨nd, -, h | ⟨q, -, h | ⟨r, -, h⟩⟩⟩
    · unfold SideEdge.get_node at h; split at h <;> simp at h
    · unfold deref at h; split at h <;> simp at h
    · exact ih _ h
    · simp at h

theorem edge_points_no_genius_error (ps : List FVM_Node) :
    edge_points ps ≠ .error Fault.genius_error := by
  unfold edge_points
  split <;> simp

theorem edge_node_no_genius_error (R : MetalSimulationRegion) (x : ℕ → PetscScalar)
    (hn : HangingNode) :
    Function_edge_node R x hn ≠ .error Fault.genius_error ∧
    Jacobian_edge_node R x hn ≠ .error Fault.genius_error := by
  constructor
  · intro h
    simp only [Function_edge_node, Function_edge_interpolation, bind_eq_error] at h
    rcases h with (h | ⟨r, -, h | ⟨p, -, h⟩⟩) | ⟨r, -, h⟩
    · exact Function_edge_loop_no_genius_error _ _ _ _ _ _ h
    · exact edge_points_no_genius_error _ h
    · simp at h
    · simp at h
  · intro h
    simp only [Jacobian_edge_node, Jacobian_edge_interpolation, bind_eq_error] at h
    rcases h with (h | ⟨r, -, h | ⟨p, -, h⟩⟩) | ⟨r, -, h⟩
    · exact Jacobian_edge_loop_no_genius_error _ _ _ _ _ _ h
    · exact edge_points_no_genius_error _ h
    · simp at h
    · simp at h

theorem edge_node_found (R : MetalSimulationRegion) (x : ℕ → PetscScalar) (hn : HangingNode)
    (hfound : 2 ≤ hn.2.1.edge_n_nodes hn.2.2 ∧ ∀ i < 2,
      (R.region_fvm_node (hn.2.1.edge_corner hn.2.2 i)).isSome = true) :
    (∃ c, Function_edge_node R x hn = .ok c) ∧ (∃ c, Jacobian_edge_node R x hn = .ok c) := by
  obtain ⟨h2, hl⟩ := hfound
  obtain ⟨p0, hp0⟩ := Option.isSome_iff_exists.1 (hl 0 (by decide))
  obtain ⟨p1, hp1⟩ := Option.isSome_iff_exists.1 (hl 1 (by decide))
  exact ⟨⟨_, (Function_edge_node_eq_ok R x hn _).2 ⟨_, p0, p1,
      (Function_edge_interpolation_eq_ok R hn _ p0 p1).2 ⟨h2, hp0, hp1, rfl⟩, rfl⟩⟩,
    ⟨_, (Jacobian_edge_node_eq_ok R x hn _).2 ⟨_, p0, p1,
      (Jacobian_edge_interpolation_eq_ok R hn _ p0 p1).2 ⟨h2, hp0, hp1, rfl⟩, rfl⟩⟩⟩

theorem hanging_node_loop_dichotomy {β : Type}
    (body : HangingNode → Except Fault (List Transfer × List β)) (pid : ℕ)
    (L : List HangingNode) (good : HangingNode → Prop)
    (hgood : ∀ hn ∈ L, hn.1.processor_id = pid → good hn → ∃ c, body hn = .ok c)
    (hbad : ∀ hn ∈ L, hn.1.processor_id = pid → ¬ good hn →
      body hn = .error Fault.genius_error) :
    ((∃ hn ∈ L, hn.1.processor_id = pid ∧ ¬ good hn) →
      hanging_node_loop body pid L = .error Fault.genius_error) ∧
    ((¬ ∃ hn ∈ L, hn.1.processor_id = pid ∧ ¬ good hn) →
      ∃ b, hanging_node_loop body pid L = .ok b) := by
  constructor
  · rintro ⟨hn, hmem, ho, hng⟩
    cases h : hanging_node_loop body pid L with
    | ok b =>
      obtain ⟨c, hc⟩ := hanging_node_loop_all_ok body pid L b h hn hmem ho
      rw [hbad hn hmem ho hng] at hc
      simp at hc
    | error e =>
      obtain ⟨a, ha, hao, hae⟩ := hanging_node_loop_error body pid L e h
      by_cases hg : good a
      · obtain ⟨c, hc⟩ := hgood a ha hao hg
        rw [hc] at hae
        simp at hae
      · rw [hbad a ha hao hg] at hae
        simp only [Except.error.injEq] at hae
        rw [hae]
  · intro hnone
    refine hanging_node_loop_complete body pid L (fun hn hmem ho => hgood hn hmem ho ?_)
    by_contra hng
    exact hnone ⟨hn, hmem, ho, hng⟩

theorem side_buffers_complete (R : MetalSimulationRegion) (pid : ℕ) (x : ℕ → PetscScalar)
    (h : side_entries_regular R pid) :
    (∃ b, Function_side_buffers R pid x = .ok b) ∧
    (∃ b, Jacobian_side_buffers R pid x = .ok b) :=
  ⟨hanging_node_loop_complete _ pid _
      (fun hn hmem ho => ((side_node_found R x hn (h hn hmem ho).2).1 (h hn hmem ho).1).1),
    hanging_node_loop_complete _ pid _
      (fun hn hmem ho => ((side_node_found R x hn (h hn hmem ho).2).1 (h hn hmem ho).1).2)⟩

theorem edge_buffers_complete (R : MetalSimulationRegion) (pid : ℕ) (x : ℕ → PetscScalar)
    (h : edge_entries_regular R pid) :
    (∃ b, Function_edge_buffers R pid x = .ok b) ∧
    (∃ b, Jacobian_edge_buffers R pid x = .ok b) :=
  ⟨hanging_node_loop_complete _ pid _
      (fun hn hmem ho => (edge_node_found R x hn (h hn hmem ho)).1),
    hanging_node_loop_complete _ pid _
      (fun hn hmem ho => (edge_node_found R x hn (h hn hmem ho)).2)⟩

theorem demo_side_entries_regular : side_entries_regular demoRegion 0 := by
  decide

theorem demo_edge_entries_regular : edge_entries_regular demoRegion 0 := by
  decide

theorem interpolation_points_mem (x : ℕ → PetscScalar) (ps : List FVM_Node)
    (p : FVM_Node × FVM_Node) (h : interpolation_points x ps = .ok p) :
    p.1 ∈ ps ∧ p.2 ∈ ps := by
  match ps with
  | [] => simp [interpolation_points] at h
  | [_] => simp [interpolation_points] at h
  | [s0, s1] =>
    simp only [interpolation_points, Except.ok.injEq] at h
    subst h
    simp
  | [_, _, _] => simp [interpolation_points] at h
  | [s0, s1, s2, s3] =>
    simp only [interpolation_points] at h
    split at h <;>
    · simp only [Except.ok.injEq] at h
      subst h
      simp
  | _ :: _ :: _ :: _ :: _ :: _ => simp [interpolation_points] at h

theorem VecAddRowToRow_nil (f : Vec) : VecAddRowToRow f [] = f := by
  funext r
  simp [VecAddRowToRow]

theorem MatAddRowToRow_nil (jac : Mat) : MatAddRowToRow jac [] = jac := by
  funext r c
  simp [MatAddRowToRow]

theorem Function_flush_nil (f : Vec) : Function_flush f ([], []) = f := by
  simp [Function_flush, VecAddRowToRow_nil]

theorem Jacobian_flush_nil (jac : Mat) : Jacobian_flush jac ([], []) = jac := by
  funext r c
  simp [Jacobian_flush, MatAddRowToRow_nil, MatZeroRows]

theorem hanging_flag_false (R : MetalSimulationRegion)
    (hhang : R.has_2d_hanging_node = true ∨ R.has_3d_hanging_node = true) :
    (!R.has_2d_hanging_node && !R.has_3d_hanging_node) = false := by
  rcases hhang with h | h <;> simp [h]

theorem EBM3_Function_eq_ok (R : MetalSimulationRegion) (pid : ℕ) (x : ℕ → PetscScalar)
    (f : Vec) (flag : InsertMode)
    (hhang : R.has_2d_hanging_node = true ∨ R.has_3d_hanging_node = true)
    (r : Vec × InsertMode) :
    EBM3_Function_Hanging_Node R pid x f flag = .ok r ↔
      ∃ s e, Function_side_buffers R pid x = .ok s ∧ Function_edge_buffers R pid x = .ok e ∧
        r = (Function_flush (Function_flush f s) e, InsertMode.INSERT_VALUES) := by
  simp only [EBM3_Function_Hanging_Node, hanging_flag_false R hhang, Bool.false_eq_true,
    if_false, bind_eq_ok, Except.ok.injEq]
  constructor
  · rintro ⟨s, hs, e, he, rfl⟩; exact ⟨s, e, hs, he, rfl⟩
  · rintro ⟨s, e, hs, he, rfl⟩; exact ⟨s, hs, e, he, rfl⟩

theorem EBM3_Jacobian_eq_ok (R : MetalSimulationRegion) (pid : ℕ) (x : ℕ → PetscScalar)
    (jac : Mat) (flag : InsertMode)
    (hhang : R.has_2d_hanging_node = true ∨ R.has_3d_hanging_node = true)
    (r : Mat × InsertMode) :
    EBM3_Jacobian_Hanging_Node R pid x jac flag = .ok r ↔
      ∃ s e, Jacobian_side_buffers R pid x = .ok s ∧ Jacobian_edge_buffers R pid x = .ok e ∧
        r = (Jacobian_flush (Jacobian_flush jac s) e, InsertMode.INSERT_VALUES) := by
  simp only [EBM3_Jacobian_Hanging_Node, hanging_flag_false R hhang, Bool.false_eq_true,
    if_false, bind_eq_ok, Except.ok.injEq]
  constructor
  · rintro ⟨s, hs, e, he, rfl⟩; exact ⟨s, e, hs, he, rfl⟩
  · rintro ⟨s, e, hs, he, rfl⟩; exact ⟨s, hs, e, he, rfl⟩

theorem VecSetValues_of_not_mem (ins : List (ℕ × PetscScalar)) :
    ∀ (f : Vec) (r : ℕ), r ∉ ins.map Prod.fst → VecSetValues f ins r = f r := by
  induction ins with
  | nil => intro f r _; rfl
  | cons p ins ih =>
    intro f r hr
    simp only [List.map_cons, List.mem_cons, not_or] at hr
    simp only [VecSetValues, List.foldl_cons]
    have := ih (Function.update f p.1 p.2) r hr.2
    simp only [VecSetValues] at this
    rw [this, Function.update_noteq hr.1]

theorem VecSetValues_of_mem (ins : List (ℕ × PetscScalar)) :
    ∀ (f : Vec) (p : ℕ × PetscScalar), (ins.map Prod.fst).Nodup → p ∈ ins →
      VecSetValues f ins p.1 = p.2 := by
  induction ins with
  | nil => intro f p _ hp; simp at hp
  | cons q ins ih =>
    intro f p hnd hp
    simp only [List.map_cons, List.nodup_cons] at hnd
    simp only [VecSetValues, List.foldl_cons]
    rcases List.mem_cons.1 hp with rfl | hp'
    · have := VecSetValues_of_not_mem ins (Function.update f p.1 p.2) p.1 hnd.1
      simp only [VecSetValues] at this
      rw [this, Function.update_same]
    · have := ih (Function.update f q.1 q.2) p hnd.2 hp'
      simpa only [VecSetValues] using this

theorem MatSetValues_apply (cols : List ℕ) (vals : List PetscScalar) :
    ∀ (jac : Mat) (row r : ℕ), MatSetValues jac row cols vals r =
      if r = row then
        (cols.zip vals).foldl (fun g cv => Function.update g cv.1 cv.2) (jac row)
      else jac r := by
  unfold MatSetValues
  generalize cols.zip vals = l
  induction l with
  | nil => intro jac row r; by_cases h : r = row <;> simp [h]
  | cons cv l ih =>
    intro jac row r
    simp only [List.foldl_cons]
    rw [ih]
    by_cases h : r = row
    · simp [h]
    · simp [h, Function.update_noteq h]

theorem insert_rows_of_not_mem (rows : List JacobianRow) :
    ∀ (jac : Mat) (r : ℕ), r ∉ rows.map (·.row) →
      rows.foldl (fun j jr => MatSetValues j jr.row jr.cols jr.ad_value.getADValue) jac r =
        jac r := by
  induction rows with
  | nil => intro jac r _; rfl
  | cons a rows ih =>
    intro jac r hr
    simp only [List.map_cons, List.mem_cons, not_or] at hr
    simp only [List.foldl_cons]
    rw [ih _ r hr.2, MatSetValues_apply, if_neg hr.1]

theorem insert_rows_of_mem (rows : List JacobianRow) :
    ∀ (jac : Mat) (jr : JacobianRow), (rows.map (·.row)).Nodup → jr ∈ rows →
      rows.foldl (fun j a => MatSetValues j a.row a.cols a.ad_value.getADValue) jac jr.row =
        (jr.cols.zip jr.ad_value.getADValue).foldl
          (fun g cv => Function.update g cv.1 cv.2) (jac jr.row) := by
  induction rows with
  | nil => intro jac jr _ h; simp at h
  | cons a rows ih =>
    intro jac jr hnd hmem
    simp only [List.map_cons, List.nodup_cons] at hnd
    simp only [List.foldl_cons]
    rcases List.mem_cons.1 hmem with rfl | hm
    · rw [insert_rows_of_not_mem rows _ _ hnd.1, MatSetValues_apply, if_pos rfl]
    · have hne : jr.row ≠ a.row := by
        intro h
        exact hnd.1 (h ▸ List.mem_map_of_mem (·.row) hm)
      rw [ih _ jr hnd.2 hm, MatSetValues_apply, if_neg hne]

theorem Function_flush_of_not_mem (f : Vec) (b : List Transfer × List (ℕ × PetscScalar))
    (r : ℕ) (hr : r ∉ b.2.map Prod.fst) :
    Function_flush f b r = VecAddRowToRow f b.1 r := by
  unfold Function_flush
  split
  · exact VecSetValues_of_not_mem _ _ _ hr
  · rfl

theorem Function_flush_of_mem (f : Vec) (b : List Transfer × List (ℕ × PetscScalar))
    (p : ℕ × PetscScalar) (hnd : (b.2.map Prod.fst).Nodup) (hp : p ∈ b.2) :
    Function_flush f b p.1 = p.2 := by
  unfold Function_flush
  have hne : b.2.length ≠ 0 := by
    intro h
    rw [List.length_eq_zero] at h
    rw [h] at hp
    simp at hp
  simp only [hne, ne_eq, not_false_eq_true, if_true]
  exact VecSetValues_of_mem _ _ p hnd hp

theorem Jacobian_flush_of_not_mem (jac : Mat) (b : List Transfer × List JacobianRow)
    (r : ℕ) (hr : r ∉ b.2.map (·.row)) :
    Jacobian_flush jac b r = MatAddRowToRow jac b.1 r := by
  unfold Jacobian_flush
  rw [insert_rows_of_not_mem _ _ _ hr]
  funext c
  simp only [MatZeroRows, if_neg hr]

theorem Jacobian_flush_of_mem (jac : Mat) (b : List Transfer × List JacobianRow)
    (jr : JacobianRow) (hnd : (b.2.map (·.row)).Nodup) (hjr : jr ∈ b.2) :
    Jacobian_flush jac b jr.row =
      (jr.cols.zip jr.ad_value.getADValue).foldl
        (fun g cv => Function.update g cv.1 cv.2) (fun _ => 0) := by
  unfold Jacobian_flush
  rw [insert_rows_of_mem _ _ jr hnd hjr]
  congr 1
  funext c
  simp only [MatZeroRows, if_pos (List.mem_map_of_mem (·.row) hjr)]

theorem loop_keys {β : Type} (R : MetalSimulationRegion)
    (body : HangingNode → Except Fault (List Transfer × List β)) (key : β → ℕ)
    (hbody : ∀ hn c, body hn = .ok c → c.2.map key = constraint_rows R hn.1) :
    ∀ (L : List HangingNode) (cs : List (List Transfer × List β)),
      List.Forall₂ (fun hn c => body hn = .ok c) L cs →
      ((cs.map Prod.snd).flatten).map key = L.flatMap (fun hn => constraint_rows R hn.1) := by
  intro L cs h
  induction h with
  | nil => rfl
  | cons hc _ ih =>
    simp only [List.map_cons, List.flatten_cons, List.map_append, List.flatMap_cons, ih,
      hbody _ _ hc]

theorem loop_mem {β : Type} (body : HangingNode → Except Fault (List Transfer × List β)) :
    ∀ (L : List HangingNode) (cs : List (List Transfer × List β)),
      List.Forall₂ (fun hn c => body hn = .ok c) L cs →
      ∀ hn ∈ L, ∃ c, body hn = .ok c ∧ ∀ e ∈ c.2, e ∈ (cs.map Prod.snd).flatten := by
  intro L cs h
  induction h with
  | nil => intro hn hmem; simp at hmem
  | cons hc htail ih =>
    rename_i a c L' cs'
    intro hn hmem
    rcases List.mem_cons.1 hmem with rfl | hm
    · exact ⟨c, hc, fun e he => by simp [he]⟩
    · obtain ⟨c', hc', hsub⟩ := ih hn hm
      exact ⟨c', hc', fun e he => by simp [hsub e he]⟩

theorem mem_owned_filter (pid : ℕ) (L : List HangingNode) (hn : HangingNode)
    (hmem : hn ∈ L) (ho : hn.1.processor_id = pid) : hn ∈ L.filter (owned pid) := by
  simp [List.mem_filter, hmem, owned, ho]

theorem Function_constraint_keys (R : MetalSimulationRegion) (x : ℕ → PetscScalar)
    (H p1 p2 : FVM_Node) :
    (Function_constraint R x H p1 p2).map Prod.fst = constraint_rows R H := by
  simp [Function_constraint_eq, constraint_rows, Function.comp_def]

theorem Jacobian_constraint_keys (R : MetalSimulationRegion) (x : ℕ → PetscScalar)
    (H p1 p2 : FVM_Node) :
    (Jacobian_constraint R x H p1 p2).map (·.row) = constraint_rows R H := by
  simp [Jacobian_constraint_eq, constraint_rows, Function.comp_def]

theorem Function_loop_entry (R : MetalSimulationRegion) (pid : ℕ) (x : ℕ → PetscScalar)
    (body : HangingNode → Except Fault (List Transfer × List (ℕ × PetscScalar)))
    (interp : HangingNode → Except Fault (List Transfer × FVM_Node × FVM_Node))
    (hbody : ∀ hn c, body hn = .ok c ↔
      ∃ ts p1 p2, interp hn = .ok (ts, p1, p2) ∧ c = (ts, Function_constraint R x hn.1 p1 p2))
    (L : List HangingNode) (b : List Transfer × List (ℕ × PetscScalar))
    (hb : hanging_node_loop body pid L = .ok b) (hnd : (owned_rows R pid L).Nodup)
    (hn : HangingNode) (hmem : hn ∈ L) (ho : hn.1.processor_id = pid)
    (ts : List Transfer) (P1 P2 : FVM_Node) (hi : interp hn = .ok (ts, P1, P2))
    (off : ℕ) (hoff : off ∈ active_offsets R) (f : Vec) :
    Function_flush f b (hn.1.global_offset + off) =
      x (hn.1.local_offset + off) -
        1 / 2 * (x (P1.local_offset + off) + x (P2.local_offset + off)) := by
  obtain ⟨cs, hcs, rfl⟩ := (hanging_node_loop_ok body pid L b).1 hb
  have hkeys : ((cs.map Prod.snd).flatten).map Prod.fst = owned_rows R pid L :=
    loop_keys R body Prod.fst (fun a c hc => by
      obtain ⟨ts', p1, p2, -, rfl⟩ := (hbody a c).1 hc
      exact Function_constraint_keys R x a.1 p1 p2) _ cs hcs
  obtain ⟨c, hc, hsub⟩ := loop_mem body _ cs hcs hn (mem_owned_filter pid L hn hmem ho)
  obtain ⟨ts', p1, p2, hi', rfl⟩ := (hbody hn c).1 hc
  rw [hi] at hi'
  simp only [Except.ok.injEq, Prod.mk.injEq] at hi'
  obtain ⟨-, rfl, rfl⟩ := hi'
  have hp : (hn.1.global_offset + off, x (hn.1.local_offset + off) -
      1 / 2 * (x (P1.local_offset + off) + x (P2.local_offset + off))) ∈
      (cs.map Prod.snd).flatten := by
    apply hsub
    simp only [Function_constraint_eq, List.mem_map]
    exact ⟨off, hoff, rfl⟩
  have hnd' : (((cs.map Prod.snd).flatten).map Prod.fst).Nodup := by
    rw [hkeys]; exact hnd
  exact Function_flush_of_mem f ((cs.map Prod.fst).flatten, (cs.map Prod.snd).flatten) _
    hnd' hp

theorem update_chain3 (c0 c1 c2 : ℕ) (h01 : c0 ≠ c1) (h02 : c0 ≠ c2) (h12 : c1 ≠ c2)
    (c : ℕ) :
    (([c0, c1, c2].zip [(1 : ℚ), -1 / 2, -1 / 2]).foldl
      (fun g cv => Function.update g cv.1 cv.2) (fun _ => (0 : ℚ))) c =
      if c = c0 then (1 : ℚ) else if c = c1 then -1 / 2 else if c = c2 then -1 / 2 else 0 := by
  simp only [List.zip_cons_cons, List.zip_nil_right, List.foldl_cons, List.foldl_nil,
    Function.update_apply]
  by_cases e0 : c = c0
  · subst e0; simp [h01, h02]
  · by_cases e1 : c = c1
    · subst e1; simp [e0, h12]
    · simp [e0, e1]

theorem Jacobian_loop_entry (R : MetalSimulationRegion) (pid : ℕ) (x : ℕ → PetscScalar)
    (body : HangingNode → Except Fault (List Transfer × List JacobianRow))
    (interp : HangingNode → Except Fault (List Transfer × FVM_Node × FVM_Node))
    (hbody : ∀ hn c, body hn = .ok c ↔
      ∃ ts p1 p2, interp hn = .ok (ts, p1, p2) ∧ c = (ts, Jacobian_constraint R x hn.1 p1 p2))
    (L : List HangingNode) (b : List Transfer × List JacobianRow)
    (hb : hanging_node_loop body pid L = .ok b) (hnd : (owned_rows R pid L).Nodup)
    (hn : HangingNode) (hmem : hn ∈ L) (ho : hn.1.processor_id = pid)
    (ts : List Transfer) (P1 P2 : FVM_Node) (hi : interp hn = .ok (ts, P1, P2))
    (h01 : hn.1.global_offset ≠ P1.global_offset) (h02 : hn.1.global_offset ≠ P2.global_offset)
    (h12 : P1.global_offset ≠ P2.global_offset)
    (off : ℕ) (hoff : off ∈ active_offsets R) (jac : Mat) (c : ℕ) :
    Jacobian_flush jac b (hn.1.global_offset + off) c =
      if c = hn.1.global_offset + off then 1
      else if c = P1.global_offset + off then -1 / 2
      else if c = P2.global_offset + off then -1 / 2 else 0 := by
  obtain ⟨cs, hcs, rfl⟩ := (hanging_node_loop_ok body pid L b).1 hb
  have hkeys : ((cs.map Prod.snd).flatten).map (·.row) = owned_rows R pid L :=
    loop_keys R body (·.row) (fun a c hc => by
      obtain ⟨ts', p1, p2, -, rfl⟩ := (hbody a c).1 hc
      exact Jacobian_constraint_keys R x a.1 p1 p2) _ cs hcs
  obtain ⟨c', hc, hsub⟩ := loop_mem body _ cs hcs hn (mem_owned_filter pid L hn hmem ho)
  obtain ⟨ts', p1, p2, hi', rfl⟩ := (hbody hn c').1 hc
  rw [hi] at hi'
  simp only [Except.ok.injEq, Prod.mk.injEq] at hi'
  obtain ⟨-, rfl, rfl⟩ := hi'
  have hp : (⟨hn.1.global_offset + off,
      [hn.1.global_offset + off, P1.global_offset + off, P2.global_offset + off],
      ⟨x (hn.1.local_offset + off) -
        1 / 2 * (x (P1.local_offset + off) + x (P2.local_offset + off)),
        [1, -1 / 2, -1 / 2]⟩⟩ : JacobianRow) ∈ (cs.map Prod.snd).flatten := by
    apply hsub
    simp only [Jacobian_constraint_eq, List.mem_map]
    exact ⟨off, hoff, rfl⟩
  have hnd' : (((cs.map Prod.snd).flatten).map (·.row)).Nodup := by
    rw [hkeys]; exact hnd
  have hflush := Jacobian_flush_of_mem jac
    ((cs.map Prod.fst).flatten, (cs.map Prod.snd).flatten) _ hnd' hp
  simp only at hflush
  rw [hflush]
  exact update_chain3 _ _ _ (by omega) (by omega) (by omega) c

theorem demo_side_interpolation :
    side_interpolation demoRegion demoX demoQuadNode =
      .ok (demoQuadTransfers, ⟨0, 2, 2⟩, ⟨0, 6, 6⟩) := by
  simp [demoRegion, demoQuadNode, side_interpolation, side_loop, demoElem, Elem.build_side,
    Side.get_node, deref, corner_transfers, interpolation_points, demoX, bind, Except.bind,
    demoQuadTransfers]

theorem demo_Function_edge_interpolation :
    Function_edge_interpolation demoRegion demoEdgeNode =
      .ok (demoEdgeTransfers, ⟨0, 2, 2⟩, ⟨0, 4, 4⟩) := by
  simp [demoRegion, demoEdgeNode, Function_edge_interpolation, Function_edge_loop, demoElem,
    Elem.build_edge, SideEdge.get_node, genius_assert_not_null, deref, corner_transfers,
    edge_points, bind, Except.bind, demoEdgeTransfers]

theorem demo_Jacobian_edge_interpolation :
    Jacobian_edge_interpolation demoRegion demoEdgeNode =
      .ok (demoEdgeTransfers, ⟨0, 2, 2⟩, ⟨0, 4, 4⟩) := by
  simp [demoRegion, demoEdgeNode, Jacobian_edge_interpolation, Jacobian_edge_loop, demoElem,
    Elem.build_edge, SideEdge.get_node, deref, corner_transfers, edge_points, bind,
    Except.bind, demoEdgeTransfers]

theorem demo_quad_mem : demoQuadNode ∈ demoRegion.hanging_node_on_elem_side := by
  simp [demoRegion, demoQuadNode]

theorem demo_edge_mem : demoEdgeNode ∈ demoRegion.hanging_node_on_elem_edge := by
  simp [demoRegion, demoEdgeNode]

theorem demo_active_offsets : active_offsets demoRegion = [0, 1] := by
  simp [active_offsets, demoRegion]

theorem Function_loop_pair (R : MetalSimulationRegion) (pid : ℕ) (x : ℕ → PetscScalar)
    (body : HangingNode → Except Fault (List Transfer × List (ℕ × PetscScalar)))
    (interp : HangingNode → Except Fault (List Transfer × FVM_Node × FVM_Node))
    (hbody : ∀ hn c, body hn = .ok c ↔
      ∃ ts p1 p2, interp hn = .ok (ts, p1, p2) ∧ c = (ts, Function_constraint R x hn.1 p1 p2))
    (L : List HangingNode) (b : List Transfer × List (ℕ × PetscScalar))
    (hb : hanging_node_loop body pid L = .ok b)
    (hn : HangingNode) (hmem : hn ∈ L) (ho : hn.1.processor_id = pid)
    (ts : List Transfer) (P1 P2 : FVM_Node) (hi : interp hn = .ok (ts, P1, P2))
    (off : ℕ) (hoff : off ∈ active_offsets R) :
    (hn.1.global_offset + off, x (hn.1.local_offset + off) -
      1 / 2 * (x (P1.local_offset + off) + x (P2.local_offset + off))) ∈ b.2 := by
  obtain ⟨cs, hcs, rfl⟩ := (hanging_node_loop_ok body pid L b).1 hb
  obtain ⟨c, hc, hsub⟩ := loop_mem body _ cs hcs hn (mem_owned_filter pid L hn hmem ho)
  obtain ⟨ts', p1, p2, hi', rfl⟩ := (hbody hn c).1 hc
  rw [hi] at hi'
  simp only [Except.ok.injEq, Prod.mk.injEq] at hi'
  obtain ⟨-, rfl, rfl⟩ := hi'
  apply hsub
  simp only [Function_constraint_eq, List.mem_map]
  exact ⟨off, hoff, rfl⟩

theorem flush_comm {α : Type} [AddCommGroup α] (Fs Fe : (ℕ → α) → ℕ → α)
    (Ks Ke Ds De : ℕ → Prop)
    (hs1 : ∀ g g' r, Ks r → Fs g r = Fs g' r)
    (hs2 : ∀ g r, ¬ Ks r → ¬ Ds r → Fs g r = g r)
    (hs3 : ∀ g g' r, ¬ Ks r → (∀ k, Ks k → g k = g' k) → Fs g r - g r = Fs g' r - g' r)
    (he1 : ∀ g g' r, Ke r → Fe g r = Fe g' r)
    (he2 : ∀ g r, ¬ Ke r → ¬ De r → Fe g r = g r)
    (he3 : ∀ g g' r, ¬ Ke r → (∀ k, Ke k → g k = g' k) → Fe g r - g r = Fe g' r - g' r)
    (hK : ∀ r, Ks r → ¬ Ke r) (hDe : ∀ r, De r → ¬ Ks r) (hDs : ∀ r, Ds r → ¬ Ke r)
    (f : ℕ → α) : Fe (Fs f) = Fs (Fe f) := by
  funext r
  by_cases hrs : Ks r
  · rw [he2 _ r (hK r hrs) (fun h => hDe r h hrs), hs1 (Fe f) f r hrs]
  · by_cases hre : Ke r
    · rw [he1 (Fs f) f r hre, hs2 _ r hrs (fun h => hDs r h hre)]
    · have h1 := he3 (Fs f) f r hre
        (fun k hk => hs2 f k (fun h => hK k h hk) (fun h => hDs k h hk))
      have h2 := hs3 (Fe f) f r hrs
        (fun k hk => he2 f k (hK k hk) (fun h => hDe k h hk))
      have e1 : Fe (Fs f) r = Fe f r - f r + Fs f r := by rw [← h1]; abel
      have e2 : Fs (Fe f) r = Fs f r - f r + Fe f r := by rw [← h2]; abel
      rw [e1, e2]
      abel

theorem VecSetValues_congr (ins : List (ℕ × PetscScalar)) :
    ∀ (f g : Vec) (r : ℕ), r ∈ ins.map Prod.fst → VecSetValues f ins r = VecSetValues g ins r := by
  induction ins with
  | nil => intro f g r hr; simp at hr
  | cons p ins ih =>
    intro f g r hr
    simp only [VecSetValues, List.foldl_cons]
    by_cases h : r ∈ ins.map Prod.fst
    · exact ih _ _ r h
    · have hrp : r = p.1 := by
        rcases List.mem_cons.1 hr with h' | h'
        · exact h'
        · exact absurd h' h
      have e1 := VecSetValues_of_not_mem ins (Function.update f p.1 p.2) r h
      have e2 := VecSetValues_of_not_mem ins (Function.update g p.1 p.2) r h
      simp only [VecSetValues] at e1 e2
      rw [e1, e2, hrp, Function.update_same, Function.update_same]

theorem Function_flush_congr (b : List Transfer × List (ℕ × PetscScalar)) (f g : Vec) (r : ℕ)
    (hr : r ∈ b.2.map Prod.fst) : Function_flush f b r = Function_flush g b r := by
  have hne : b.2.length ≠ 0 := by
    intro h
    rw [List.length_eq_zero] at h
    rw [h] at hr
    simp at hr
  unfold Function_flush
  simp only [hne, ne_eq, not_false_eq_true, if_true]
  exact VecSetValues_congr _ _ _ r hr

theorem filter_dst_nil (ts : List Transfer) (r : ℕ) (hr : r ∉ ts.map (·.dst_row)) :
    ts.filter (fun t => decide (t.dst_row = r)) = [] := by
  rw [List.filter_eq_nil_iff]
  intro t ht h
  simp only [decide_eq_true_eq] at h
  exact hr (h ▸ List.mem_map_of_mem (·.dst_row) ht)

theorem Function_flush_untouched (b : List Transfer × List (ℕ × PetscScalar)) (g : Vec) (r : ℕ)
    (hk : r ∉ b.2.map Prod.fst) (hd : r ∉ b.1.map (·.dst_row)) : Function_flush g b r = g r := by
  rw [Function_flush_of_not_mem g b r hk]
  simp [VecAddRowToRow, filter_dst_nil b.1 r hd]

theorem Function_flush_increase (b : List Transfer × List (ℕ × PetscScalar)) (g g' : Vec)
    (r : ℕ) (hk : r ∉ b.2.map Prod.fst)
    (hsrc : ∀ t ∈ b.1, g t.src_row = g' t.src_row) :
    Function_flush g b r - g r = Function_flush g' b r - g' r := by
  rw [Function_flush_of_not_mem g b r hk, Function_flush_of_not_mem g' b r hk]
  simp only [VecAddRowToRow, add_sub_cancel_left]
  congr 1
  apply List.map_congr_left
  intro t ht
  rw [hsrc t (List.mem_of_mem_filter ht)]

theorem insert_rows_congr (rows : List JacobianRow) :
    ∀ (J J' : Mat) (r : ℕ), J r = J' r →
      rows.foldl (fun j a => MatSetValues j a.row a.cols a.ad_value.getADValue) J r =
        rows.foldl (fun j a => MatSetValues j a.row a.cols a.ad_value.getADValue) J' r := by
  induction rows with
  | nil => intro J J' r h; exact h
  | cons a rows ih =>
    intro J J' r h
    simp only [List.foldl_cons]
    apply ih
    rw [MatSetValues_apply, MatSetValues_apply]
    by_cases hr : r = a.row
    · subst hr; simp [h]
    · simp [hr, h]

theorem Jacobian_flush_congr (b : List Transfer × List JacobianRow) (J J' : Mat) (r : ℕ)
    (hr : r ∈ b.2.map (·.row)) : Jacobian_flush J b r = Jacobian_flush J' b r := by
  unfold Jacobian_flush
  apply insert_rows_congr
  funext c
  simp only [MatZeroRows, if_pos hr]

theorem Jacobian_flush_untouched (b : List Transfer × List JacobianRow) (J : Mat) (r : ℕ)
    (hk : r ∉ b.2.map (·.row)) (hd : r ∉ b.1.map (·.dst_row)) : Jacobian_flush J b r = J r := by
  rw [Jacobian_flush_of_not_mem J b r hk]
  funext c
  simp [MatAddRowToRow, filter_dst_nil b.1 r hd]

theorem Jacobian_flush_increase (b : List Transfer × List JacobianRow) (J J' : Mat)
    (r : ℕ) (hk : r ∉ b.2.map (·.row))
    (hsrc : ∀ t ∈ b.1, J t.src_row = J' t.src_row) :
    Jacobian_flush J b r - J r = Jacobian_flush J' b r - J' r := by
  rw [Jacobian_flush_of_not_mem J b r hk, Jacobian_flush_of_not_mem J' b r hk]
  funext c
  simp only [Pi.sub_apply, MatAddRowToRow, add_sub_cancel_left]
  congr 1
  apply List.map_congr_left
  intro t ht
  rw [hsrc t (List.mem_of_mem_filter ht)]

theorem Function_flush_comm (s e : List Transfer × List (ℕ × PetscScalar))
    (hs : ∀ t ∈ s.1, t.src_row ∈ s.2.map Prod.fst)
    (he : ∀ t ∈ e.1, t.src_row ∈ e.2.map Prod.fst)
    (hK : ∀ r ∈ s.2.map Prod.fst, r ∉ e.2.map Prod.fst)
    (hDs : ∀ t ∈ s.1, t.dst_row ∉ e.2.map Prod.fst)
    (hDe : ∀ t ∈ e.1, t.dst_row ∉ s.2.map Prod.fst) (f : Vec) :
    Function_flush (Function_flush f s) e = Function_flush (Function_flush f e) s :=
  flush_comm (fun g => Function_flush g s) (fun g => Function_flush g e)
    (fun r => r ∈ s.2.map Prod.fst) (fun r => r ∈ e.2.map Prod.fst)
    (fun r => r ∈ s.1.map (·.dst_row)) (fun r => r ∈ e.1.map (·.dst_row))
    (fun g g' r hr => Function_flush_congr s g g' r hr)
    (fun g r hk hd => Function_flush_untouched s g r hk hd)
    (fun g g' r hk h => Function_flush_increase s g g' r hk (fun t ht => h _ (hs t ht)))
    (fun g g' r hr => Function_flush_congr e g g' r hr)
    (fun g r hk hd => Function_flush_untouched e g r hk hd)
    (fun g g' r hk h => Function_flush_increase e g g' r hk (fun t ht => h _ (he t ht)))
    hK
    (fun r hr hk => by
      obtain ⟨t, ht, rfl⟩ := List.mem_map.1 hr
      exact hDe t ht hk)
    (fun r hr hk => by
      obtain ⟨t, ht, rfl⟩ := List.mem_map.1 hr
      exact hDs t ht hk) f

theorem Jacobian_flush_comm (s e : List Transfer × List JacobianRow)
    (hs : ∀ t ∈ s.1, t.src_row ∈ s.2.map (·.row))
    (he : ∀ t ∈ e.1, t.src_row ∈ e.2.map (·.row))
    (hK : ∀ r ∈ s.2.map (·.row), r ∉ e.2.map (·.row))
    (hDs : ∀ t ∈ s.1, t.dst_row ∉ e.2.map (·.row))
    (hDe : ∀ t ∈ e.1, t.dst_row ∉ s.2.map (·.row)) (jac : Mat) :
    Jacobian_flush (Jacobian_flush jac s) e = Jacobian_flush (Jacobian_flush jac e) s :=
  flush_comm (fun g => Jacobian_flush g s) (fun g => Jacobian_flush g e)
    (fun r => r ∈ s.2.map (·.row)) (fun r => r ∈ e.2.map (·.row))
    (fun r => r ∈ s.1.map (·.dst_row)) (fun r => r ∈ e.1.map (·.dst_row))
    (fun g g' r hr => Jacobian_flush_congr s g g' r hr)
    (fun g r hk hd => Jacobian_flush_untouched s g r hk hd)
    (fun g g' r hk h => Jacobian_flush_increase s g g' r hk (fun t ht => h _ (hs t ht)))
    (fun g g' r hr => Jacobian_flush_congr e g g' r hr)
    (fun g r hk hd => Jacobian_flush_untouched e g r hk hd)
    (fun g g' r hk h => Jacobian_flush_increase e g g' r hk (fun t ht => h _ (he t ht)))
    hK
    (fun r hr hk => by
      obtain ⟨t, ht, rfl⟩ := List.mem_map.1 hr
      exact hDe t ht hk)
    (fun r hr hk => by
      obtain ⟨t, ht, rfl⟩ := List.mem_map.1 hr
      exact hDs t ht hk) jac

theorem corner_transfers_src (R : MetalSimulationRegion) (H c : FVM_Node) (N : ℕ)
    (t : Transfer) (ht : t ∈ corner_transfers R H c N) : t.src_row ∈ constraint_rows R H := by
  rw [corner_transfers_eq] at ht
  obtain ⟨off, hoff, rfl⟩ := List.mem_map.1 ht
  exact List.mem_map.2 ⟨off, hoff, rfl⟩

theorem corners_transfers_src (R : MetalSimulationRegion) (H : FVM_Node) (N : ℕ)
    (ps : List FVM_Node) (t : Transfer)
    (ht : t ∈ ps.flatMap (fun c => corner_transfers R H c N)) :
    t.src_row ∈ constraint_rows R H := by
  obtain ⟨c, -, hc⟩ := List.mem_flatMap.1 ht
  exact corner_transfers_src R H c N t hc

theorem loop_rows {β : Type} (R : MetalSimulationRegion) (pid : ℕ)
    (body : HangingNode → Except Fault (List Transfer × List β)) (key : β → ℕ)
    (hbody : ∀ hn c, body hn = .ok c → c.2.map key = constraint_rows R hn.1 ∧
      ∃ (N : ℕ) (ps : List FVM_Node), c.1 = ps.flatMap (fun p => corner_transfers R hn.1 p N))
    (L : List HangingNode) (b : List Transfer × List β)
    (hb : hanging_node_loop body pid L = .ok b) :
    b.2.map key = owned_rows R pid L ∧ ∀ t ∈ b.1, t.src_row ∈ owned_rows R pid L := by
  obtain ⟨cs, hcs, rfl⟩ := (hanging_node_loop_ok body pid L b).1 hb
  refine ⟨loop_keys R body key (fun a c hc => (hbody a c hc).1) _ cs hcs, ?_⟩
  unfold owned_rows
  clear hb
  generalize L.filter (owned pid) = L' at hcs
  induction hcs with
  | nil => intro t ht; simp at ht
  | cons hc htail ih =>
    rename_i a c L'' cs'
    intro t ht
    simp only [List.map_cons, List.flatten_cons, List.mem_append] at ht
    rw [List.flatMap_cons, List.mem_append]
    rcases ht with h | h
    · obtain ⟨N, ps, hts⟩ := (hbody a c hc).2
      rw [hts] at h
      exact Or.inl (corners_transfers_src R a.1 N ps t h)
    · exact Or.inr (ih t h)

theorem Function_side_node_rows (R : MetalSimulationRegion) (x : ℕ → PetscScalar)
    (hn : HangingNode) (c : List Transfer × List (ℕ × PetscScalar))
    (hc : Function_side_node R x hn = .ok c) :
    c.2.map Prod.fst = constraint_rows R hn.1 ∧
      ∃ (N : ℕ) (ps : List FVM_Node), c.1 = ps.flatMap (fun p => corner_transfers R hn.1 p N) := by
  obtain ⟨ts, p1, p2, h, rfl⟩ := (Function_side_node_eq_ok R x hn c).1 hc
  obtain ⟨ps, -, hts, -⟩ := (side_interpolation_eq_ok R x hn ts p1 p2).1 h
  exact ⟨Function_constraint_keys R x hn.1 p1 p2, _, ps, hts⟩

theorem Jacobian_side_node_rows (R : MetalSimulationRegion) (x : ℕ → PetscScalar)
    (hn : HangingNode) (c : List Transfer × List JacobianRow)
    (hc : Jacobian_side_node R x hn = .ok c) :
    c.2.map (·.row) = constraint_rows R hn.1 ∧
      ∃ (N : ℕ) (ps : List FVM_Node), c.1 = ps.flatMap (fun p => corner_transfers R hn.1 p N) := by
  obtain ⟨ts, p1, p2, h, rfl⟩ := (Jacobian_side_node_eq_ok R x hn c).1 hc
  obtain ⟨ps, -, hts, -⟩ := (side_interpolation_eq_ok R x hn ts p1 p2).1 h
  exact ⟨Jacobian_constraint_keys R x hn.1 p1 p2, _, ps, hts⟩

theorem Function_edge_node_rows (R : MetalSimulationRegion) (x : ℕ → PetscScalar)
    (hn : HangingNode) (c : List Transfer × List (ℕ × PetscScalar))
    (hc : Function_edge_node R x hn = .ok c) :
    c.2.map Prod.fst = constraint_rows R hn.1 ∧
      ∃ (N : ℕ) (ps : List FVM_Node), c.1 = ps.flatMap (fun p => corner_transfers R hn.1 p N) := by
  obtain ⟨ts, p1, p2, h, rfl⟩ := (Function_edge_node_eq_ok R x hn c).1 hc
  obtain ⟨-, -, -, hts⟩ := (Function_edge_interpolation_eq_ok R hn ts p1 p2).1 h
  exact ⟨Function_constraint_keys R x hn.1 p1 p2, 2, [p1, p2], by simp [hts]⟩

theorem Jacobian_edge_node_rows (R : MetalSimulationRegion) (x : ℕ → PetscScalar)
    (hn : HangingNode) (c : List Transfer × List JacobianRow)
    (hc : Jacobian_edge_node R x hn = .ok c) :
    c.2.map (·.row) = constraint_rows R hn.1 ∧
      ∃ (N : ℕ) (ps : List FVM_Node), c.1 = ps.flatMap (fun p => corner_transfers R hn.1 p N) := by
  obtain ⟨ts, p1, p2, h, rfl⟩ := (Jacobian_edge_node_eq_ok R x hn c).1 hc
  obtain ⟨-, -, -, hts⟩ := (Jacobian_edge_interpolation_eq_ok R hn ts p1 p2).1 h
  exact ⟨Jacobian_constraint_keys R x hn.1 p1 p2, 2, [p1, p2], by simp [hts]⟩

theorem EBM3_Function_edge_first_eq_ok (R : MetalSimulationRegion) (pid : ℕ)
    (x : ℕ → PetscScalar) (f : Vec) (flag : InsertMode)
    (hhang : R.has_2d_hanging_node = true ∨ R.has_3d_hanging_node = true)
    (r : Vec × InsertMode) :
    EBM3_Function_Hanging_Node_edge_first R pid x f flag = .ok r ↔
      ∃ s e, Function_side_buffers R pid x = .ok s ∧ Function_edge_buffers R pid x = .ok e ∧
        r = (Function_flush (Function_flush f e) s, InsertMode.INSERT_VALUES) := by
  simp only [EBM3_Function_Hanging_Node_edge_first, hanging_flag_false R hhang,
    Bool.false_eq_true, if_false, bind_eq_ok, Except.ok.injEq]
  constructor
  · rintro ⟨e, he, s, hs, rfl⟩; exact ⟨s, e, hs, he, rfl⟩
  · rintro ⟨s, e, hs, he, rfl⟩; exact ⟨e, he, s, hs, rfl⟩

theorem EBM3_Jacobian_edge_first_eq_ok (R : MetalSimulationRegion) (pid : ℕ)
    (x : ℕ → PetscScalar) (jac : Mat) (flag : InsertMode)
    (hhang : R.has_2d_hanging_node = true ∨ R.has_3d_hanging_node = true)
    (r : Mat × InsertMode) :
    EBM3_Jacobian_Hanging_Node_edge_first R pid x jac flag = .ok r ↔
      ∃ s e, Jacobian_side_buffers R pid x = .ok s ∧ Jacobian_edge_buffers R pid x = .ok e ∧
        r = (Jacobian_flush (Jacobian_flush jac e) s, InsertMode.INSERT_VALUES) := by
  simp only [EBM3_Jacobian_Hanging_Node_edge_first, hanging_flag_false R hhang,
    Bool.false_eq_true, if_false, bind_eq_ok, Except.ok.injEq]
  constructor
  · rintro ⟨e, he, s, hs, rfl⟩; exact ⟨s, e, hs, he, rfl⟩
  · rintro ⟨s, e, hs, he, rfl⟩; exact ⟨e, he, s, hs, rfl⟩

theorem filter_dst_of_nodup (ts : List Transfer) (hnd : (ts.map (·.dst_row)).Nodup)
    (t : Transfer) (ht : t ∈ ts) :
    ts.filter (fun u => decide (u.dst_row = t.dst_row)) = [t] := by
  induction ts with
  | nil => simp at ht
  | cons a l ih =>
    simp only [List.map_cons, List.nodup_cons] at hnd
    rcases List.mem_cons.1 ht with rfl | hl
    · rw [List.filter_cons_of_pos (by simp), filter_dst_nil l _ hnd.1]
    · have hne : a.dst_row ≠ t.dst_row := by
        intro h
        exact hnd.1 (h ▸ List.mem_map_of_mem (·.dst_row) hl)
      rw [List.filter_cons_of_neg (by simpa using hne), ih hnd.2 hl]

theorem corner_record_mem (R : MetalSimulationRegion) (H : FVM_Node) (N : ℕ)
    (ps : List FVM_Node) (c : FVM_Node) (hc : c ∈ ps) (off : ℕ) (hoff : off ∈ active_offsets R) :
    (⟨H.global_offset + off, c.global_offset + off, 1 / (N : ℚ)⟩ : Transfer) ∈
      ps.flatMap (fun p => corner_transfers R H p N) := by
  rw [List.mem_flatMap]
  refine ⟨c, hc, ?_⟩
  rw [corner_transfers_eq]
  exact List.mem_map.2 ⟨off, hoff, rfl⟩

theorem single_node_share (R : MetalSimulationRegion) (H : FVM_Node) (N : ℕ)
    (ps : List FVM_Node) (ins : List (ℕ × PetscScalar)) (f : Vec)
    (hlen : ps.length = N) (hN0 : N ≠ 0)
    (hkeys : ins.map Prod.fst = constraint_rows R H)
    (hnd : ((ps.flatMap (fun p => corner_transfers R H p N)).map (·.dst_row)).Nodup)
    (hdst : ∀ t ∈ ps.flatMap (fun p => corner_transfers R H p N),
      t.dst_row ∉ constraint_rows R H) :
    (∀ c ∈ ps, ∀ off ∈ active_offsets R,
      Function_flush f (ps.flatMap (fun p => corner_transfers R H p N), ins)
          (c.global_offset + off) =
        f (c.global_offset + off) + 1 / (N : ℚ) * f (H.global_offset + off)) ∧
    (∀ off ∈ active_offsets R,
      (ps.map (fun c =>
        Function_flush f (ps.flatMap (fun p => corner_transfers R H p N), ins)
          (c.global_offset + off) - f (c.global_offset + off))).sum =
        f (H.global_offset + off)) := by
  have hshare : ∀ c ∈ ps, ∀ off ∈ active_offsets R,
      Function_flush f (ps.flatMap (fun p => corner_transfers R H p N), ins)
          (c.global_offset + off) =
        f (c.global_offset + off) + 1 / (N : ℚ) * f (H.global_offset + off) := by
    intro c hc off hoff
    have hmem := corner_record_mem R H N ps c hc off hoff
    rw [Function_flush_of_not_mem f _ _ (by rw [hkeys]; exact hdst _ hmem)]
    have hfil := filter_dst_of_nodup _ hnd _ hmem
    simp only at hfil
    simp only [VecAddRowToRow, hfil, List.map_cons, List.map_nil, List.sum_cons, List.sum_nil,
      add_zero]
  refine ⟨hshare, ?_⟩
  intro off hoff
  have hconst : ∀ c ∈ ps,
      Function_flush f (ps.flatMap (fun p => corner_transfers R H p N), ins)
          (c.global_offset + off) - f (c.global_offset + off) =
        1 / (N : ℚ) * f (H.global_offset + off) := by
    intro c hc
    rw [hshare c hc off hoff]
    ring
  rw [List.map_congr_left hconst, List.map_const', List.sum_replicate, hlen]
  have hN : (N : ℚ) ≠ 0 := by exact_mod_cast hN0
  simp only [nsmul_eq_mul]
  field_simp

theorem single_owned_buffers {β : Type}
    (body : HangingNode → Except Fault (List Transfer × List β)) (pid : ℕ)
    (L : List HangingNode) (hn : HangingNode) (b : List Transfer × List β)
    (hL : L.filter (owned pid) = [hn]) (hb : hanging_node_loop body pid L = .ok b) :
    body hn = .ok b := by
  obtain ⟨cs, hcs, rfl⟩ := (hanging_node_loop_ok body pid L b).1 hb
  rw [hL] at hcs
  cases hcs with
  | cons hc htail =>
    cases htail
    simpa using hc
theorem solo_Function_side_buffers :
    Function_side_buffers soloRegion 0 demoX = .ok (demoQuadTransfers, [(20, 0), (21, -4)]) := by
  simp [Function_side_buffers, hanging_node_loop, soloRegion, demoQuadNode, Function_side_node,
    side_interpolation, side_loop, demoElem, Elem.build_side, Side.get_node, deref,
    corner_transfers, interpolation_points, Function_constraint, demoX, bind, Except.bind,
    demoQuadTransfers]
  norm_num

theorem solo_Function_edge_buffers :
    Function_edge_buffers soloRegion 0 demoX = .ok (demoEdgeTransfers, demoEdgeInserts) := by
  simp [Function_edge_buffers, hanging_node_loop, soloRegion, demoEdgeNode, Function_edge_node,
    Function_edge_interpolation, Function_edge_loop, demoElem, Elem.build_edge,
    SideEdge.get_node, genius_assert_not_null, deref, corner_transfers, edge_points,
    Function_constraint, demoX, bind, Except.bind, demoEdgeTransfers, demoEdgeInserts]
  norm_num

theorem side_interpolation_two_nodes (R : MetalSimulationRegion) (hn : HangingNode)
    (h2 : hn.2.1.side_n_nodes hn.2.2 = 2) (x x' : ℕ → PetscScalar) :
    side_interpolation R x' hn = side_interpolation R x hn := by
  simp only [side_interpolation]
  cases hl : side_loop R hn.1 (hn.2.1.build_side hn.2.2) (hn.2.1.build_side hn.2.2).n_nodes
      (hn.2.1.build_side hn.2.2).n_nodes 0 with
  | error e => rfl
  | ok r =>
    obtain ⟨-, hps, -⟩ := (side_loop_eq_ok R hn.1 _ _ _ _ r).1 hl
    have hlen : r.1.length = 2 := by
      rw [length_of_map_some _ _ _ hps, List.length_range']
      exact h2
    obtain ⟨ps, ts⟩ := r
    match ps, hlen with
    | [s0, s1], _ => rfl

theorem active_offsets_eq (R : MetalSimulationRegion) :
    active_offsets R = (carried_variables R).map R.ebm_variable_offset := by
  unfold active_offsets carried_variables
  cases R.enable_Tl <;> simp

theorem variable_transfers_eq (R : MetalSimulationRegion) (H : FVM_Node)
    (corners : List FVM_Node) (n : ℕ) :
    corners.flatMap (fun q => corner_transfers R H q n) = variable_transfers R H corners n := by
  simp [variable_transfers, corner_transfers_eq, active_offsets_eq, Function.comp_def]

theorem variable_inserts_eq (R : MetalSimulationRegion) (x : ℕ → PetscScalar)
    (H P1 P2 : FVM_Node) : Function_constraint R x H P1 P2 = variable_inserts R x H P1 P2 := by
  simp [variable_inserts, Function_constraint_eq, active_offsets_eq, Function.comp_def]

theorem variable_rows_eq (R : MetalSimulationRegion) (x : ℕ → PetscScalar)
    (H P1 P2 : FVM_Node) : Jacobian_constraint R x H P1 P2 = variable_rows R x H P1 P2 := by
  simp [variable_rows, Jacobian_constraint_eq, active_offsets_eq, Function.comp_def]

theorem variable_record_counts (R : MetalSimulationRegion) (x : ℕ → PetscScalar)
    (H P1 P2 : FVM_Node) (corners : List FVM_Node) (n : ℕ) (hlen : corners.length = n) :
    (R.enable_Tl = false → carried_variables R = [.POTENTIAL] ∧
      (variable_transfers R H corners n).length = n ∧
      (variable_inserts R x H P1 P2).length = 1 ∧ (variable_rows R x H P1 P2).length = 1) ∧
    (R.enable_Tl = true → carried_variables R = [.POTENTIAL, .TEMPERATURE] ∧
      (variable_transfers R H corners n).length = 2 * n ∧
      (variable_inserts R x H P1 P2).length = 2 ∧ (variable_rows R x H P1 P2).length = 2) := by
  constructor
  · intro h
    have hv : carried_variables R = [.POTENTIAL] := by simp [carried_variables, h]
    refine ⟨hv, ?_, by simp [variable_inserts, hv], by simp [variable_rows, hv]⟩
    unfold variable_transfers
    rw [length_flatMap_const _ _ 1 (fun a => by simp [hv]), hlen, Nat.mul_one]
  · intro h
    have hv : carried_variables R = [.POTENTIAL, .TEMPERATURE] := by simp [carried_variables, h]
    refine ⟨hv, ?_, by simp [variable_inserts, hv], by simp [variable_rows, hv]⟩
    unfold variable_transfers
    rw [length_flatMap_const _ _ 2 (fun a => by simp [hv]), hlen, Nat.mul_comm]

theorem loop_related {β γ : Type}
    (bodyA : HangingNode → Except Fault (List Transfer × List β))
    (bodyB : HangingNode → Except Fault (List Transfer × List γ))
    (rel : List β → List γ → Prop) (hnil : rel [] [])
    (happ : ∀ a a' b b', rel a b → rel a' b' → rel (a ++ a') (b ++ b')) (pid : ℕ)
    (h : ∀ hn cA, bodyA hn = .ok cA → ∃ cB, bodyB hn = .ok cB ∧ cB.1 = cA.1 ∧ rel cA.2 cB.2) :
    ∀ (L : List HangingNode) (bA : List Transfer × List β),
      hanging_node_loop bodyA pid L = .ok bA →
      ∃ bB, hanging_node_loop bodyB pid L = .ok bB ∧ bB.1 = bA.1 ∧ rel bA.2 bB.2 := by
  intro L
  induction L with
  | nil =>
    intro bA hA
    simp only [hanging_node_loop, Except.ok.injEq] at hA
    subst hA
    exact ⟨([], []), rfl, rfl, hnil⟩
  | cons hn rest ih =>
    intro bA hA
    by_cases ho : hn.1.processor_id = pid
    · simp only [hanging_node_loop, ho, ne_eq, not_true_eq_false, if_false, bind_eq_ok,
        Except.ok.injEq] at hA ⊢
      obtain ⟨cA, hcA, bA', hbA', rfl⟩ := hA
      obtain ⟨cB, hcB, h1, h2⟩ := h hn cA hcA
      obtain ⟨bB', hbB', h1', h2'⟩ := ih bA' hbA'
      exact ⟨_, ⟨cB, hcB, bB', hbB', rfl⟩, by simp [h1, h1'], happ _ _ _ _ h2 h2'⟩
    · simp only [hanging_node_loop, ho, ne_eq, not_false_eq_true, if_true] at hA ⊢
      exact ih bA hA

theorem constraint_residual_pairs (R : MetalSimulationRegion) (x : ℕ → PetscScalar)
    (H P1 P2 : FVM_Node) :
    (Jacobian_constraint R x H P1 P2).map JacobianRow.residual_pair =
      Function_constraint R x H P1 P2 := by
  simp [Jacobian_constraint_eq, Function_constraint_eq, JacobianRow.residual_pair,
    Function.comp_def]

theorem edge_interpolation_agree (R : MetalSimulationRegion) (hn : HangingNode)
    (r : List Transfer × FVM_Node × FVM_Node) :
    Function_edge_interpolation R hn = .ok r ↔ Jacobian_edge_interpolation R hn = .ok r := by
  obtain ⟨ts, p1, p2⟩ := r
  rw [Function_edge_interpolation_eq_ok, Jacobian_edge_interpolation_eq_ok]

theorem side_node_agree (R : MetalSimulationRegion) (x : ℕ → PetscScalar) (hn : HangingNode) :
    (∀ cF, Function_side_node R x hn = .ok cF →
      ∃ cJ, Jacobian_side_node R x hn = .ok cJ ∧ cJ.1 = cF.1 ∧
        cJ.2.map JacobianRow.residual_pair = cF.2) ∧
    (∀ cJ, Jacobian_side_node R x hn = .ok cJ →
      ∃ cF, Function_side_node R x hn = .ok cF ∧ cF.1 = cJ.1 ∧
        cJ.2.map JacobianRow.residual_pair = cF.2) := by
  constructor
  · intro cF hc
    obtain ⟨ts, p1, p2, h, rfl⟩ := (Function_side_node_eq_ok R x hn cF).1 hc
    exact ⟨_, (side_nodes_of_interpolation R x hn ts p1 p2 h).2, rfl,
      constraint_residual_pairs R x hn.1 p1 p2⟩
  · intro cJ hc
    obtain ⟨ts, p1, p2, h, rfl⟩ := (Jacobian_side_node_eq_ok R x hn cJ).1 hc
    exact ⟨_, (side_nodes_of_interpolation R x hn ts p1 p2 h).1, rfl,
      constraint_residual_pairs R x hn.1 p1 p2⟩

theorem edge_node_agree (R : MetalSimulationRegion) (x : ℕ → PetscScalar) (hn : HangingNode) :
    (∀ cF, Function_edge_node R x hn = .ok cF →
      ∃ cJ, Jacobian_edge_node R x hn = .ok cJ ∧ cJ.1 = cF.1 ∧
        cJ.2.map JacobianRow.residual_pair = cF.2) ∧
    (∀ cJ, Jacobian_edge_node R x hn = .ok cJ →
      ∃ cF, Function_edge_node R x hn = .ok cF ∧ cF.1 = cJ.1 ∧
        cJ.2.map JacobianRow.residual_pair = cF.2) := by
  constructor
  · intro cF hc
    obtain ⟨ts, p1, p2, h, rfl⟩ := (Function_edge_node_eq_ok R x hn cF).1 hc
    exact ⟨_, (Jacobian_edge_node_eq_ok R x hn _).2
      ⟨ts, p1, p2, (edge_interpolation_agree R hn _).1 h, rfl⟩, rfl,
      constraint_residual_pairs R x hn.1 p1 p2⟩
  · intro cJ hc
    obtain ⟨ts, p1, p2, h, rfl⟩ := (Jacobian_edge_node_eq_ok R x hn cJ).1 hc
    exact ⟨_, (Function_edge_node_eq_ok R x hn _).2
      ⟨ts, p1, p2, (edge_interpolation_agree R hn _).2 h, rfl⟩, rfl,
      constraint_residual_pairs R x hn.1 p1 p2⟩

theorem offset_Function_side_node :
    Function_side_node offsetRegion offsetX demoQuadNode =
      .ok ([⟨21, 3, 1/4⟩, ⟨21, 5, 1/4⟩, ⟨21, 7, 1/4⟩, ⟨21, 9, 1/4⟩], [(21, -5)]) := by
  simp [offsetRegion, demoQuadNode, Function_side_node, side_interpolation, side_loop, demoElem,
    Elem.build_side, Side.get_node, deref, corner_transfers, interpolation_points,
    Function_constraint, offsetX, bind, Except.bind]
  norm_num

theorem interpolation_points_congr (x x' : ℕ → PetscScalar) (ps : List FVM_Node)
    (h : ∀ q ∈ ps, x' q.local_offset = x q.local_offset) :
    interpolation_points x' ps = interpolation_points x ps := by
  match ps with
  | [] => rfl
  | [_] => rfl
  | [_, _] => rfl
  | [_, _, _] => rfl
  | [s0, s1, s2, s3] =>
    simp only [interpolation_points, h s0 (by simp), h s1 (by simp), h s2 (by simp),
      h s3 (by simp)]
  | _ :: _ :: _ :: _ :: _ :: _ => rfl

theorem side_interpolation_congr (R : MetalSimulationRegion) (hn : HangingNode)
    (x x' : ℕ → PetscScalar)
    (h : ∀ i < hn.2.1.side_n_nodes hn.2.2, ∀ q,
      R.region_fvm_node (hn.2.1.side_corner hn.2.2 i) = some q →
      x' q.local_offset = x q.local_offset) :
    side_interpolation R x' hn = side_interpolation R x hn := by
  simp only [side_interpolation]
  cases hl : side_loop R hn.1 (hn.2.1.build_side hn.2.2) (hn.2.1.build_side hn.2.2).n_nodes
      (hn.2.1.build_side hn.2.2).n_nodes 0 with
  | error e => rfl
  | ok r =>
    obtain ⟨-, hps, -⟩ := (side_loop_eq_ok R hn.1 _ _ _ _ r).1 hl
    have hcongr : interpolation_points x' r.1 = interpolation_points x r.1 := by
      apply interpolation_points_congr
      intro q hq
      have hmem : some q ∈ r.1.map some := List.mem_map_of_mem some hq
      rw [hps] at hmem
      obtain ⟨i, hi, hiq⟩ := List.mem_map.1 hmem
      rw [List.mem_range'_1] at hi
      exact h i (by simpa [Elem.build_side] using hi.2) q hiq
    simp only [bind, Except.bind, hcongr]

theorem hanging_node_loop_congr {β : Type}
    (body body' : HangingNode → Except Fault (List Transfer × List β)) (pid : ℕ)
    (L : List HangingNode)
    (h : ∀ hn ∈ L, hn.1.processor_id = pid → body hn = body' hn) :
    hanging_node_loop body pid L = hanging_node_loop body' pid L := by
  induction L with
  | nil => rfl
  | cons hn rest ih =>
    have ih' := ih (fun a ha => h a (List.mem_cons_of_mem _ ha))
    by_cases ho : hn.1.processor_id = pid
    · simp only [hanging_node_loop, ho, ne_eq, not_true_eq_false, if_false, ih',
        h hn (List.mem_cons_self _ _) ho]
    · simp only [hanging_node_loop, ho, ne_eq, not_false_eq_true, if_true, ih']

theorem demo_foreign_side_node :
    Function_side_node demoRegion demoX (⟨1, 30, 30⟩, demoElem, 2) =
      .error Fault.null_dereference ∧
    Jacobian_side_node demoRegion demoX (⟨1, 30, 30⟩, demoElem, 2) =
      .error Fault.null_dereference := by
  constructor <;>
  simp [demoRegion, Function_side_node, Jacobian_side_node, side_interpolation, side_loop,
    demoElem, Elem.build_side, Side.get_node, deref, bind, Except.bind]

theorem print_ws_str (n : ℕ) (c : Char) :
    ∀ o : OStringStream, (o.print_ws n c).str = o.str ++ String.mk (List.replicate n c) := by
  induction n with
  | zero =>
    intro o
    apply String.ext
    simp [OStringStream.print_ws]
  | succ k ih =>
    intro o
    rw [OStringStream.print_ws, ih]
    apply String.ext
    simp [OStringStream.put, List.replicate_succ]

theorem sizetype_sub_of_le (a b : ℕ) (ha : a < 2 ^ 64) (hb : b ≤ a) :
    sizetype_sub a b = a - b := by
  unfold sizetype_sub
  have hb' : b % 2 ^ 64 = b := Nat.mod_eq_of_lt (by omega)
  rw [hb']
  omega

/-! ### The claims -/

/-- Claim C1.  Conservation of the transfer weights.  In each of the four passes (residual
side, residual edge, Jacobian side, Jacobian edge) whose loop completes, for every hanging
node of the pass owned by the local processor and every active variable (potential always,
lattice temperature when enabled), the records whose source is the row of that node and
variable are `n` records of weight `1/n`, with `n` 2 or 4 in a side pass and 2 in an edge
pass, and their weights sum to exactly 1 over the rationals.  The rows of the owned hanging
nodes of the pass are taken pairwise distinct, as the global rows of distinct unknowns are.
The loops of the side passes complete when every owned side-center hanging node lies on a
side of 2 or 4 corner nodes that are all found in the region, those of the edge passes when
nodes 0 and 1 of the edge of every owned edge-center hanging node are found. -/
theorem transfer_weights_sum_to_one (R : MetalSimulationRegion) (processor_id : ℕ)
    (x : ℕ → PetscScalar) :
    (∀ b, Function_side_buffers R processor_id x = .ok b →
      (owned_rows R processor_id R.hanging_node_on_elem_side).Nodup →
      ∀ row ∈ owned_rows R processor_id R.hanging_node_on_elem_side,
        (∃ n : ℕ, (n = 2 ∨ n = 4) ∧
          outgoing_weights b.1 row = List.replicate n (1 / (n : ℚ))) ∧
        outgoing_weight b.1 row = 1) ∧
    (∀ b, Function_edge_buffers R processor_id x = .ok b →
      (owned_rows R processor_id R.hanging_node_on_elem_edge).Nodup →
      ∀ row ∈ owned_rows R processor_id R.hanging_node_on_elem_edge,
        outgoing_weights b.1 row = [1 / 2, 1 / 2] ∧ outgoing_weight b.1 row = 1) ∧
    (∀ b, Jacobian_side_buffers R processor_id x = .ok b →
      (owned_rows R processor_id R.hanging_node_on_elem_side).Nodup →
      ∀ row ∈ owned_rows R processor_id R.hanging_node_on_elem_side,
        (∃ n : ℕ, (n = 2 ∨ n = 4) ∧
          outgoing_weights b.1 row = List.replicate n (1 / (n : ℚ))) ∧
        outgoing_weight b.1 row = 1) ∧
    (∀ b, Jacobian_edge_buffers R processor_id x = .ok b →
      (owned_rows R processor_id R.hanging_node_on_elem_edge).Nodup →
      ∀ row ∈ owned_rows R processor_id R.hanging_node_on_elem_edge,
        outgoing_weights b.1 row = [1 / 2, 1 / 2] ∧ outgoing_weight b.1 row = 1) ∧
    (side_entries_regular R processor_id →
      (∃ b, Function_side_buffers R processor_id x = .ok b) ∧
      (∃ b, Jacobian_side_buffers R processor_id x = .ok b)) ∧
    (edge_entries_regular R processor_id →
      (∃ b, Function_edge_buffers R processor_id x = .ok b) ∧
      (∃ b, Jacobian_edge_buffers R processor_id x = .ok b)) := by
  refine ⟨?_, ?_, ?_, ?_, side_buffers_complete R processor_id x,
    edge_buffers_complete R processor_id x⟩
  · intro b hb hnodup row hrow
    obtain ⟨n, hn24, hw⟩ := loop_weights R processor_id (Function_side_node R x)
      (fun N => N = 2 ∨ N = 4)
      (fun hn c hc => side_node_transfers R x hn c (by
        obtain ⟨ts, p1, p2, h, rfl⟩ := (Function_side_node_eq_ok R x hn c).1 hc
        exact ⟨p1, p2, h⟩)) _ b hb hnodup row hrow
    refine ⟨⟨n, hn24, hw⟩, ?_⟩
    rw [outgoing_weight, hw]
    exact sum_replicate_inv n (by omega)
  · intro b hb hnodup row hrow
    obtain ⟨n, rfl, hw⟩ := loop_weights R processor_id (Function_edge_node R x)
      (fun N => N = 2)
      (fun hn c hc => by
        obtain ⟨ts, p1, p2, h, rfl⟩ := (Function_edge_node_eq_ok R x hn c).1 hc
        obtain ⟨-, -, -, rfl⟩ := (Function_edge_interpolation_eq_ok R hn ts p1 p2).1 h
        exact edge_node_transfers R hn.1 p1 p2) _ b hb hnodup row hrow
    refine ⟨by simpa [List.replicate] using hw, ?_⟩
    rw [outgoing_weight, hw]
    exact sum_replicate_inv 2 (by decide)
  · intro b hb hnodup row hrow
    obtain ⟨n, hn24, hw⟩ := loop_weights R processor_id (Jacobian_side_node R x)
      (fun N => N = 2 ∨ N = 4)
      (fun hn c hc => side_node_transfers R x hn c (by
        obtain ⟨ts, p1, p2, h, rfl⟩ := (Jacobian_side_node_eq_ok R x hn c).1 hc
        exact ⟨p1, p2, h⟩)) _ b hb hnodup row hrow
    refine ⟨⟨n, hn24, hw⟩, ?_⟩
    rw [outgoing_weight, hw]
    exact sum_replicate_inv n (by omega)
  · intro b hb hnodup row hrow
    obtain ⟨n, rfl, hw⟩ := loop_weights R processor_id (Jacobian_edge_node R x)
      (fun N => N = 2)
      (fun hn c hc => by
        obtain ⟨ts, p1, p2, h, rfl⟩ := (Jacobian_edge_node_eq_ok R x hn c).1 hc
        obtain ⟨-, -, -, rfl⟩ := (Jacobian_edge_interpolation_eq_ok R hn ts p1 p2).1 h
        exact edge_node_transfers R hn.1 p1 p2) _ b hb hnodup row hrow
    refine ⟨by simpa [List.replicate] using hw, ?_⟩
    rw [outgoing_weight, hw]
    exact sum_replicate_inv 2 (by decide)

theorem transfer_weights_sum_to_one_witness :
    ((∃ n : ℕ, (n = 2 ∨ n = 4) ∧
        outgoing_weights demoSideTransfers 20 = List.replicate n (1 / (n : ℚ))) ∧
      outgoing_weight demoSideTransfers 20 = 1) ∧
    (outgoing_weights demoEdgeTransfers 51 = [1 / 2, 1 / 2] ∧
      outgoing_weight demoEdgeTransfers 51 = 1) ∧
    ((∃ n : ℕ, (n = 2 ∨ n = 4) ∧
        outgoing_weights demoSideTransfers 41 = List.replicate n (1 / (n : ℚ))) ∧
      outgoing_weight demoSideTransfers 41 = 1) ∧
    (outgoing_weights demoEdgeTransfers 50 = [1 / 2, 1 / 2] ∧
      outgoing_weight demoEdgeTransfers 50 = 1) ∧
    ((∃ b, Function_side_buffers demoRegion 0 demoX = .ok b) ∧
      (∃ b, Jacobian_side_buffers demoRegion 0 demoX = .ok b)) ∧
    ((∃ b, Function_edge_buffers demoRegion 0 demoX = .ok b) ∧
      (∃ b, Jacobian_edge_buffers demoRegion 0 demoX = .ok b)) :=
  ⟨(transfer_weights_sum_to_one demoRegion 0 demoX).1 _ demo_Function_side_buffers
      (by rw [demo_owned_rows_side]; decide) 20 (by rw [demo_owned_rows_side]; decide),
   (transfer_weights_sum_to_one demoRegion 0 demoX).2.1 _ demo_Function_edge_buffers
      (by rw [demo_owned_rows_edge]; decide) 51 (by rw [demo_owned_rows_edge]; decide),
   (transfer_weights_sum_to_one demoRegion 0 demoX).2.2.1 _ demo_Jacobian_side_buffers
      (by rw [demo_owned_rows_side]; decide) 41 (by rw [demo_owned_rows_side]; decide),
   (transfer_weights_sum_to_one demoRegion 0 demoX).2.2.2.1 _ demo_Jacobian_edge_buffers
      (by rw [demo_owned_rows_edge]; decide) 50 (by rw [demo_owned_rows_edge]; decide),
   (transfer_weights_sum_to_one demoRegion 0 demoX).2.2.2.2.1 demo_side_entries_regular,
   (transfer_weights_sum_to_one demoRegion 0 demoX).2.2.2.2.2 demo_edge_entries_regular⟩

/-- Claim C2.  Residual overwrite value.  When the loop of a residual pass (side-center or
edge-center) completes, its overwrite buffer holds, for every hanging node `H` of the pass
owned by the local processor (in map order) with its chosen supports `P1`, `P2`, and for every
active variable, exactly one pair: its row is `global_offset(H)` plus the variable offset and
its value is `V(H) - 0.5*(V(P1)+V(P2))`, each `V` read from `x` at `local_offset(node)` plus
the variable offset.  The loop of the side pass completes when every owned side-center
hanging node lies on a side of 2 or 4 corner nodes that are all found in the region, that of
the edge pass when nodes 0 and 1 of the edge of every owned edge-center hanging node are
found. -/
theorem residual_overwrite_value (R : MetalSimulationRegion) (processor_id : ℕ)
    (x : ℕ → PetscScalar) :
    (∀ b, Function_side_buffers R processor_id x = .ok b →
      ∃ sup : List (FVM_Node × FVM_Node),
        List.Forall₂ (fun hn P => ∃ ts, side_interpolation R x hn = .ok (ts, P.1, P.2))
          (R.hanging_node_on_elem_side.filter (owned processor_id)) sup ∧
        b.2 = ((R.hanging_node_on_elem_side.filter (owned processor_id)).zip sup).flatMap
          (fun hs => (active_offsets R).map (fun off =>
            (hs.1.1.global_offset + off,
              x (hs.1.1.local_offset + off) -
                1 / 2 * (x (hs.2.1.local_offset + off) + x (hs.2.2.local_offset + off)))))) ∧
    (∀ b, Function_edge_buffers R processor_id x = .ok b →
      ∃ sup : List (FVM_Node × FVM_Node),
        List.Forall₂ (fun hn P => ∃ ts, Function_edge_interpolation R hn = .ok (ts, P.1, P.2))
          (R.hanging_node_on_elem_edge.filter (owned processor_id)) sup ∧
        b.2 = ((R.hanging_node_on_elem_edge.filter (owned processor_id)).zip sup).flatMap
          (fun hs => (active_offsets R).map (fun off =>
            (hs.1.1.global_offset + off,
              x (hs.1.1.local_offset + off) -
                1 / 2 * (x (hs.2.1.local_offset + off) + x (hs.2.2.local_offset + off)))))) ∧
    (side_entries_regular R processor_id →
      ∃ b, Function_side_buffers R processor_id x = .ok b) ∧
    (edge_entries_regular R processor_id →
      ∃ b, Function_edge_buffers R processor_id x = .ok b) := by
  refine ⟨?_, ?_, fun h => (side_buffers_complete R processor_id x h).1,
    fun h => (edge_buffers_complete R processor_id x h).1⟩
  · intro b hb
    obtain ⟨cs, hcs, rfl⟩ := (hanging_node_loop_ok _ processor_id _ b).1 hb
    obtain ⟨sup, hsup, heq⟩ := loop_supports (Function_side_node R x)
      (fun hn (P : FVM_Node × FVM_Node) => ∃ ts, side_interpolation R x hn = .ok (ts, P.1, P.2))
      (fun hn P => Function_constraint R x hn.1 P.1 P.2)
      (fun hn c hc => by
        obtain ⟨ts, p1, p2, h, rfl⟩ := (Function_side_node_eq_ok R x hn c).1 hc
        exact ⟨(p1, p2), ⟨ts, h⟩, rfl⟩) _ cs hcs
    refine ⟨sup, hsup, ?_⟩
    simp only [heq, Function_constraint_eq]
  · intro b hb
    obtain ⟨cs, hcs, rfl⟩ := (hanging_node_loop_ok _ processor_id _ b).1 hb
    obtain ⟨sup, hsup, heq⟩ := loop_supports (Function_edge_node R x)
      (fun hn (P : FVM_Node × FVM_Node) =>
        ∃ ts, Function_edge_interpolation R hn = .ok (ts, P.1, P.2))
      (fun hn P => Function_constraint R x hn.1 P.1 P.2)
      (fun hn c hc => by
        obtain ⟨ts, p1, p2, h, rfl⟩ := (Function_edge_node_eq_ok R x hn c).1 hc
        exact ⟨(p1, p2), ⟨ts, h⟩, rfl⟩) _ cs hcs
    refine ⟨sup, hsup, ?_⟩
    simp only [heq, Function_constraint_eq]

theorem residual_overwrite_value_witness :
    (∃ sup : List (FVM_Node × FVM_Node),
        List.Forall₂ (fun hn P => ∃ ts, side_interpolation demoRegion demoX hn = .ok (ts, P.1, P.2))
          (demoRegion.hanging_node_on_elem_side.filter (owned 0)) sup ∧
        demoSideInserts = ((demoRegion.hanging_node_on_elem_side.filter (owned 0)).zip sup).flatMap
          (fun hs => (active_offsets demoRegion).map (fun off =>
            (hs.1.1.global_offset + off,
              demoX (hs.1.1.local_offset + off) -
                1 / 2 * (demoX (hs.2.1.local_offset + off) +
                  demoX (hs.2.2.local_offset + off)))))) ∧
    (∃ sup : List (FVM_Node × FVM_Node),
        List.Forall₂
          (fun hn P => ∃ ts, Function_edge_interpolation demoRegion hn = .ok (ts, P.1, P.2))
          (demoRegion.hanging_node_on_elem_edge.filter (owned 0)) sup ∧
        demoEdgeInserts = ((demoRegion.hanging_node_on_elem_edge.filter (owned 0)).zip sup).flatMap
          (fun hs => (active_offsets demoRegion).map (fun off =>
            (hs.1.1.global_offset + off,
              demoX (hs.1.1.local_offset + off) -
                1 / 2 * (demoX (hs.2.1.local_offset + off) +
                  demoX (hs.2.2.local_offset + off)))))) ∧
    (∃ b, Function_side_buffers demoRegion 0 demoX = .ok b) ∧
    (∃ b, Function_edge_buffers demoRegion 0 demoX = .ok b) :=
  ⟨(residual_overwrite_value demoRegion 0 demoX).1 _ demo_Function_side_buffers,
   (residual_overwrite_value demoRegion 0 demoX).2.1 _ demo_Function_edge_buffers,
   (residual_overwrite_value demoRegion 0 demoX).2.2.1 demo_side_entries_regular,
   (residual_overwrite_value demoRegion 0 demoX).2.2.2 demo_edge_entries_regular⟩

/-- Claim C3.  Jacobian exactness.  When the loop of a Jacobian pass (side-center or
edge-center) completes, its row buffer holds, for every hanging node `H` of the pass owned by
the local processor with its chosen supports `P1`, `P2` and for every active variable, exactly
one row: the row of `(H, variable)`, with the three columns `[H, P1, P2]` of the same variable
(global offsets) and the derivative values `[1, -1/2, -1/2]`, whatever the solution array
holds and whether the side has 2 or 4 corner nodes; the value part of the dual number is
`V(H) - 0.5*(V(P1)+V(P2))`, which for `V(H)=1`, `V(P1)=2`, `V(P2)=4` is `-2`.  The loop of
the side pass completes when every owned side-center hanging node lies on a side of 2 or 4
corner nodes that are all found in the region, that of the edge pass when nodes 0 and 1 of
the edge of every owned edge-center hanging node are found. -/
theorem jacobian_row_exact (R : MetalSimulationRegion) (processor_id : ℕ)
    (x : ℕ → PetscScalar) :
    (∀ b, Jacobian_side_buffers R processor_id x = .ok b →
      ∃ sup : List (FVM_Node × FVM_Node),
        List.Forall₂ (fun hn P => ∃ ts, side_interpolation R x hn = .ok (ts, P.1, P.2))
          (R.hanging_node_on_elem_side.filter (owned processor_id)) sup ∧
        b.2 = ((R.hanging_node_on_elem_side.filter (owned processor_id)).zip sup).flatMap
          (fun hs => (active_offsets R).map (fun off =>
            (⟨hs.1.1.global_offset + off,
              [hs.1.1.global_offset + off, hs.2.1.global_offset + off,
                hs.2.2.global_offset + off],
              ⟨x (hs.1.1.local_offset + off) -
                1 / 2 * (x (hs.2.1.local_offset + off) + x (hs.2.2.local_offset + off)),
                [1, -1 / 2, -1 / 2]⟩⟩ : JacobianRow)))) ∧
    (∀ b, Jacobian_edge_buffers R processor_id x = .ok b →
      ∃ sup : List (FVM_Node × FVM_Node),
        List.Forall₂ (fun hn P => ∃ ts, Jacobian_edge_interpolation R hn = .ok (ts, P.1, P.2))
          (R.hanging_node_on_elem_edge.filter (owned processor_id)) sup ∧
        b.2 = ((R.hanging_node_on_elem_edge.filter (owned processor_id)).zip sup).flatMap
          (fun hs => (active_offsets R).map (fun off =>
            (⟨hs.1.1.global_offset + off,
              [hs.1.1.global_offset + off, hs.2.1.global_offset + off,
                hs.2.2.global_offset + off],
              ⟨x (hs.1.1.local_offset + off) -
                1 / 2 * (x (hs.2.1.local_offset + off) + x (hs.2.2.local_offset + off)),
                [1, -1 / 2, -1 / 2]⟩⟩ : JacobianRow)))) ∧
    ((ad_constraint 1 2 4).val = -2 ∧
      (ad_constraint 1 2 4).getADValue = [1, -1 / 2, -1 / 2]) ∧
    (side_entries_regular R processor_id →
      ∃ b, Jacobian_side_buffers R processor_id x = .ok b) ∧
    (edge_entries_regular R processor_id →
      ∃ b, Jacobian_edge_buffers R processor_id x = .ok b) := by
  refine ⟨?_, ?_, ?_, fun h => (side_buffers_complete R processor_id x h).2,
    fun h => (edge_buffers_complete R processor_id x h).2⟩
  · intro b hb
    obtain ⟨cs, hcs, rfl⟩ := (hanging_node_loop_ok _ processor_id _ b).1 hb
    obtain ⟨sup, hsup, heq⟩ := loop_supports (Jacobian_side_node R x)
      (fun hn (P : FVM_Node × FVM_Node) => ∃ ts, side_interpolation R x hn = .ok (ts, P.1, P.2))
      (fun hn P => Jacobian_constraint R x hn.1 P.1 P.2)
      (fun hn c hc => by
        obtain ⟨ts, p1, p2, h, rfl⟩ := (Jacobian_side_node_eq_ok R x hn c).1 hc
        exact ⟨(p1, p2), ⟨ts, h⟩, rfl⟩) _ cs hcs
    refine ⟨sup, hsup, ?_⟩
    simp only [heq, Jacobian_constraint_eq]
  · intro b hb
    obtain ⟨cs, hcs, rfl⟩ := (hanging_node_loop_ok _ processor_id _ b).1 hb
    obtain ⟨sup, hsup, heq⟩ := loop_supports (Jacobian_edge_node R x)
      (fun hn (P : FVM_Node × FVM_Node) =>
        ∃ ts, Jacobian_edge_interpolation R hn = .ok (ts, P.1, P.2))
      (fun hn P => Jacobian_constraint R x hn.1 P.1 P.2)
      (fun hn c hc => by
        obtain ⟨ts, p1, p2, h, rfl⟩ := (Jacobian_edge_node_eq_ok R x hn c).1 hc
        exact ⟨(p1, p2), ⟨ts, h⟩, rfl⟩) _ cs hcs
    refine ⟨sup, hsup, ?_⟩
    simp only [heq, Jacobian_constraint_eq]
  · rw [ad_constraint_eq]
    simp only [AutoDScalar.getADValue, and_true]
    norm_num

theorem jacobian_row_exact_witness :
    (∃ sup : List (FVM_Node × FVM_Node),
        List.Forall₂ (fun hn P => ∃ ts, side_interpolation demoRegion demoX hn = .ok (ts, P.1, P.2))
          (demoRegion.hanging_node_on_elem_side.filter (owned 0)) sup ∧
        demoSideRows = ((demoRegion.hanging_node_on_elem_side.filter (owned 0)).zip sup).flatMap
          (fun hs => (active_offsets demoRegion).map (fun off =>
            (⟨hs.1.1.global_offset + off,
              [hs.1.1.global_offset + off, hs.2.1.global_offset + off,
                hs.2.2.global_offset + off],
              ⟨demoX (hs.1.1.local_offset + off) -
                1 / 2 * (demoX (hs.2.1.local_offset + off) + demoX (hs.2.2.local_offset + off)),
                [1, -1 / 2, -1 / 2]⟩⟩ : JacobianRow)))) ∧
    (∃ sup : List (FVM_Node × FVM_Node),
        List.Forall₂
          (fun hn P => ∃ ts, Jacobian_edge_interpolation demoRegion hn = .ok (ts, P.1, P.2))
          (demoRegion.hanging_node_on_elem_edge.filter (owned 0)) sup ∧
        demoEdgeRows = ((demoRegion.hanging_node_on_elem_edge.filter (owned 0)).zip sup).flatMap
          (fun hs => (active_offsets demoRegion).map (fun off =>
            (⟨hs.1.1.global_offset + off,
              [hs.1.1.global_offset + off, hs.2.1.global_offset + off,
                hs.2.2.global_offset + off],
              ⟨demoX (hs.1.1.local_offset + off) -
                1 / 2 * (demoX (hs.2.1.local_offset + off) + demoX (hs.2.2.local_offset + off)),
                [1, -1 / 2, -1 / 2]⟩⟩ : JacobianRow)))) ∧
    (∃ b, Jacobian_side_buffers demoRegion 0 demoX = .ok b) ∧
    (∃ b, Jacobian_edge_buffers demoRegion 0 demoX = .ok b) :=
  ⟨(jacobian_row_exact demoRegion 0 demoX).1 _ demo_Jacobian_side_buffers,
   (jacobian_row_exact demoRegion 0 demoX).2.1 _ demo_Jacobian_edge_buffers,
   (jacobian_row_exact demoRegion 0 demoX).2.2.2.1 demo_side_entries_regular,
   (jacobian_row_exact demoRegion 0 demoX).2.2.2.2 demo_edge_entries_regular⟩

/-- Claim C4.  Diagonal selection, with `v_i` the potential of corner `i`, that is the entry
`x[local_offset(n_i) + node_psi_offset]` that the potential constraint reads.  For a
side-center hanging node whose side has the 4 corner nodes `[n0, n1, n2, n3]`: in a region
whose potential has offset 0 the supports are `n0, n2` when `|v0-v2| < |v1-v3|` and `n1, n3`
when `|v1-v3| < |v0-v2|`, in the residual and in the Jacobian routine alike, and for the corner
potentials `[0, 10, 0, 0]` they are `n0, n2`.  The routines take the differences of the entries
`x[local_offset(n_i)]`, without the offset of the potential: on `offsetRegion`, whose potential
has offset 1, the corner potentials are `[0, 10, 0, 0]`, so that `|v0-v2| = 0 < |v1-v3| = 10`,
and both routines take `n1, n3` as supports, with overwrite value `-5`. -/
theorem diagonal_selection (R : MetalSimulationRegion) (x : ℕ → PetscScalar)
    (hn : HangingNode) (n0 n1 n2 n3 : FVM_Node)
    (h4 : hn.2.1.side_n_nodes hn.2.2 = 4)
    (h0 : R.region_fvm_node (hn.2.1.side_corner hn.2.2 0) = some n0)
    (h1 : R.region_fvm_node (hn.2.1.side_corner hn.2.2 1) = some n1)
    (h2 : R.region_fvm_node (hn.2.1.side_corner hn.2.2 2) = some n2)
    (h3 : R.region_fvm_node (hn.2.1.side_corner hn.2.2 3) = some n3) :
    (R.ebm_variable_offset .POTENTIAL = 0 →
      (|x (n0.local_offset + R.ebm_variable_offset .POTENTIAL) -
          x (n2.local_offset + R.ebm_variable_offset .POTENTIAL)| <
        |x (n1.local_offset + R.ebm_variable_offset .POTENTIAL) -
          x (n3.local_offset + R.ebm_variable_offset .POTENTIAL)| →
        ∃ ts, side_interpolation R x hn = .ok (ts, n0, n2) ∧
          Function_side_node R x hn = .ok (ts, Function_constraint R x hn.1 n0 n2) ∧
          Jacobian_side_node R x hn = .ok (ts, Jacobian_constraint R x hn.1 n0 n2)) ∧
      (|x (n1.local_offset + R.ebm_variable_offset .POTENTIAL) -
          x (n3.local_offset + R.ebm_variable_offset .POTENTIAL)| <
        |x (n0.local_offset + R.ebm_variable_offset .POTENTIAL) -
          x (n2.local_offset + R.ebm_variable_offset .POTENTIAL)| →
        ∃ ts, side_interpolation R x hn = .ok (ts, n1, n3) ∧
          Function_side_node R x hn = .ok (ts, Function_constraint R x hn.1 n1 n3) ∧
          Jacobian_side_node R x hn = .ok (ts, Jacobian_constraint R x hn.1 n1 n3)) ∧
      (x (n0.local_offset + R.ebm_variable_offset .POTENTIAL) = 0 →
        x (n1.local_offset + R.ebm_variable_offset .POTENTIAL) = 10 →
        x (n2.local_offset + R.ebm_variable_offset .POTENTIAL) = 0 →
        x (n3.local_offset + R.ebm_variable_offset .POTENTIAL) = 0 →
        ∃ ts, side_interpolation R x hn = .ok (ts, n0, n2) ∧
          Function_side_node R x hn = .ok (ts, Function_constraint R x hn.1 n0 n2) ∧
          Jacobian_side_node R x hn = .ok (ts, Jacobian_constraint R x hn.1 n0 n2))) ∧
    ((offsetX ((⟨0, 2, 2⟩ : FVM_Node).local_offset + offsetRegion.ebm_variable_offset .POTENTIAL) = 0 ∧
        offsetX ((⟨0, 4, 4⟩ : FVM_Node).local_offset + offsetRegion.ebm_variable_offset .POTENTIAL) = 10 ∧
        offsetX ((⟨0, 6, 6⟩ : FVM_Node).local_offset + offsetRegion.ebm_variable_offset .POTENTIAL) = 0 ∧
        offsetX ((⟨0, 8, 8⟩ : FVM_Node).local_offset + offsetRegion.ebm_variable_offset .POTENTIAL) = 0) ∧
      offsetRegion.region_fvm_node (demoQuadNode.2.1.side_corner demoQuadNode.2.2 0) =
        some ⟨0, 2, 2⟩ ∧
      offsetRegion.region_fvm_node (demoQuadNode.2.1.side_corner demoQuadNode.2.2 1) =
        some ⟨0, 4, 4⟩ ∧
      offsetRegion.region_fvm_node (demoQuadNode.2.1.side_corner demoQuadNode.2.2 2) =
        some ⟨0, 6, 6⟩ ∧
      offsetRegion.region_fvm_node (demoQuadNode.2.1.side_corner demoQuadNode.2.2 3) =
        some ⟨0, 8, 8⟩ ∧
      side_interpolation offsetRegion offsetX demoQuadNode =
        .ok ([⟨21, 3, 1/4⟩, ⟨21, 5, 1/4⟩, ⟨21, 7, 1/4⟩, ⟨21, 9, 1/4⟩], ⟨0, 4, 4⟩, ⟨0, 8, 8⟩) ∧
      Function_side_node offsetRegion offsetX demoQuadNode =
        .ok ([⟨21, 3, 1/4⟩, ⟨21, 5, 1/4⟩, ⟨21, 7, 1/4⟩, ⟨21, 9, 1/4⟩], [(21, -5)]) ∧
      Jacobian_side_node offsetRegion offsetX demoQuadNode =
        .ok ([⟨21, 3, 1/4⟩, ⟨21, 5, 1/4⟩, ⟨21, 7, 1/4⟩, ⟨21, 9, 1/4⟩],
          [⟨21, [21, 5, 9], ⟨-5, [1, -1/2, -1/2]⟩⟩])) := by
  have hside := side_interpolation_of_corners R x hn [n0, n1, n2, n3]
    (four_corners R hn n0 n1 n2 n3 h4 h0 h1 h2 h3)
  have hfirst : |x n0.local_offset - x n2.local_offset| <
      |x n1.local_offset - x n3.local_offset| →
      ∃ ts, side_interpolation R x hn = .ok (ts, n0, n2) ∧
        Function_side_node R x hn = .ok (ts, Function_constraint R x hn.1 n0 n2) ∧
        Jacobian_side_node R x hn = .ok (ts, Jacobian_constraint R x hn.1 n0 n2) := by
    intro hlt
    have h : side_interpolation R x hn = .ok ([n0, n1, n2, n3].flatMap
        (fun c => corner_transfers R hn.1 c (hn.2.1.side_n_nodes hn.2.2)), n0, n2) := by
      rw [hside]; simp [interpolation_points, hlt, Except.map]
    exact ⟨_, h, side_nodes_of_interpolation R x hn _ n0 n2 h⟩
  have hsecond : |x n1.local_offset - x n3.local_offset| <
      |x n0.local_offset - x n2.local_offset| →
      ∃ ts, side_interpolation R x hn = .ok (ts, n1, n3) ∧
        Function_side_node R x hn = .ok (ts, Function_constraint R x hn.1 n1 n3) ∧
        Jacobian_side_node R x hn = .ok (ts, Jacobian_constraint R x hn.1 n1 n3) := by
    intro hlt
    have h : side_interpolation R x hn = .ok ([n0, n1, n2, n3].flatMap
        (fun c => corner_transfers R hn.1 c (hn.2.1.side_n_nodes hn.2.2)), n1, n3) := by
      rw [hside]; simp [interpolation_points, not_lt.2 hlt.le, Except.map]
    exact ⟨_, h, side_nodes_of_interpolation R x hn _ n1 n3 h⟩
  refine ⟨?_, ⟨?_, ?_, ?_, ?_⟩, rfl, rfl, rfl, rfl, ?_, offset_Function_side_node, ?_⟩
  · intro hpsi
    simp only [hpsi, add_zero]
    refine ⟨hfirst, hsecond, ?_⟩
    intro e0 e1 e2 e3
    apply hfirst
    rw [e0, e1, e2, e3]
    norm_num
  · simp [offsetX, offsetRegion]
  · simp [offsetX, offsetRegion]
  · simp [offsetX, offsetRegion]
  · simp [offsetX, offsetRegion]
  · simp [offsetRegion, demoQuadNode, side_interpolation, side_loop, demoElem, Elem.build_side,
      Side.get_node, deref, corner_transfers, interpolation_points, offsetX, bind, Except.bind]
    norm_num
  · simp [offsetRegion, demoQuadNode, Jacobian_side_node, side_interpolation, side_loop,
      demoElem, Elem.build_side, Side.get_node, deref, corner_transfers, interpolation_points,
      Jacobian_constraint, ad_constraint_eq, offsetX, bind, Except.bind]
    norm_num

theorem diagonal_selection_witness :
    (∃ ts, side_interpolation demoRegion demoX demoQuadNode = .ok (ts, ⟨0, 2, 2⟩, ⟨0, 6, 6⟩) ∧
      Function_side_node demoRegion demoX demoQuadNode =
        .ok (ts, Function_constraint demoRegion demoX demoQuadNode.1 ⟨0, 2, 2⟩ ⟨0, 6, 6⟩) ∧
      Jacobian_side_node demoRegion demoX demoQuadNode =
        .ok (ts, Jacobian_constraint demoRegion demoX demoQuadNode.1 ⟨0, 2, 2⟩ ⟨0, 6, 6⟩)) ∧
    (∃ ts, side_interpolation demoRegion demoX2 demoQuadNode = .ok (ts, ⟨0, 4, 4⟩, ⟨0, 8, 8⟩) ∧
      Function_side_node demoRegion demoX2 demoQuadNode =
        .ok (ts, Function_constraint demoRegion demoX2 demoQuadNode.1 ⟨0, 4, 4⟩ ⟨0, 8, 8⟩) ∧
      Jacobian_side_node demoRegion demoX2 demoQuadNode =
        .ok (ts, Jacobian_constraint demoRegion demoX2 demoQuadNode.1 ⟨0, 4, 4⟩ ⟨0, 8, 8⟩)) ∧
    (∃ ts, side_interpolation demoRegion demoX demoQuadNode = .ok (ts, ⟨0, 2, 2⟩, ⟨0, 6, 6⟩) ∧
      Function_side_node demoRegion demoX demoQuadNode =
        .ok (ts, Function_constraint demoRegion demoX demoQuadNode.1 ⟨0, 2, 2⟩ ⟨0, 6, 6⟩) ∧
      Jacobian_side_node demoRegion demoX demoQuadNode =
        .ok (ts, Jacobian_constraint demoRegion demoX demoQuadNode.1 ⟨0, 2, 2⟩ ⟨0, 6, 6⟩)) :=
  ⟨((diagonal_selection demoRegion demoX demoQuadNode ⟨0, 2, 2⟩ ⟨0, 4, 4⟩ ⟨0, 6, 6⟩ ⟨0, 8, 8⟩
      rfl rfl rfl rfl rfl).1 rfl).1 (by simp [demoX, demoRegion]),
   ((diagonal_selection demoRegion demoX2 demoQuadNode ⟨0, 2, 2⟩ ⟨0, 4, 4⟩ ⟨0, 6, 6⟩ ⟨0, 8, 8⟩
      rfl rfl rfl rfl rfl).1 rfl).2.1 (by simp [demoX2, demoRegion]),
   ((diagonal_selection demoRegion demoX demoQuadNode ⟨0, 2, 2⟩ ⟨0, 4, 4⟩ ⟨0, 6, 6⟩ ⟨0, 8, 8⟩
      rfl rfl rfl rfl rfl).1 rfl).2.2 (by simp [demoX, demoRegion]) (by simp [demoX, demoRegion])
      (by simp [demoX, demoRegion]) (by simp [demoX, demoRegion])⟩

/-- Claim C5, evaluated on a region whose potential offset is 1.  The potentials of the four
corners are `0, 10, 0, 0`, so the first diagonal has the strictly smaller potential
difference; the routines compare the entries `x[local_offset(n_i)]` instead, which belong to
the first variable of the corners and differ by 5 on the first diagonal and by 0 on the
second, and take `n1, n3` as supports. -/
theorem diagonal_selection_reads_without_offset :
    (|offsetX ((⟨0, 2, 2⟩ : FVM_Node).local_offset + offsetRegion.ebm_variable_offset .POTENTIAL) -
        offsetX ((⟨0, 6, 6⟩ : FVM_Node).local_offset + offsetRegion.ebm_variable_offset .POTENTIAL)| <
      |offsetX ((⟨0, 4, 4⟩ : FVM_Node).local_offset + offsetRegion.ebm_variable_offset .POTENTIAL) -
        offsetX ((⟨0, 8, 8⟩ : FVM_Node).local_offset + offsetRegion.ebm_variable_offset .POTENTIAL)|) ∧
    Function_side_buffers offsetRegion 0 offsetX =
      .ok ([⟨21, 3, 1/4⟩, ⟨21, 5, 1/4⟩, ⟨21, 7, 1/4⟩, ⟨21, 9, 1/4⟩], [(21, -5)]) ∧
    Jacobian_side_buffers offsetRegion 0 offsetX =
      .ok ([⟨21, 3, 1/4⟩, ⟨21, 5, 1/4⟩, ⟨21, 7, 1/4⟩, ⟨21, 9, 1/4⟩],
        [⟨21, [21, 5, 9], ⟨-5, [1, -1/2, -1/2]⟩⟩]) := by
  refine ⟨?_, ?_, ?_⟩
  · simp [offsetX, offsetRegion]
  · simp [Function_side_buffers, hanging_node_loop, offsetRegion, demoQuadNode,
      Function_side_node, side_interpolation, side_loop, demoElem, Elem.build_side,
      Side.get_node, deref, corner_transfers, interpolation_points, Function_constraint, offsetX,
      bind, Except.bind]
    norm_num
  · simp [Jacobian_side_buffers, hanging_node_loop, offsetRegion, demoQuadNode,
      Jacobian_side_node, side_interpolation, side_loop, demoElem, Elem.build_side,
      Side.get_node, deref, corner_transfers, interpolation_points, Jacobian_constraint,
      ad_constraint_eq, offsetX, bind, Except.bind]
    norm_num

/-- Claim C6.  Ownership filter.  In each of the four passes (residual side, residual edge,
Jacobian side, Jacobian edge), over any hanging-node map `L`: the loop gives the same result
as on the map with every entry of another processor removed; when it completes, its buffers
are exactly the concatenation, in map order, of the records of the owned entries; and when no
entry is owned it completes with empty buffers. -/
theorem ownership_filter (R : MetalSimulationRegion) (processor_id : ℕ) (x : ℕ → PetscScalar)
    (L : List HangingNode) :
    (hanging_node_loop (Function_side_node R x) processor_id L =
        hanging_node_loop (Function_side_node R x) processor_id (L.filter (owned processor_id)) ∧
      hanging_node_loop (Function_edge_node R x) processor_id L =
        hanging_node_loop (Function_edge_node R x) processor_id (L.filter (owned processor_id)) ∧
      hanging_node_loop (Jacobian_side_node R x) processor_id L =
        hanging_node_loop (Jacobian_side_node R x) processor_id (L.filter (owned processor_id)) ∧
      hanging_node_loop (Jacobian_edge_node R x) processor_id L =
        hanging_node_loop (Jacobian_edge_node R x) processor_id
          (L.filter (owned processor_id))) ∧
    ((∀ b, hanging_node_loop (Function_side_node R x) processor_id L = .ok b →
        ∃ cs, List.Forall₂ (fun hn c => Function_side_node R x hn = .ok c)
            (L.filter (owned processor_id)) cs ∧
          b = ((cs.map Prod.fst).flatten, (cs.map Prod.snd).flatten)) ∧
      (∀ b, hanging_node_loop (Function_edge_node R x) processor_id L = .ok b →
        ∃ cs, List.Forall₂ (fun hn c => Function_edge_node R x hn = .ok c)
            (L.filter (owned processor_id)) cs ∧
          b = ((cs.map Prod.fst).flatten, (cs.map Prod.snd).flatten)) ∧
      (∀ b, hanging_node_loop (Jacobian_side_node R x) processor_id L = .ok b →
        ∃ cs, List.Forall₂ (fun hn c => Jacobian_side_node R x hn = .ok c)
            (L.filter (owned processor_id)) cs ∧
          b = ((cs.map Prod.fst).flatten, (cs.map Prod.snd).flatten)) ∧
      (∀ b, hanging_node_loop (Jacobian_edge_node R x) processor_id L = .ok b →
        ∃ cs, List.Forall₂ (fun hn c => Jacobian_edge_node R x hn = .ok c)
            (L.filter (owned processor_id)) cs ∧
          b = ((cs.map Prod.fst).flatten, (cs.map Prod.snd).flatten))) ∧
    ((∀ hn ∈ L, hn.1.processor_id ≠ processor_id) →
      hanging_node_loop (Function_side_node R x) processor_id L = .ok ([], []) ∧
      hanging_node_loop (Function_edge_node R x) processor_id L = .ok ([], []) ∧
      hanging_node_loop (Jacobian_side_node R x) processor_id L = .ok ([], []) ∧
      hanging_node_loop (Jacobian_edge_node R x) processor_id L = .ok ([], [])) :=
  ⟨⟨hanging_node_loop_filter _ _ _, hanging_node_loop_filter _ _ _,
      hanging_node_loop_filter _ _ _, hanging_node_loop_filter _ _ _⟩,
    ⟨fun b => (hanging_node_loop_ok _ _ _ b).1, fun b => (hanging_node_loop_ok _ _ _ b).1,
      fun b => (hanging_node_loop_ok _ _ _ b).1, fun b => (hanging_node_loop_ok _ _ _ b).1⟩,
    fun h => ⟨hanging_node_loop_none_owned _ _ _ h, hanging_node_loop_none_owned _ _ _ h,
      hanging_node_loop_none_owned _ _ _ h, hanging_node_loop_none_owned _ _ _ h⟩⟩

theorem ownership_filter_witness :
    (Function_side_buffers foreignRegion 0 demoX = .ok ([], []) ∧
      Function_edge_buffers foreignRegion 0 demoX = .ok ([], []) ∧
      Jacobian_side_buffers foreignRegion 0 demoX = .ok ([], []) ∧
      Jacobian_edge_buffers foreignRegion 0 demoX = .ok ([], [])) ∧
    (∃ cs, List.Forall₂ (fun hn c => Function_side_node demoRegion demoX hn = .ok c)
        (demoRegion.hanging_node_on_elem_side.filter (owned 0)) cs ∧
      (demoSideTransfers, demoSideInserts) =
        ((cs.map Prod.fst).flatten, (cs.map Prod.snd).flatten)) ∧
    (∃ cs, List.Forall₂ (fun hn c => Jacobian_edge_node demoRegion demoX hn = .ok c)
        (demoRegion.hanging_node_on_elem_edge.filter (owned 0)) cs ∧
      (demoEdgeTransfers, demoEdgeRows) =
        ((cs.map Prod.fst).flatten, (cs.map Prod.snd).flatten)) :=
  ⟨⟨((ownership_filter foreignRegion 0 demoX foreignRegion.hanging_node_on_elem_side).2.2
        (by simp [foreignRegion])).1,
      ((ownership_filter foreignRegion 0 demoX foreignRegion.hanging_node_on_elem_edge).2.2
        (by simp [foreignRegion])).2.1,
      ((ownership_filter foreignRegion 0 demoX foreignRegion.hanging_node_on_elem_side).2.2
        (by simp [foreignRegion])).2.2.1,
      ((ownership_filter foreignRegion 0 demoX foreignRegion.hanging_node_on_elem_edge).2.2
        (by simp [foreignRegion])).2.2.2⟩,
    (ownership_filter demoRegion 0 demoX demoRegion.hanging_node_on_elem_side).2.1.1 _
      demo_Function_side_buffers,
    (ownership_filter demoRegion 0 demoX demoRegion.hanging_node_on_elem_edge).2.1.2.2.2 _
      demo_Jacobian_edge_buffers⟩

/-- Claim C7.  No-op without hanging nodes.  When the region reports neither 2D nor 3D hanging
nodes, the residual contribution returns the residual vector unchanged and the Jacobian
contribution returns the matrix unchanged, and both leave `add_value_flag` at the value the
caller passed in. -/
theorem no_hanging_node_is_noop (R : MetalSimulationRegion) (processor_id : ℕ)
    (x : ℕ → PetscScalar) (f : Vec) (jac : Mat) (add_value_flag : InsertMode)
    (h2d : R.has_2d_hanging_node = false) (h3d : R.has_3d_hanging_node = false) :
    EBM3_Function_Hanging_Node R processor_id x f add_value_flag = .ok (f, add_value_flag) ∧
    EBM3_Jacobian_Hanging_Node R processor_id x jac add_value_flag =
      .ok (jac, add_value_flag) := by
  simp [EBM3_Function_Hanging_Node, EBM3_Jacobian_Hanging_Node, h2d, h3d]

theorem no_hanging_node_is_noop_witness :
    EBM3_Function_Hanging_Node plainRegion 0 demoX (fun r => (r : ℚ) + 7) .ADD_VALUES =
      .ok ((fun r => (r : ℚ) + 7), .ADD_VALUES) ∧
    EBM3_Jacobian_Hanging_Node plainRegion 0 demoX (fun r c => (r : ℚ) * c) .ADD_VALUES =
      .ok ((fun r c => (r : ℚ) * c), .ADD_VALUES) :=
  no_hanging_node_is_noop plainRegion 0 demoX _ _ .ADD_VALUES rfl rfl

/-- Claim C8.  The transfer targets are all geometric corner nodes.  For a side-center hanging
node `H` whose side has `n` corner nodes, `n` being 2 or 4, all found in the region, the
bodies of the residual and of the Jacobian side loop complete and push, corner after corner,
one transfer record per active variable, with source row `global_offset(H)` plus the variable
offset, destination row `global_offset(corner)` plus the same offset, and weight `1/n`, while
the constraint is formed with two of the corners only.  Conversely, whenever one of the two
bodies completes, `n` is 2 or 4, every corner is found, and the transfer records pushed are
these: `n` records per active variable, 4 of weight 1/4 on a 4-node side. -/
theorem transfer_targets_all_corners (R : MetalSimulationRegion) (x : ℕ → PetscScalar)
    (hn : HangingNode) :
    (∀ corners : List FVM_Node,
      (hn.2.1.side_n_nodes hn.2.2 = 2 ∨ hn.2.1.side_n_nodes hn.2.2 = 4) →
      corners.map some = (List.range (hn.2.1.side_n_nodes hn.2.2)).map
        (fun i => R.region_fvm_node (hn.2.1.side_corner hn.2.2 i)) →
      ∃ p1 p2, p1 ∈ corners ∧ p2 ∈ corners ∧
        Function_side_node R x hn =
          .ok (corners.flatMap (fun c => (active_offsets R).map (fun off =>
              (⟨hn.1.global_offset + off, c.global_offset + off,
                1 / (hn.2.1.side_n_nodes hn.2.2 : ℚ)⟩ : Transfer))),
            Function_constraint R x hn.1 p1 p2) ∧
        Jacobian_side_node R x hn =
          .ok (corners.flatMap (fun c => (active_offsets R).map (fun off =>
              (⟨hn.1.global_offset + off, c.global_offset + off,
                1 / (hn.2.1.side_n_nodes hn.2.2 : ℚ)⟩ : Transfer))),
            Jacobian_constraint R x hn.1 p1 p2)) ∧
    (∀ ts : List Transfer,
      ((∃ c, Function_side_node R x hn = .ok c ∧ c.1 = ts) ∨
        (∃ c, Jacobian_side_node R x hn = .ok c ∧ c.1 = ts)) →
      (hn.2.1.side_n_nodes hn.2.2 = 2 ∨ hn.2.1.side_n_nodes hn.2.2 = 4) ∧
      ∃ corners : List FVM_Node,
        corners.length = hn.2.1.side_n_nodes hn.2.2 ∧
        corners.map some = (List.range (hn.2.1.side_n_nodes hn.2.2)).map
          (fun i => R.region_fvm_node (hn.2.1.side_corner hn.2.2 i)) ∧
        ts = corners.flatMap (fun c => (active_offsets R).map (fun off =>
          (⟨hn.1.global_offset + off, c.global_offset + off,
            1 / (hn.2.1.side_n_nodes hn.2.2 : ℚ)⟩ : Transfer))) ∧
        ts.length = hn.2.1.side_n_nodes hn.2.2 * (active_offsets R).length ∧
        ∀ t ∈ ts, t.alpha = 1 / (hn.2.1.side_n_nodes hn.2.2 : ℚ)) := by
  constructor
  · intro corners h24 hcorners
    rw [List.range_eq_range'] at hcorners
    have hlen : corners.length = hn.2.1.side_n_nodes hn.2.2 := by
      rw [length_of_map_some _ _ _ hcorners, List.length_range']
    have hside := side_interpolation_of_corners R x hn corners hcorners
    cases hp : interpolation_points x corners with
    | error e =>
      have := (interpolation_points_eq_error x corners e).1 hp
      omega
    | ok p =>
      obtain ⟨hm1, hm2⟩ := interpolation_points_mem x corners p hp
      rw [hp] at hside
      simp only [Except.map, corner_transfers_eq] at hside
      exact ⟨p.1, p.2, hm1, hm2, side_nodes_of_interpolation R x hn _ p.1 p.2 hside⟩
  · intro ts h
    obtain ⟨p1, p2, hside⟩ := side_transfers_of_node R x hn ts h
    obtain ⟨ps, hps, rfl, hp⟩ := (side_interpolation_eq_ok R x hn ts p1 p2).1 hside
    have hlen : ps.length = hn.2.1.side_n_nodes hn.2.2 := by
      rw [length_of_map_some _ _ _ hps, List.length_range']
    have h24 := interpolation_points_length x ps _ hp
    rw [hlen] at h24
    refine ⟨h24, ps, hlen, ?_, ?_, ?_, ?_⟩
    · rw [hps, List.range_eq_range']
    · simp only [corner_transfers_eq]
    · rw [← hlen]
      exact length_flatMap_const ps _ _ (fun c => by simp [corner_transfers_eq])
    · intro t ht
      simp only [corner_transfers_eq, List.mem_flatMap, List.mem_map] at ht
      obtain ⟨c, -, off, -, rfl⟩ := ht
      rfl

theorem transfer_targets_all_corners_witness :
    (∃ p1 p2, p1 ∈ [(⟨0, 2, 2⟩ : FVM_Node), ⟨0, 4, 4⟩, ⟨0, 6, 6⟩, ⟨0, 8, 8⟩] ∧
        p2 ∈ [(⟨0, 2, 2⟩ : FVM_Node), ⟨0, 4, 4⟩, ⟨0, 6, 6⟩, ⟨0, 8, 8⟩] ∧
        Function_side_node demoRegion demoX demoQuadNode =
          .ok ([(⟨0, 2, 2⟩ : FVM_Node), ⟨0, 4, 4⟩, ⟨0, 6, 6⟩, ⟨0, 8, 8⟩].flatMap
              (fun c => (active_offsets demoRegion).map (fun off =>
                (⟨demoQuadNode.1.global_offset + off, c.global_offset + off,
                  1 / (demoQuadNode.2.1.side_n_nodes demoQuadNode.2.2 : ℚ)⟩ : Transfer))),
            Function_constraint demoRegion demoX demoQuadNode.1 p1 p2) ∧
        Jacobian_side_node demoRegion demoX demoQuadNode =
          .ok ([(⟨0, 2, 2⟩ : FVM_Node), ⟨0, 4, 4⟩, ⟨0, 6, 6⟩, ⟨0, 8, 8⟩].flatMap
              (fun c => (active_offsets demoRegion).map (fun off =>
                (⟨demoQuadNode.1.global_offset + off, c.global_offset + off,
                  1 / (demoQuadNode.2.1.side_n_nodes demoQuadNode.2.2 : ℚ)⟩ : Transfer))),
            Jacobian_constraint demoRegion demoX demoQuadNode.1 p1 p2)) ∧
    ((demoElem.side_n_nodes 0 = 2 ∨ demoElem.side_n_nodes 0 = 4) ∧
      ∃ corners : List FVM_Node,
        corners.length = demoElem.side_n_nodes 0 ∧
        corners.map some = (List.range (demoElem.side_n_nodes 0)).map
          (fun i => demoRegion.region_fvm_node (demoElem.side_corner 0 i)) ∧
        demoQuadTransfers = corners.flatMap (fun c => (active_offsets demoRegion).map
          (fun off =>
            (⟨20 + off, c.global_offset + off, 1 / (demoElem.side_n_nodes 0 : ℚ)⟩ : Transfer))) ∧
        demoQuadTransfers.length = demoElem.side_n_nodes 0 * (active_offsets demoRegion).length ∧
        ∀ t ∈ demoQuadTransfers, t.alpha = 1 / (demoElem.side_n_nodes 0 : ℚ)) :=
  ⟨(transfer_targets_all_corners demoRegion demoX demoQuadNode).1
      [⟨0, 2, 2⟩, ⟨0, 4, 4⟩, ⟨0, 6, 6⟩, ⟨0, 8, 8⟩] (Or.inr rfl) rfl,
   (transfer_targets_all_corners demoRegion demoX demoQuadNode).2 demoQuadTransfers
      (Or.inl ⟨_, demo_Function_side_node, rfl⟩)⟩

/-- Claim C9, as amended.  Fatal corner-count error for sides.  With hanging nodes present and
every corner of the side of every owned side-center hanging node found in the region, the
residual and the Jacobian contribution stop at `genius_error()` if and only if some owned
side-center hanging node has a side whose corner-node count is neither 2 nor 4.  When
moreover every owned edge-center hanging node has an edge of at least 2 nodes whose nodes 0
and 1 are found in the region, the two contributions stop in any way if and only if there is
such a side, and return otherwise. -/
theorem side_corner_count_fatal (R : MetalSimulationRegion) (processor_id : ℕ)
    (x : ℕ → PetscScalar) (f : Vec) (jac : Mat) (add_value_flag : InsertMode)
    (hhang : R.has_2d_hanging_node = true ∨ R.has_3d_hanging_node = true)
    (hside : ∀ hn ∈ R.hanging_node_on_elem_side, hn.1.processor_id = processor_id →
      ∀ i < hn.2.1.side_n_nodes hn.2.2,
        (R.region_fvm_node (hn.2.1.side_corner hn.2.2 i)).isSome = true) :
    ((EBM3_Function_Hanging_Node R processor_id x f add_value_flag = .error Fault.genius_error ↔
        ∃ hn ∈ R.hanging_node_on_elem_side, hn.1.processor_id = processor_id ∧
          ¬ (hn.2.1.side_n_nodes hn.2.2 = 2 ∨ hn.2.1.side_n_nodes hn.2.2 = 4)) ∧
      (EBM3_Jacobian_Hanging_Node R processor_id x jac add_value_flag =
          .error Fault.genius_error ↔
        ∃ hn ∈ R.hanging_node_on_elem_side, hn.1.processor_id = processor_id ∧
          ¬ (hn.2.1.side_n_nodes hn.2.2 = 2 ∨ hn.2.1.side_n_nodes hn.2.2 = 4))) ∧
    ((∀ hn ∈ R.hanging_node_on_elem_edge, hn.1.processor_id = processor_id →
        2 ≤ hn.2.1.edge_n_nodes hn.2.2 ∧ ∀ i < 2,
          (R.region_fvm_node (hn.2.1.edge_corner hn.2.2 i)).isSome = true) →
      (((∃ e, EBM3_Function_Hanging_Node R processor_id x f add_value_flag = .error e) ↔
          ∃ hn ∈ R.hanging_node_on_elem_side, hn.1.processor_id = processor_id ∧
            ¬ (hn.2.1.side_n_nodes hn.2.2 = 2 ∨ hn.2.1.side_n_nodes hn.2.2 = 4)) ∧
        ((∃ e, EBM3_Jacobian_Hanging_Node R processor_id x jac add_value_flag = .error e) ↔
          ∃ hn ∈ R.hanging_node_on_elem_side, hn.1.processor_id = processor_id ∧
            ¬ (hn.2.1.side_n_nodes hn.2.2 = 2 ∨ hn.2.1.side_n_nodes hn.2.2 = 4)))) := by
  have hflag : (!R.has_2d_hanging_node && !R.has_3d_hanging_node) = false := by
    rcases hhang with h | h <;> simp [h]
  obtain ⟨hFbad, hFgood⟩ := hanging_node_loop_dichotomy (Function_side_node R x) processor_id
    R.hanging_node_on_elem_side
    (fun hn => hn.2.1.side_n_nodes hn.2.2 = 2 ∨ hn.2.1.side_n_nodes hn.2.2 = 4)
    (fun hn hmem ho hg => ((side_node_found R x hn (hside hn hmem ho)).1 hg).1)
    (fun hn hmem ho hg => ((side_node_found R x hn (hside hn hmem ho)).2 (by omega)).1)
  obtain ⟨hJbad, hJgood⟩ := hanging_node_loop_dichotomy (Jacobian_side_node R x) processor_id
    R.hanging_node_on_elem_side
    (fun hn => hn.2.1.side_n_nodes hn.2.2 = 2 ∨ hn.2.1.side_n_nodes hn.2.2 = 4)
    (fun hn hmem ho hg => ((side_node_found R x hn (hside hn hmem ho)).1 hg).2)
    (fun hn hmem ho hg => ((side_node_found R x hn (hside hn hmem ho)).2 (by omega)).2)
  have hF1 : (∃ hn ∈ R.hanging_node_on_elem_side, hn.1.processor_id = processor_id ∧
      ¬ (hn.2.1.side_n_nodes hn.2.2 = 2 ∨ hn.2.1.side_n_nodes hn.2.2 = 4)) →
      EBM3_Function_Hanging_Node R processor_id x f add_value_flag =
        .error Fault.genius_error := by
    intro hbad
    simp [EBM3_Function_Hanging_Node, hflag, Function_side_buffers, hFbad hbad, bind,
      Except.bind]
  have hJ1 : (∃ hn ∈ R.hanging_node_on_elem_side, hn.1.processor_id = processor_id ∧
      ¬ (hn.2.1.side_n_nodes hn.2.2 = 2 ∨ hn.2.1.side_n_nodes hn.2.2 = 4)) →
      EBM3_Jacobian_Hanging_Node R processor_id x jac add_value_flag =
        .error Fault.genius_error := by
    intro hbad
    simp [EBM3_Jacobian_Hanging_Node, hflag, Jacobian_side_buffers, hJbad hbad, bind,
      Except.bind]
  refine ⟨⟨⟨?_, hF1⟩, ⟨?_, hJ1⟩⟩, ?_⟩
  · intro h
    by_contra hnone
    obtain ⟨b, hb⟩ := hFgood hnone
    have h' : hanging_node_loop (Function_edge_node R x) processor_id
        R.hanging_node_on_elem_edge = .error Fault.genius_error := by
      cases hE : hanging_node_loop (Function_edge_node R x) processor_id
          R.hanging_node_on_elem_edge with
      | ok v =>
        simp [EBM3_Function_Hanging_Node, hflag, Function_side_buffers, hb,
          Function_edge_buffers, hE, bind, Except.bind] at h
      | error e =>
        simpa [EBM3_Function_Hanging_Node, hflag, Function_side_buffers, hb,
          Function_edge_buffers, hE, bind, Except.bind] using h
    obtain ⟨hn, -, -, he⟩ := hanging_node_loop_error _ _ _ _ h'
    exact (edge_node_no_genius_error R x hn).1 he
  · intro h
    by_contra hnone
    obtain ⟨b, hb⟩ := hJgood hnone
    have h' : hanging_node_loop (Jacobian_edge_node R x) processor_id
        R.hanging_node_on_elem_edge = .error Fault.genius_error := by
      cases hE : hanging_node_loop (Jacobian_edge_node R x) processor_id
          R.hanging_node_on_elem_edge with
      | ok v =>
        simp [EBM3_Jacobian_Hanging_Node, hflag, Jacobian_side_buffers, hb,
          Jacobian_edge_buffers, hE, bind, Except.bind] at h
      | error e =>
        simpa [EBM3_Jacobian_Hanging_Node, hflag, Jacobian_side_buffers, hb,
          Jacobian_edge_buffers, hE, bind, Except.bind] using h
    obtain ⟨hn, -, -, he⟩ := hanging_node_loop_error _ _ _ _ h'
    exact (edge_node_no_genius_error R x hn).2 he
  · intro hedge
    obtain ⟨bF, hbF⟩ := hanging_node_loop_complete (Function_edge_node R x) processor_id
      R.hanging_node_on_elem_edge
      (fun hn hmem ho => (edge_node_found R x hn (hedge hn hmem ho)).1)
    obtain ⟨bJ, hbJ⟩ := hanging_node_loop_complete (Jacobian_edge_node R x) processor_id
      R.hanging_node_on_elem_edge
      (fun hn hmem ho => (edge_node_found R x hn (hedge hn hmem ho)).2)
    refine ⟨⟨?_, fun hbad => ⟨_, hF1 hbad⟩⟩, ⟨?_, fun hbad => ⟨_, hJ1 hbad⟩⟩⟩
    · rintro ⟨e, he⟩
      by_contra hnone
      obtain ⟨b, hb⟩ := hFgood hnone
      simp [EBM3_Function_Hanging_Node, hflag, Function_side_buffers, hb,
        Function_edge_buffers, hbF, bind, Except.bind] at he
    · rintro ⟨e, he⟩
      by_contra hnone
      obtain ⟨b, hb⟩ := hJgood hnone
      simp [EBM3_Jacobian_Hanging_Node, hflag, Jacobian_side_buffers, hb,
        Jacobian_edge_buffers, hbJ, bind, Except.bind] at he

theorem side_corner_count_fatal_witness :
    (EBM3_Function_Hanging_Node triangleRegion 0 demoX demoVec .ADD_VALUES =
        .error Fault.genius_error ∧
      EBM3_Jacobian_Hanging_Node triangleRegion 0 demoX demoMat .ADD_VALUES =
        .error Fault.genius_error) ∧
    (¬ (∃ e, EBM3_Function_Hanging_Node demoRegion 0 demoX demoVec .ADD_VALUES = .error e) ∧
      ¬ (∃ e, EBM3_Jacobian_Hanging_Node demoRegion 0 demoX demoMat .ADD_VALUES = .error e)) := by
  have hT := side_corner_count_fatal triangleRegion 0 demoX demoVec demoMat .ADD_VALUES
    (Or.inl rfl)
    (by
      intro hn hmem _ i hi
      simp only [triangleRegion, List.mem_cons, List.mem_singleton, List.not_mem_nil,
        or_false] at hmem
      rcases hmem with rfl | rfl | rfl
      · have h4 : i < 4 := by simpa [demoElem] using hi
        interval_cases i <;> simp [demoElem, Elem.side_corner, triangleRegion]
      · have h3 : i < 3 := by simpa [demoElem] using hi
        interval_cases i <;> simp [demoElem, Elem.side_corner, triangleRegion]
      · have h2 : i < 2 := by simpa [demoElem] using hi
        interval_cases i <;> simp [demoElem, Elem.side_corner, triangleRegion])
  have hD := (side_corner_count_fatal demoRegion 0 demoX demoVec demoMat .ADD_VALUES
    (Or.inl rfl)
    (by
      intro hn hmem ho i hi
      simp only [demoRegion, List.mem_cons, List.mem_singleton, List.not_mem_nil,
        or_false] at hmem
      rcases hmem with rfl | rfl | rfl
      · have h4 : i < 4 := by simpa [demoElem] using hi
        interval_cases i <;> simp [demoElem, Elem.side_corner, demoRegion]
      · simp at ho
      · have h2 : i < 2 := by simpa [demoElem] using hi
        interval_cases i <;> simp [demoElem, Elem.side_corner, demoRegion])).2
    (by
      intro hn hmem _
      simp only [demoRegion, List.mem_singleton] at hmem
      subst hmem
      refine ⟨by simp [demoElem], fun i hi => ?_⟩
      interval_cases i <;> simp [demoElem, Elem.edge_corner, demoRegion])
  have hbadT : ∃ hn ∈ triangleRegion.hanging_node_on_elem_side, hn.1.processor_id = 0 ∧
      ¬ (hn.2.1.side_n_nodes hn.2.2 = 2 ∨ hn.2.1.side_n_nodes hn.2.2 = 4) :=
    ⟨(⟨0, 30, 30⟩, demoElem, 2), by simp [triangleRegion], rfl, by simp [demoElem]⟩
  have hgoodD : ¬ ∃ hn ∈ demoRegion.hanging_node_on_elem_side, hn.1.processor_id = 0 ∧
      ¬ (hn.2.1.side_n_nodes hn.2.2 = 2 ∨ hn.2.1.side_n_nodes hn.2.2 = 4) := by
    rintro ⟨hn, hmem, ho, hbad⟩
    simp only [demoRegion, List.mem_cons, List.mem_singleton, List.not_mem_nil,
      or_false] at hmem
    rcases hmem with rfl | rfl | rfl
    · simp [demoElem] at hbad
    · simp at ho
    · simp [demoElem] at hbad
  exact ⟨⟨hT.1.1.2 hbadT, hT.1.2.2 hbadT⟩,
    ⟨fun h => hgoodD (hD.1.1 h), fun h => hgoodD (hD.2.1 h)⟩⟩

/-- Claim C9 as stated fails.  On `lostEdgeRegion` no side-center hanging node exists, yet the
residual contribution stops, at the `genius_assert` of the edge pass.  On
`lostTriangleRegion` an owned hanging node lies on a side of 3 corner nodes, yet the Jacobian
contribution does not reach `genius_error()`: it stops before, at the dereference of the
missing corner. -/
theorem side_corner_count_fatal_counterexample :
    ¬ ((∃ e, EBM3_Function_Hanging_Node lostEdgeRegion 0 demoX demoVec .ADD_VALUES = .error e) ↔
        ∃ hn ∈ lostEdgeRegion.hanging_node_on_elem_side, hn.1.processor_id = 0 ∧
          ¬ (hn.2.1.side_n_nodes hn.2.2 = 2 ∨ hn.2.1.side_n_nodes hn.2.2 = 4)) ∧
    ¬ (EBM3_Jacobian_Hanging_Node lostTriangleRegion 0 demoX demoMat .ADD_VALUES =
          .error Fault.genius_error ↔
        ∃ hn ∈ lostTriangleRegion.hanging_node_on_elem_side, hn.1.processor_id = 0 ∧
          ¬ (hn.2.1.side_n_nodes hn.2.2 = 2 ∨ hn.2.1.side_n_nodes hn.2.2 = 4)) := by
  have hE : EBM3_Function_Hanging_Node lostEdgeRegion 0 demoX demoVec .ADD_VALUES =
      .error Fault.assertion := by
    simp [EBM3_Function_Hanging_Node, lostEdgeRegion, Function_side_buffers,
      Function_edge_buffers, hanging_node_loop, Function_edge_node,
      Function_edge_interpolation, Function_edge_loop, demoElem, Elem.build_edge,
      SideEdge.get_node, genius_assert_not_null, bind, Except.bind]
  have hT : EBM3_Jacobian_Hanging_Node lostTriangleRegion 0 demoX demoMat .ADD_VALUES =
      .error Fault.null_dereference := by
    simp [EBM3_Jacobian_Hanging_Node, lostTriangleRegion, Jacobian_side_buffers,
      hanging_node_loop, Jacobian_side_node, side_interpolation, side_loop, demoElem,
      Elem.build_side, Side.get_node, deref, bind, Except.bind]
  constructor
  · intro h
    have h1 := h.1 ⟨_, hE⟩
    simp [lostEdgeRegion] at h1
  · intro h
    have := h.2 ⟨(⟨0, 30, 30⟩, demoElem, 2), by simp [lostTriangleRegion], rfl,
      by simp [demoElem]⟩
    rw [hT] at this
    simp at this

/-- Claim C10, as amended.  The edge passes do not inspect the node count of the edge: the
count `n_edge_node` is the constant 2.  For an edge-center hanging node whose edge has at
least 2 nodes, whatever their number, and whose nodes 0 and 1 are found in the region, the
bodies of the residual and of the Jacobian edge loop complete and produce the records built
from nodes 0 and 1: per active variable two transfers of weight 1/2 and one constraint.  For
an edge with fewer than 2 nodes both bodies stop without producing records. -/
theorem edge_node_count_not_checked (R : MetalSimulationRegion) (x : ℕ → PetscScalar)
    (hn : HangingNode) :
    (∀ p0 p1 : FVM_Node, 2 ≤ hn.2.1.edge_n_nodes hn.2.2 →
      R.region_fvm_node (hn.2.1.edge_corner hn.2.2 0) = some p0 →
      R.region_fvm_node (hn.2.1.edge_corner hn.2.2 1) = some p1 →
      Function_edge_node R x hn =
        .ok ([p0, p1].flatMap (fun c => (active_offsets R).map (fun off =>
            (⟨hn.1.global_offset + off, c.global_offset + off, 1 / 2⟩ : Transfer))),
          Function_constraint R x hn.1 p0 p1) ∧
      Jacobian_edge_node R x hn =
        .ok ([p0, p1].flatMap (fun c => (active_offsets R).map (fun off =>
            (⟨hn.1.global_offset + off, c.global_offset + off, 1 / 2⟩ : Transfer))),
          Jacobian_constraint R x hn.1 p0 p1)) ∧
    (hn.2.1.edge_n_nodes hn.2.2 < 2 →
      (∃ e, Function_edge_node R x hn = .error e) ∧
      (∃ e, Jacobian_edge_node R x hn = .error e)) := by
  constructor
  · intro p0 p1 h2 h0 h1
    have hts : corner_transfers R hn.1 p0 2 ++ corner_transfers R hn.1 p1 2 =
        [p0, p1].flatMap (fun c => (active_offsets R).map (fun off =>
          (⟨hn.1.global_offset + off, c.global_offset + off, 1 / 2⟩ : Transfer))) := by
      simp [corner_transfers_eq]
    rw [← hts]
    exact ⟨(Function_edge_node_eq_ok R x hn _).2 ⟨_, p0, p1,
        (Function_edge_interpolation_eq_ok R hn _ p0 p1).2 ⟨h2, h0, h1, rfl⟩, rfl⟩,
      (Jacobian_edge_node_eq_ok R x hn _).2 ⟨_, p0, p1,
        (Jacobian_edge_interpolation_eq_ok R hn _ p0 p1).2 ⟨h2, h0, h1, rfl⟩, rfl⟩⟩
  · intro hlt
    constructor
    · cases h : Function_edge_node R x hn with
      | error e => exact ⟨e, rfl⟩
      | ok c =>
        obtain ⟨ts, p1, p2, hi, -⟩ := (Function_edge_node_eq_ok R x hn c).1 h
        have := ((Function_edge_interpolation_eq_ok R hn ts p1 p2).1 hi).1
        omega
    · cases h : Jacobian_edge_node R x hn with
      | error e => exact ⟨e, rfl⟩
      | ok c =>
        obtain ⟨ts, p1, p2, hi, -⟩ := (Jacobian_edge_node_eq_ok R x hn c).1 h
        have := ((Jacobian_edge_interpolation_eq_ok R hn ts p1 p2).1 hi).1
        omega

theorem edge_node_count_not_checked_witness :
    (Function_edge_node longEdgeRegion demoX (⟨0, 50, 50⟩, longEdgeElem, 0) =
        .ok ([(⟨0, 2, 2⟩ : FVM_Node), ⟨0, 4, 4⟩].flatMap
            (fun c => (active_offsets longEdgeRegion).map (fun off =>
              (⟨50 + off, c.global_offset + off, 1 / 2⟩ : Transfer))),
          Function_constraint longEdgeRegion demoX ⟨0, 50, 50⟩ ⟨0, 2, 2⟩ ⟨0, 4, 4⟩) ∧
      Jacobian_edge_node longEdgeRegion demoX (⟨0, 50, 50⟩, longEdgeElem, 0) =
        .ok ([(⟨0, 2, 2⟩ : FVM_Node), ⟨0, 4, 4⟩].flatMap
            (fun c => (active_offsets longEdgeRegion).map (fun off =>
              (⟨50 + off, c.global_offset + off, 1 / 2⟩ : Transfer))),
          Jacobian_constraint longEdgeRegion demoX ⟨0, 50, 50⟩ ⟨0, 2, 2⟩ ⟨0, 4, 4⟩)) ∧
    ((∃ e, Function_edge_node longEdgeRegion demoX (⟨0, 50, 50⟩, shortEdgeElem, 0) = .error e) ∧
      (∃ e, Jacobian_edge_node longEdgeRegion demoX (⟨0, 50, 50⟩, shortEdgeElem, 0) =
        .error e)) :=
  ⟨(edge_node_count_not_checked longEdgeRegion demoX (⟨0, 50, 50⟩, longEdgeElem, 0)).1
      ⟨0, 2, 2⟩ ⟨0, 4, 4⟩ (by simp [longEdgeElem]) rfl rfl,
   (edge_node_count_not_checked longEdgeRegion demoX (⟨0, 50, 50⟩, shortEdgeElem, 0)).2
      (by simp [shortEdgeElem])⟩

/-- Claim C10 as stated fails.  On `longEdgeRegion` the only hanging node is owned and its
edge has 3 nodes, not 2; neither contribution aborts: the edge passes buffer the records
built from nodes 0 and 1 of the edge and both calls return. -/
theorem edge_node_count_not_checked_counterexample :
    longEdgeElem.edge_n_nodes 0 = 3 ∧
    Function_edge_buffers longEdgeRegion 0 demoX = .ok (demoEdgeTransfers, demoEdgeInserts) ∧
    Jacobian_edge_buffers longEdgeRegion 0 demoX = .ok (demoEdgeTransfers, demoEdgeRows) ∧
    (∃ r, EBM3_Function_Hanging_Node longEdgeRegion 0 demoX demoVec .ADD_VALUES = .ok r) ∧
    (∃ r, EBM3_Jacobian_Hanging_Node longEdgeRegion 0 demoX demoMat .ADD_VALUES = .ok r) := by
  have hF : Function_edge_buffers longEdgeRegion 0 demoX =
      .ok (demoEdgeTransfers, demoEdgeInserts) := by
    simp [Function_edge_buffers, hanging_node_loop, longEdgeRegion, Function_edge_node,
      Function_edge_interpolation, Function_edge_loop, longEdgeElem, Elem.build_edge,
      SideEdge.get_node, genius_assert_not_null, deref, corner_transfers, edge_points,
      Function_constraint, demoX, bind, Except.bind, demoEdgeTransfers, demoEdgeInserts]
    norm_num
  have hJ : Jacobian_edge_buffers longEdgeRegion 0 demoX =
      .ok (demoEdgeTransfers, demoEdgeRows) := by
    simp [Jacobian_edge_buffers, hanging_node_loop, longEdgeRegion, Jacobian_edge_node,
      Jacobian_edge_interpolation, Jacobian_edge_loop, longEdgeElem, Elem.build_edge,
      SideEdge.get_node, deref, corner_transfers, edge_points, Jacobian_constraint,
      ad_constraint_eq, demoX, bind, Except.bind, demoEdgeTransfers, demoEdgeRows]
    norm_num
  have hS : Function_side_buffers longEdgeRegion 0 demoX = .ok ([], []) := rfl
  have hSJ : Jacobian_side_buffers longEdgeRegion 0 demoX = .ok ([], []) := rfl
  have hflag : (!longEdgeRegion.has_2d_hanging_node && !longEdgeRegion.has_3d_hanging_node) =
      false := rfl
  refine ⟨rfl, hF, hJ, ?_, ?_⟩
  · simp [EBM3_Function_Hanging_Node, hflag, hS, hF, bind, Except.bind]
  · simp [EBM3_Jacobian_Hanging_Node, hflag, hSJ, hJ, bind, Except.bind]

/-- Claim C11, evaluated on owned hanging nodes with a corner that is not found in the
region.  The residual edge pass stops at its `genius_assert(edge_fvm_node!=NULL)`.  The
Jacobian edge pass and both side passes have no such check: they use the missing node and stop
at the dereference of NULL, without a diagnostic of the routine. -/
theorem missing_lookup_checked_in_residual_edge_pass_only :
    EBM3_Function_Hanging_Node gapEdgeRegion 0 demoX demoVec .ADD_VALUES =
      .error Fault.assertion ∧
    EBM3_Jacobian_Hanging_Node gapEdgeRegion 0 demoX demoMat .ADD_VALUES =
      .error Fault.null_dereference ∧
    EBM3_Function_Hanging_Node gapSideRegion 0 demoX demoVec .ADD_VALUES =
      .error Fault.null_dereference ∧
    EBM3_Jacobian_Hanging_Node gapSideRegion 0 demoX demoMat .ADD_VALUES =
      .error Fault.null_dereference := by
  refine ⟨?_, ?_, ?_, ?_⟩
  · simp [EBM3_Function_Hanging_Node, gapEdgeRegion, Function_side_buffers,
      Function_edge_buffers, hanging_node_loop, Function_edge_node,
      Function_edge_interpolation, Function_edge_loop, demoElem, Elem.build_edge,
      SideEdge.get_node, genius_assert_not_null, deref, bind, Except.bind]
  · simp [EBM3_Jacobian_Hanging_Node, gapEdgeRegion, Jacobian_side_buffers,
      Jacobian_edge_buffers, hanging_node_loop, Jacobian_edge_node,
      Jacobian_edge_interpolation, Jacobian_edge_loop, demoElem, Elem.build_edge,
      SideEdge.get_node, deref, bind, Except.bind, Jacobian_flush_nil]
  · simp [EBM3_Function_Hanging_Node, gapSideRegion, Function_side_buffers,
      hanging_node_loop, Function_side_node, side_interpolation, side_loop, demoElem,
      Elem.build_side, Side.get_node, deref, bind, Except.bind]
  · simp [EBM3_Jacobian_Hanging_Node, gapSideRegion, Jacobian_side_buffers,
      hanging_node_loop, Jacobian_side_node, side_interpolation, side_loop, demoElem,
      Elem.build_side, Side.get_node, deref, bind, Except.bind]

/-- Claim C12.  Strict side-effect order within a pass.  With hanging nodes present and both
loops completed, the Jacobian contribution returns the matrix obtained by the side pass
followed by the edge pass, and each pass applies to its matrix `J` first all row-to-row
transfers, then the zeroing of all its constraint rows, then the insertion of its buffered
rows one after the other: `insert (zero (transfer J))`.  The residual contribution likewise
returns the vector obtained by the two passes, each of which applies all its transfers and
then its overwrites.  As a consequence a row that is not a constraint row of the pass receives
`alpha` times the content that the source row of each of its transfer records held before
the pass, that is before the source row was zeroed or overwritten. -/
theorem strict_side_effect_order (R : MetalSimulationRegion) (processor_id : ℕ)
    (x : ℕ → PetscScalar) (f : Vec) (jac : Mat) (add_value_flag : InsertMode)
    (hhang : R.has_2d_hanging_node = true ∨ R.has_3d_hanging_node = true) :
    (∀ s e, Jacobian_side_buffers R processor_id x = .ok s →
      Jacobian_edge_buffers R processor_id x = .ok e →
      EBM3_Jacobian_Hanging_Node R processor_id x jac add_value_flag =
        .ok (Jacobian_flush (Jacobian_flush jac s) e, InsertMode.INSERT_VALUES)) ∧
    (∀ (J : Mat) (b : List Transfer × List JacobianRow),
      Jacobian_flush J b =
        b.2.foldl (fun j r => MatSetValues j r.row r.cols r.ad_value.getADValue)
          (MatZeroRows (MatAddRowToRow J b.1) (b.2.map (·.row)))) ∧
    (∀ s e, Function_side_buffers R processor_id x = .ok s →
      Function_edge_buffers R processor_id x = .ok e →
      EBM3_Function_Hanging_Node R processor_id x f add_value_flag =
        .ok (Function_flush (Function_flush f s) e, InsertMode.INSERT_VALUES)) ∧
    (∀ (F : Vec) (b : List Transfer × List (ℕ × PetscScalar)),
      Function_flush F b =
        if b.2.length ≠ 0 then VecSetValues (VecAddRowToRow F b.1) b.2
        else VecAddRowToRow F b.1) ∧
    (∀ (J : Mat) (b : List Transfer × List JacobianRow) (r : ℕ), r ∉ b.2.map (·.row) →
      ∀ c, Jacobian_flush J b r c =
        J r c + ((b.1.filter (fun t => t.dst_row = r)).map
          (fun t => t.alpha * J t.src_row c)).sum) ∧
    (∀ (F : Vec) (b : List Transfer × List (ℕ × PetscScalar)) (r : ℕ),
      r ∉ b.2.map Prod.fst →
      Function_flush F b r =
        F r + ((b.1.filter (fun t => t.dst_row = r)).map (fun t => t.alpha * F t.src_row)).sum) := by
  refine ⟨?_, fun _ _ => rfl, ?_, fun _ _ => rfl, ?_, ?_⟩
  · intro s e hs he
    exact (EBM3_Jacobian_eq_ok R processor_id x jac add_value_flag hhang _).2
      ⟨s, e, hs, he, rfl⟩
  · intro s e hs he
    exact (EBM3_Function_eq_ok R processor_id x f add_value_flag hhang _).2
      ⟨s, e, hs, he, rfl⟩
  · intro J b r hr c
    rw [Jacobian_flush_of_not_mem J b r hr]
    rfl
  · intro F b r hr
    rw [Function_flush_of_not_mem F b r hr]
    rfl

theorem strict_side_effect_order_witness :
    EBM3_Jacobian_Hanging_Node demoRegion 0 demoX demoMat .ADD_VALUES =
      .ok (Jacobian_flush (Jacobian_flush demoMat (demoSideTransfers, demoSideRows))
        (demoEdgeTransfers, demoEdgeRows), InsertMode.INSERT_VALUES) ∧
    EBM3_Function_Hanging_Node demoRegion 0 demoX demoVec .ADD_VALUES =
      .ok (Function_flush (Function_flush demoVec (demoSideTransfers, demoSideInserts))
        (demoEdgeTransfers, demoEdgeInserts), InsertMode.INSERT_VALUES) ∧
    (∀ c, Jacobian_flush demoMat (demoSideTransfers, demoSideRows) 2 c =
      demoMat 2 c + ((demoSideTransfers.filter (fun t => t.dst_row = 2)).map
        (fun t => t.alpha * demoMat t.src_row c)).sum) ∧
    Function_flush demoVec (demoSideTransfers, demoSideInserts) 2 =
      demoVec 2 + ((demoSideTransfers.filter (fun t => t.dst_row = 2)).map
        (fun t => t.alpha * demoVec t.src_row)).sum :=
  ⟨(strict_side_effect_order demoRegion 0 demoX demoVec demoMat .ADD_VALUES (Or.inl rfl)).1
      _ _ demo_Jacobian_side_buffers demo_Jacobian_edge_buffers,
   (strict_side_effect_order demoRegion 0 demoX demoVec demoMat .ADD_VALUES
      (Or.inl rfl)).2.2.1 _ _ demo_Function_side_buffers demo_Function_edge_buffers,
   (strict_side_effect_order demoRegion 0 demoX demoVec demoMat .ADD_VALUES
      (Or.inl rfl)).2.2.2.2.1 demoMat (demoSideTransfers, demoSideRows) 2
      (by simp [demoSideRows]),
   (strict_side_effect_order demoRegion 0 demoX demoVec demoMat .ADD_VALUES
      (Or.inl rfl)).2.2.2.2.2 demoVec (demoSideTransfers, demoSideInserts) 2
      (by simp [demoSideInserts])⟩

/-- Claim C13.  The Jacobian constraint row is fully replaced.  After a pass of the Jacobian
contribution whose loop completed, for every hanging node `H` of the pass owned by the local
processor, with supports `P1`, `P2`, the three nodes having pairwise distinct global offsets
and the constraint rows of the owned hanging nodes of the pass being pairwise distinct, and
for every active variable, row `(H, variable)` of the matrix holds 1 in column `H`, -1/2 in
column `P1`, -1/2 in column `P2` (columns of the same variable) and 0 in every other column,
whatever matrix the pass started from. -/
theorem jacobian_row_replaced (R : MetalSimulationRegion) (processor_id : ℕ)
    (x : ℕ → PetscScalar) (jac : Mat) :
    (∀ b, Jacobian_side_buffers R processor_id x = .ok b →
      (owned_rows R processor_id R.hanging_node_on_elem_side).Nodup →
      ∀ hn ∈ R.hanging_node_on_elem_side, hn.1.processor_id = processor_id →
      ∀ ts P1 P2, side_interpolation R x hn = .ok (ts, P1, P2) →
      hn.1.global_offset ≠ P1.global_offset → hn.1.global_offset ≠ P2.global_offset →
      P1.global_offset ≠ P2.global_offset →
      ∀ off ∈ active_offsets R, ∀ c,
        Jacobian_flush jac b (hn.1.global_offset + off) c =
          if c = hn.1.global_offset + off then 1
          else if c = P1.global_offset + off then -1 / 2
          else if c = P2.global_offset + off then -1 / 2 else 0) ∧
    (∀ b, Jacobian_edge_buffers R processor_id x = .ok b →
      (owned_rows R processor_id R.hanging_node_on_elem_edge).Nodup →
      ∀ hn ∈ R.hanging_node_on_elem_edge, hn.1.processor_id = processor_id →
      ∀ ts P1 P2, Jacobian_edge_interpolation R hn = .ok (ts, P1, P2) →
      hn.1.global_offset ≠ P1.global_offset → hn.1.global_offset ≠ P2.global_offset →
      P1.global_offset ≠ P2.global_offset →
      ∀ off ∈ active_offsets R, ∀ c,
        Jacobian_flush jac b (hn.1.global_offset + off) c =
          if c = hn.1.global_offset + off then 1
          else if c = P1.global_offset + off then -1 / 2
          else if c = P2.global_offset + off then -1 / 2 else 0) := by
  constructor
  · intro b hb hnd hn hmem ho ts P1 P2 hi h01 h02 h12 off hoff c
    exact Jacobian_loop_entry R processor_id x (Jacobian_side_node R x)
      (side_interpolation R x) (Jacobian_side_node_eq_ok R x) _ b hb hnd hn hmem ho ts P1 P2 hi
      h01 h02 h12 off hoff jac c
  · intro b hb hnd hn hmem ho ts P1 P2 hi h01 h02 h12 off hoff c
    exact Jacobian_loop_entry R processor_id x (Jacobian_edge_node R x)
      (Jacobian_edge_interpolation R) (Jacobian_edge_node_eq_ok R x) _ b hb hnd hn hmem ho ts
      P1 P2 hi h01 h02 h12 off hoff jac c

theorem jacobian_row_replaced_witness :
    (∀ c, Jacobian_flush demoMat (demoSideTransfers, demoSideRows) (20 + 1) c =
      if c = 20 + 1 then 1 else if c = 2 + 1 then -1 / 2 else if c = 6 + 1 then -1 / 2
      else 0) ∧
    (∀ c, Jacobian_flush demoMat (demoEdgeTransfers, demoEdgeRows) (50 + 0) c =
      if c = 50 + 0 then 1 else if c = 2 + 0 then -1 / 2 else if c = 4 + 0 then -1 / 2
      else 0) :=
  ⟨(jacobian_row_replaced demoRegion 0 demoX demoMat).1 _ demo_Jacobian_side_buffers
      (by rw [demo_owned_rows_side]; decide) demoQuadNode demo_quad_mem rfl _ _ _
      demo_side_interpolation (by decide) (by decide) (by decide) 1
      (by rw [demo_active_offsets]; decide),
   (jacobian_row_replaced demoRegion 0 demoX demoMat).2 _ demo_Jacobian_edge_buffers
      (by rw [demo_owned_rows_edge]; decide) demoEdgeNode demo_edge_mem rfl _ _ _
      demo_Jacobian_edge_interpolation (by decide) (by decide) (by decide) 0
      (by rw [demo_active_offsets]; decide)⟩

/-- Claim C14.  The residual overwrite has set semantics.  After a pass of the residual
contribution whose loop completed, for every hanging node `H` of the pass owned by the local
processor, with supports `P1`, `P2`, the constraint rows of the owned hanging nodes of the
pass being pairwise distinct, and for every active variable, the residual entry at row
`(H, variable)` equals `V(H) - 0.5*(V(P1)+V(P2))` exactly, whatever vector the pass started
from: the value is written over the old entry, not added to it. -/
theorem residual_overwrite_is_set (R : MetalSimulationRegion) (processor_id : ℕ)
    (x : ℕ → PetscScalar) (f : Vec) :
    (∀ b, Function_side_buffers R processor_id x = .ok b →
      (owned_rows R processor_id R.hanging_node_on_elem_side).Nodup →
      ∀ hn ∈ R.hanging_node_on_elem_side, hn.1.processor_id = processor_id →
      ∀ ts P1 P2, side_interpolation R x hn = .ok (ts, P1, P2) →
      ∀ off ∈ active_offsets R,
        Function_flush f b (hn.1.global_offset + off) =
          x (hn.1.local_offset + off) -
            1 / 2 * (x (P1.local_offset + off) + x (P2.local_offset + off))) ∧
    (∀ b, Function_edge_buffers R processor_id x = .ok b →
      (owned_rows R processor_id R.hanging_node_on_elem_edge).Nodup →
      ∀ hn ∈ R.hanging_node_on_elem_edge, hn.1.processor_id = processor_id →
      ∀ ts P1 P2, Function_edge_interpolation R hn = .ok (ts, P1, P2) →
      ∀ off ∈ active_offsets R,
        Function_flush f b (hn.1.global_offset + off) =
          x (hn.1.local_offset + off) -
            1 / 2 * (x (P1.local_offset + off) + x (P2.local_offset + off))) := by
  constructor
  · intro b hb hnd hn hmem ho ts P1 P2 hi off hoff
    exact Function_loop_entry R processor_id x (Function_side_node R x)
      (side_interpolation R x) (Function_side_node_eq_ok R x) _ b hb hnd hn hmem ho ts P1 P2 hi
      off hoff f
  · intro b hb hnd hn hmem ho ts P1 P2 hi off hoff
    exact Function_loop_entry R processor_id x (Function_edge_node R x)
      (Function_edge_interpolation R) (Function_edge_node_eq_ok R x) _ b hb hnd hn hmem ho ts
      P1 P2 hi off hoff f

theorem residual_overwrite_is_set_witness :
    Function_flush demoVec (demoSideTransfers, demoSideInserts) (20 + 1) =
      demoX (20 + 1) - 1 / 2 * (demoX (2 + 1) + demoX (6 + 1)) ∧
    Function_flush demoVec (demoEdgeTransfers, demoEdgeInserts) (50 + 0) =
      demoX (50 + 0) - 1 / 2 * (demoX (2 + 0) + demoX (4 + 0)) :=
  ⟨(residual_overwrite_is_set demoRegion 0 demoX demoVec).1 _ demo_Function_side_buffers
      (by rw [demo_owned_rows_side]; decide) demoQuadNode demo_quad_mem rfl _ _ _
      demo_side_interpolation 1 (by rw [demo_active_offsets]; decide),
   (residual_overwrite_is_set demoRegion 0 demoX demoVec).2 _ demo_Function_edge_buffers
      (by rw [demo_owned_rows_edge]; decide) demoEdgeNode demo_edge_mem rfl _ _ _
      demo_Function_edge_interpolation 0 (by rw [demo_active_offsets]; decide)⟩

/-- Claim C15.  Constraint satisfaction.  When the loop of a residual pass completes, for
every hanging node `H` of the pass owned by the local processor, with supports `P1`, `P2`,
and every active variable, the overwrite pair emitted for row `(H, variable)` carries the
value `V(H) - 0.5*(V(P1)+V(P2))`, which is zero if and only if `V(H) = 0.5*(V(P1)+V(P2))`
over the rationals; when the constraint rows of the owned hanging nodes of the pass are
pairwise distinct, the residual entry of that row after the pass is zero under the same
condition. -/
theorem constraint_satisfaction (R : MetalSimulationRegion) (processor_id : ℕ)
    (x : ℕ → PetscScalar) (f : Vec) :
    (∀ b, Function_side_buffers R processor_id x = .ok b →
      ∀ hn ∈ R.hanging_node_on_elem_side, hn.1.processor_id = processor_id →
      ∀ ts P1 P2, side_interpolation R x hn = .ok (ts, P1, P2) →
      ∀ off ∈ active_offsets R,
        (∃ v, (hn.1.global_offset + off, v) ∈ b.2 ∧
          (v = 0 ↔ x (hn.1.local_offset + off) =
            1 / 2 * (x (P1.local_offset + off) + x (P2.local_offset + off)))) ∧
        ((owned_rows R processor_id R.hanging_node_on_elem_side).Nodup →
          (Function_flush f b (hn.1.global_offset + off) = 0 ↔
            x (hn.1.local_offset + off) =
              1 / 2 * (x (P1.local_offset + off) + x (P2.local_offset + off))))) ∧
    (∀ b, Function_edge_buffers R processor_id x = .ok b →
      ∀ hn ∈ R.hanging_node_on_elem_edge, hn.1.processor_id = processor_id →
      ∀ ts P1 P2, Function_edge_interpolation R hn = .ok (ts, P1, P2) →
      ∀ off ∈ active_offsets R,
        (∃ v, (hn.1.global_offset + off, v) ∈ b.2 ∧
          (v = 0 ↔ x (hn.1.local_offset + off) =
            1 / 2 * (x (P1.local_offset + off) + x (P2.local_offset + off)))) ∧
        ((owned_rows R processor_id R.hanging_node_on_elem_edge).Nodup →
          (Function_flush f b (hn.1.global_offset + off) = 0 ↔
            x (hn.1.local_offset + off) =
              1 / 2 * (x (P1.local_offset + off) + x (P2.local_offset + off))))) := by
  constructor
  · intro b hb hn hmem ho ts P1 P2 hi off hoff
    refine ⟨⟨_, Function_loop_pair R processor_id x (Function_side_node R x)
      (side_interpolation R x) (Function_side_node_eq_ok R x) _ b hb hn hmem ho ts P1 P2 hi
      off hoff, sub_eq_zero⟩, fun hnd => ?_⟩
    rw [Function_loop_entry R processor_id x (Function_side_node R x)
      (side_interpolation R x) (Function_side_node_eq_ok R x) _ b hb hnd hn hmem ho ts P1 P2 hi
      off hoff f]
    exact sub_eq_zero
  · intro b hb hn hmem ho ts P1 P2 hi off hoff
    refine ⟨⟨_, Function_loop_pair R processor_id x (Function_edge_node R x)
      (Function_edge_interpolation R) (Function_edge_node_eq_ok R x) _ b hb hn hmem ho ts P1
      P2 hi off hoff, sub_eq_zero⟩, fun hnd => ?_⟩
    rw [Function_loop_entry R processor_id x (Function_edge_node R x)
      (Function_edge_interpolation R) (Function_edge_node_eq_ok R x) _ b hb hnd hn hmem ho ts
      P1 P2 hi off hoff f]
    exact sub_eq_zero

theorem constraint_satisfaction_witness :
    ((∃ v, (20 + 0, v) ∈ demoSideInserts ∧
        (v = 0 ↔ demoX (20 + 0) = 1 / 2 * (demoX (2 + 0) + demoX (6 + 0)))) ∧
      (Function_flush demoVec (demoSideTransfers, demoSideInserts) (20 + 0) = 0 ↔
        demoX (20 + 0) = 1 / 2 * (demoX (2 + 0) + demoX (6 + 0)))) ∧
    ((∃ v, (50 + 1, v) ∈ demoEdgeInserts ∧
        (v = 0 ↔ demoX (50 + 1) = 1 / 2 * (demoX (2 + 1) + demoX (4 + 1)))) ∧
      (Function_flush demoVec (demoEdgeTransfers, demoEdgeInserts) (50 + 1) = 0 ↔
        demoX (50 + 1) = 1 / 2 * (demoX (2 + 1) + demoX (4 + 1)))) :=
  ⟨⟨((constraint_satisfaction demoRegion 0 demoX demoVec).1 _ demo_Function_side_buffers
        demoQuadNode demo_quad_mem rfl _ _ _ demo_side_interpolation 0
        (by rw [demo_active_offsets]; decide)).1,
      ((constraint_satisfaction demoRegion 0 demoX demoVec).1 _ demo_Function_side_buffers
        demoQuadNode demo_quad_mem rfl _ _ _ demo_side_interpolation 0
        (by rw [demo_active_offsets]; decide)).2 (by rw [demo_owned_rows_side]; decide)⟩,
    ⟨((constraint_satisfaction demoRegion 0 demoX demoVec).2 _ demo_Function_edge_buffers
        demoEdgeNode demo_edge_mem rfl _ _ _ demo_Function_edge_interpolation 1
        (by rw [demo_active_offsets]; decide)).1,
      ((constraint_satisfaction demoRegion 0 demoX demoVec).2 _ demo_Function_edge_buffers
        demoEdgeNode demo_edge_mem rfl _ _ _ demo_Function_edge_interpolation 1
        (by rw [demo_active_offsets]; decide)).2 (by rw [demo_owned_rows_edge]; decide)⟩⟩

/-- Claim C16.  Damping dispatch.  Every invocation of `sens_line_search_post_check` calls
exactly one damping function, on the arguments as they were passed in, chosen by the
configured policy: `DampingPotential` gives `potential_damping`, `DampingBankRose` gives
`bank_rose_damping`, `DampingNo` gives `positive_density_damping`; it never calls two damping
functions and never none. -/
theorem damping_dispatch (S : HallSolver) (a : LineSearchArgs) :
    ((S.sens_line_search_post_check .DampingPotential a).1.filter (fun c => c.1.is_damping) =
        [(Callee.potential_damping, a)] ∧
      (S.sens_line_search_post_check .DampingBankRose a).1.filter (fun c => c.1.is_damping) =
        [(Callee.bank_rose_damping, a)] ∧
      (S.sens_line_search_post_check .DampingNo a).1.filter (fun c => c.1.is_damping) =
        [(Callee.positive_density_damping, a)]) ∧
    (∀ Damping : DampingScheme,
      ((S.sens_line_search_post_check Damping a).1.filter
        (fun c => c.1.is_damping)).length = 1) := by
  refine ⟨⟨rfl, rfl, rfl⟩, fun Damping => ?_⟩
  cases Damping <;> rfl

/-- Claim C17.  Damping fallback.  For every value of the damping policy other than
`DampingPotential`, `DampingBankRose` and `DampingNo`, `sens_line_search_post_check` returns:
it applies `positive_density_damping` to the arguments and then the post-check of the base
class, and no other damping function. -/
theorem damping_fallback (S : HallSolver) (a : LineSearchArgs) (Damping : DampingScheme)
    (hP : Damping ≠ .DampingPotential) (hB : Damping ≠ .DampingBankRose)
    (hN : Damping ≠ .DampingNo) :
    S.sens_line_search_post_check Damping a =
      ([(Callee.positive_density_damping, a),
          (Callee.FVM_NonlinearSolver_sens_line_search_post_check,
            S.positive_density_damping a)],
        S.FVM_NonlinearSolver_sens_line_search_post_check (S.positive_density_damping a)) := by
  cases Damping with
  | DampingNo => exact absurd rfl hN
  | DampingPotential => exact absurd rfl hP
  | DampingBankRose => exact absurd rfl hB
  | other v => rfl

theorem damping_fallback_witness :
    demoSolver.sens_line_search_post_check (.other 7) demoArgs =
      ([(Callee.positive_density_damping, demoArgs),
          (Callee.FVM_NonlinearSolver_sens_line_search_post_check,
            demoSolver.positive_density_damping demoArgs)],
        demoSolver.FVM_NonlinearSolver_sens_line_search_post_check
          (demoSolver.positive_density_damping demoArgs)) :=
  damping_fallback demoSolver demoArgs (.other 7) (by decide) (by decide) (by decide)

/-- Claim C18.  The generic post-check always runs.  For every value of the damping policy,
`sens_line_search_post_check` makes exactly two calls: first one damping function on the
arguments as passed in, then `FVM_NonlinearSolver::sens_line_search_post_check`, exactly once,
on the same arguments `x, y, w, changed_y, changed_w` as the damping function left them; what
the base class leaves is what the caller gets back. -/
theorem base_post_check_always_runs (S : HallSolver) (a : LineSearchArgs)
    (Damping : DampingScheme) :
    ∃ d : Callee, d.is_damping = true ∧
      S.sens_line_search_post_check Damping a =
        ([(d, a), (Callee.FVM_NonlinearSolver_sens_line_search_post_check, S.call d a)],
          S.FVM_NonlinearSolver_sens_line_search_post_check (S.call d a)) ∧
      (S.sens_line_search_post_check Damping a).1.filter
          (fun c => !c.1.is_damping) =
        [(Callee.FVM_NonlinearSolver_sens_line_search_post_check, S.call d a)] := by
  cases Damping with
  | DampingNo => exact ⟨.positive_density_damping, rfl, rfl, rfl⟩
  | DampingPotential => exact ⟨.potential_damping, rfl, rfl, rfl⟩
  | DampingBankRose => exact ⟨.bank_rose_damping, rfl, rfl, rfl⟩
  | other v => exact ⟨.positive_density_damping, rfl, rfl, rfl⟩

/-- Claim C19.  Damping safety, on the body of `positive_density_damping` as the spec states
it.  For a density unknown `i` whose value after the step `x[i] + y[i]` would be negative,
the adjusted step gives a value after the step that is not negative (it is 0), the iterate
is untouched and `changed_y` is raised; after the damping no density unknown has a negative
value after the step, and a step component that is not cut is unchanged. -/
theorem damping_safety (n : ℕ) (is_density : ℕ → Bool) (a : LineSearchArgs) :
    (∀ i, i < n → is_density i = true → a.x i + a.y i < 0 →
      0 ≤ (positive_density_damping n is_density a).x i +
          (positive_density_damping n is_density a).y i ∧
      (positive_density_damping n is_density a).x i +
          (positive_density_damping n is_density a).y i = 0 ∧
      (positive_density_damping n is_density a).changed_y = true) ∧
    (∀ i, i < n → is_density i = true →
      0 ≤ (positive_density_damping n is_density a).x i +
          (positive_density_damping n is_density a).y i) ∧
    (positive_density_damping n is_density a).x = a.x ∧
    (∀ i, ¬ (i < n ∧ is_density i = true ∧ a.x i + a.y i < 0) →
      (positive_density_damping n is_density a).y i = a.y i) := by
  refine ⟨?_, ?_, rfl, ?_⟩
  · intro i hi hd hneg
    have hy : (positive_density_damping n is_density a).y i = -a.x i := by
      simp [positive_density_damping, hi, hd, hneg]
    have hx : (positive_density_damping n is_density a).x i = a.x i := rfl
    refine ⟨by rw [hx, hy]; simp, by rw [hx, hy]; simp, ?_⟩
    simp only [positive_density_damping, Bool.or_eq_true, List.any_eq_true, List.mem_range,
      Bool.and_eq_true, decide_eq_true_eq]
    exact Or.inr ⟨i, hi, hd, hneg⟩
  · intro i hi hd
    have hx : (positive_density_damping n is_density a).x i = a.x i := rfl
    by_cases hneg : a.x i + a.y i < 0
    · have hy : (positive_density_damping n is_density a).y i = -a.x i := by
        simp [positive_density_damping, hi, hd, hneg]
      rw [hx, hy]; simp
    · have hy : (positive_density_damping n is_density a).y i = a.y i := by
        simp [positive_density_damping, hi, hd, hneg]
      rw [hx, hy]
      exact not_lt.1 hneg
  · intro i hnot
    simp only [positive_density_damping]
    rw [if_neg hnot]

theorem damping_safety_witness :
    (0 ≤ (positive_density_damping 3 (fun i => decide (i = 1)) demoArgs).x 1 +
        (positive_density_damping 3 (fun i => decide (i = 1)) demoArgs).y 1 ∧
    (positive_density_damping 3 (fun i => decide (i = 1)) demoArgs).x 1 +
        (positive_density_damping 3 (fun i => decide (i = 1)) demoArgs).y 1 = 0 ∧
    (positive_density_damping 3 (fun i => decide (i = 1)) demoArgs).changed_y = true) ∧
    0 ≤ (positive_density_damping 3 (fun i => decide (i = 1)) demoArgs).x 1 +
        (positive_density_damping 3 (fun i => decide (i = 1)) demoArgs).y 1 ∧
    (positive_density_damping 3 (fun i => decide (i = 1)) demoArgs).y 0 = demoArgs.y 0 :=
  ⟨(damping_safety 3 (fun i => decide (i = 1)) demoArgs).1 1 (by decide) (by decide)
      (by simp [demoArgs]; norm_num),
   (damping_safety 3 (fun i => decide (i = 1)) demoArgs).2.1 1 (by decide) (by decide),
   (damping_safety 3 (fun i => decide (i = 1)) demoArgs).2.2.2 0 (by simp)⟩
/-- Claim C20.  Reported insert mode.  Whenever the region reports hanging nodes (2D or 3D)
and the call returns, the residual and the Jacobian contribution return with
`add_value_flag` set to `INSERT_VALUES`, whatever value the caller passed in.  This includes
the case where no hanging node is owned by the local processor: both calls then return the
vector and the matrix unchanged, with the flag set to `INSERT_VALUES`.  Both calls do return
when the owned entries of the two maps are well formed. -/
theorem insert_mode_reported (R : MetalSimulationRegion) (processor_id : ℕ)
    (x : ℕ → PetscScalar) (f : Vec) (jac : Mat) (add_value_flag : InsertMode)
    (hhang : R.has_2d_hanging_node = true ∨ R.has_3d_hanging_node = true) :
    (∀ r, EBM3_Function_Hanging_Node R processor_id x f add_value_flag = .ok r →
      r.2 = InsertMode.INSERT_VALUES) ∧
    (∀ r, EBM3_Jacobian_Hanging_Node R processor_id x jac add_value_flag = .ok r →
      r.2 = InsertMode.INSERT_VALUES) ∧
    ((∀ hn ∈ R.hanging_node_on_elem_side, hn.1.processor_id ≠ processor_id) →
      (∀ hn ∈ R.hanging_node_on_elem_edge, hn.1.processor_id ≠ processor_id) →
      EBM3_Function_Hanging_Node R processor_id x f add_value_flag =
        .ok (f, InsertMode.INSERT_VALUES) ∧
      EBM3_Jacobian_Hanging_Node R processor_id x jac add_value_flag =
        .ok (jac, InsertMode.INSERT_VALUES)) ∧
    (side_entries_regular R processor_id → edge_entries_regular R processor_id →
      (∃ f', EBM3_Function_Hanging_Node R processor_id x f add_value_flag =
        .ok (f', InsertMode.INSERT_VALUES)) ∧
      (∃ jac', EBM3_Jacobian_Hanging_Node R processor_id x jac add_value_flag =
        .ok (jac', InsertMode.INSERT_VALUES))) := by
  refine ⟨?_, ?_, ?_, ?_⟩
  · intro r hr
    obtain ⟨s, e, -, -, rfl⟩ :=
      (EBM3_Function_eq_ok R processor_id x f add_value_flag hhang r).1 hr
    rfl
  · intro r hr
    obtain ⟨s, e, -, -, rfl⟩ :=
      (EBM3_Jacobian_eq_ok R processor_id x jac add_value_flag hhang r).1 hr
    rfl
  · intro hs he
    constructor
    · refine (EBM3_Function_eq_ok R processor_id x f add_value_flag hhang _).2
        ⟨([], []), ([], []), hanging_node_loop_none_owned _ _ _ hs,
          hanging_node_loop_none_owned _ _ _ he, ?_⟩
      rw [Function_flush_nil, Function_flush_nil]
    · refine (EBM3_Jacobian_eq_ok R processor_id x jac add_value_flag hhang _).2
        ⟨([], []), ([], []), hanging_node_loop_none_owned _ _ _ hs,
          hanging_node_loop_none_owned _ _ _ he, ?_⟩
      rw [Jacobian_flush_nil, Jacobian_flush_nil]
  · intro hs he
    obtain ⟨⟨sF, hsF⟩, ⟨sJ, hsJ⟩⟩ := side_buffers_complete R processor_id x hs
    obtain ⟨⟨eF, heF⟩, ⟨eJ, heJ⟩⟩ := edge_buffers_complete R processor_id x he
    exact ⟨⟨_, (EBM3_Function_eq_ok R processor_id x f add_value_flag hhang _).2
        ⟨sF, eF, hsF, heF, rfl⟩⟩,
      ⟨_, (EBM3_Jacobian_eq_ok R processor_id x jac add_value_flag hhang _).2
        ⟨sJ, eJ, hsJ, heJ, rfl⟩⟩⟩

theorem insert_mode_reported_witness :
    (EBM3_Function_Hanging_Node foreignRegion 0 demoX demoVec .ADD_VALUES =
        .ok (demoVec, InsertMode.INSERT_VALUES) ∧
      EBM3_Jacobian_Hanging_Node foreignRegion 0 demoX demoMat .ADD_VALUES =
        .ok (demoMat, InsertMode.INSERT_VALUES)) ∧
    ((∃ f', EBM3_Function_Hanging_Node demoRegion 0 demoX demoVec .NOT_SET_VALUES =
        .ok (f', InsertMode.INSERT_VALUES)) ∧
      (∃ jac', EBM3_Jacobian_Hanging_Node demoRegion 0 demoX demoMat .NOT_SET_VALUES =
        .ok (jac', InsertMode.INSERT_VALUES))) ∧
    (Function_flush (Function_flush demoVec (demoSideTransfers, demoSideInserts))
        (demoEdgeTransfers, demoEdgeInserts), InsertMode.INSERT_VALUES).2 =
      InsertMode.INSERT_VALUES :=
  ⟨(insert_mode_reported foreignRegion 0 demoX demoVec demoMat .ADD_VALUES
      (Or.inl rfl)).2.2.1 (by simp [foreignRegion]) (by simp [foreignRegion]),
   (insert_mode_reported demoRegion 0 demoX demoVec demoMat .NOT_SET_VALUES
      (Or.inl rfl)).2.2.2 demo_side_entries_regular demo_edge_entries_regular,
   (insert_mode_reported demoRegion 0 demoX demoVec demoMat .NOT_SET_VALUES
      (Or.inl rfl)).1 _
      ((EBM3_Function_eq_ok demoRegion 0 demoX demoVec .NOT_SET_VALUES (Or.inl rfl) _).2
        ⟨_, _, demo_Function_side_buffers, demo_Function_edge_buffers, rfl⟩)⟩

/-- Claim C21, amended.  The two passes commute when they touch disjoint rows.  Let both loops
of a contribution complete, and let no constraint row of a side-center hanging node owned by
the local processor be a constraint row of an owned edge-center hanging node, no transfer
record of the side pass have an owned edge-center constraint row as destination, and no
transfer record of the edge pass have an owned side-center constraint row as destination.
Then, for every solution array, starting residual vector and starting Jacobian matrix, the side
pass followed by the edge pass yields the same vector (resp. matrix) as the edge pass followed
by the side pass, and the routine of the source returns what the routine with its two blocks
exchanged returns.  The loops complete when the owned entries of both maps are well formed. -/
theorem passes_commute_on_disjoint_rows (R : MetalSimulationRegion) (processor_id : ℕ)
    (x : ℕ → PetscScalar) (f : Vec) (jac : Mat) (add_value_flag : InsertMode) :
    (∀ s e, Function_side_buffers R processor_id x = .ok s →
      Function_edge_buffers R processor_id x = .ok e →
      (∀ r ∈ owned_rows R processor_id R.hanging_node_on_elem_side,
        r ∉ owned_rows R processor_id R.hanging_node_on_elem_edge) →
      (∀ t ∈ s.1, t.dst_row ∉ owned_rows R processor_id R.hanging_node_on_elem_edge) →
      (∀ t ∈ e.1, t.dst_row ∉ owned_rows R processor_id R.hanging_node_on_elem_side) →
      Function_flush (Function_flush f s) e = Function_flush (Function_flush f e) s ∧
      EBM3_Function_Hanging_Node R processor_id x f add_value_flag =
        EBM3_Function_Hanging_Node_edge_first R processor_id x f add_value_flag) ∧
    (∀ s e, Jacobian_side_buffers R processor_id x = .ok s →
      Jacobian_edge_buffers R processor_id x = .ok e →
      (∀ r ∈ owned_rows R processor_id R.hanging_node_on_elem_side,
        r ∉ owned_rows R processor_id R.hanging_node_on_elem_edge) →
      (∀ t ∈ s.1, t.dst_row ∉ owned_rows R processor_id R.hanging_node_on_elem_edge) →
      (∀ t ∈ e.1, t.dst_row ∉ owned_rows R processor_id R.hanging_node_on_elem_side) →
      Jacobian_flush (Jacobian_flush jac s) e = Jacobian_flush (Jacobian_flush jac e) s ∧
      EBM3_Jacobian_Hanging_Node R processor_id x jac add_value_flag =
        EBM3_Jacobian_Hanging_Node_edge_first R processor_id x jac add_value_flag) ∧
    (side_entries_regular R processor_id → edge_entries_regular R processor_id →
      (∃ s e, Function_side_buffers R processor_id x = .ok s ∧
        Function_edge_buffers R processor_id x = .ok e) ∧
      (∃ s e, Jacobian_side_buffers R processor_id x = .ok s ∧
        Jacobian_edge_buffers R processor_id x = .ok e)) := by
  refine ⟨?_, ?_, ?_⟩
  · intro s e hs he hK hDs hDe
    obtain ⟨hks, hss⟩ := loop_rows R processor_id (Function_side_node R x) Prod.fst
      (Function_side_node_rows R x) _ s hs
    obtain ⟨hke, hse⟩ := loop_rows R processor_id (Function_edge_node R x) Prod.fst
      (Function_edge_node_rows R x) _ e he
    have key : Function_flush (Function_flush f s) e = Function_flush (Function_flush f e) s :=
      Function_flush_comm s e (by rw [hks]; exact hss) (by rw [hke]; exact hse)
        (by rw [hks, hke]; exact hK) (by rw [hke]; exact hDs) (by rw [hks]; exact hDe) f
    refine ⟨key, ?_⟩
    by_cases hflag : (!R.has_2d_hanging_node && !R.has_3d_hanging_node) = true
    · simp [EBM3_Function_Hanging_Node, EBM3_Function_Hanging_Node_edge_first, hflag]
    · have hhang : R.has_2d_hanging_node = true ∨ R.has_3d_hanging_node = true := by
        cases h2 : R.has_2d_hanging_node <;> cases h3 : R.has_3d_hanging_node <;>
          simp [h2, h3] at hflag ⊢
      rw [(EBM3_Function_eq_ok R processor_id x f add_value_flag hhang _).2 ⟨s, e, hs, he, rfl⟩,
        (EBM3_Function_edge_first_eq_ok R processor_id x f add_value_flag hhang _).2
          ⟨s, e, hs, he, rfl⟩, key]
  · intro s e hs he hK hDs hDe
    obtain ⟨hks, hss⟩ := loop_rows R processor_id (Jacobian_side_node R x) (·.row)
      (Jacobian_side_node_rows R x) _ s hs
    obtain ⟨hke, hse⟩ := loop_rows R processor_id (Jacobian_edge_node R x) (·.row)
      (Jacobian_edge_node_rows R x) _ e he
    have key : Jacobian_flush (Jacobian_flush jac s) e =
        Jacobian_flush (Jacobian_flush jac e) s :=
      Jacobian_flush_comm s e (by rw [hks]; exact hss) (by rw [hke]; exact hse)
        (by rw [hks, hke]; exact hK) (by rw [hke]; exact hDs) (by rw [hks]; exact hDe) jac
    refine ⟨key, ?_⟩
    by_cases hflag : (!R.has_2d_hanging_node && !R.has_3d_hanging_node) = true
    · simp [EBM3_Jacobian_Hanging_Node, EBM3_Jacobian_Hanging_Node_edge_first, hflag]
    · have hhang : R.has_2d_hanging_node = true ∨ R.has_3d_hanging_node = true := by
        cases h2 : R.has_2d_hanging_node <;> cases h3 : R.has_3d_hanging_node <;>
          simp [h2, h3] at hflag ⊢
      rw [(EBM3_Jacobian_eq_ok R processor_id x jac add_value_flag hhang _).2
          ⟨s, e, hs, he, rfl⟩,
        (EBM3_Jacobian_edge_first_eq_ok R processor_id x jac add_value_flag hhang _).2
          ⟨s, e, hs, he, rfl⟩, key]
  · intro hsr her
    obtain ⟨⟨s, hs⟩, ⟨sj, hsj⟩⟩ := side_buffers_complete R processor_id x hsr
    obtain ⟨⟨e, he⟩, ⟨ej, hej⟩⟩ := edge_buffers_complete R processor_id x her
    exact ⟨⟨s, e, hs, he⟩, ⟨sj, ej, hsj, hej⟩⟩

theorem passes_commute_on_disjoint_rows_witness :
    (Function_flush (Function_flush demoVec (demoSideTransfers, demoSideInserts))
        (demoEdgeTransfers, demoEdgeInserts) =
      Function_flush (Function_flush demoVec (demoEdgeTransfers, demoEdgeInserts))
        (demoSideTransfers, demoSideInserts) ∧
      EBM3_Function_Hanging_Node demoRegion 0 demoX demoVec .ADD_VALUES =
        EBM3_Function_Hanging_Node_edge_first demoRegion 0 demoX demoVec .ADD_VALUES) ∧
    (Jacobian_flush (Jacobian_flush demoMat (demoSideTransfers, demoSideRows))
        (demoEdgeTransfers, demoEdgeRows) =
      Jacobian_flush (Jacobian_flush demoMat (demoEdgeTransfers, demoEdgeRows))
        (demoSideTransfers, demoSideRows) ∧
      EBM3_Jacobian_Hanging_Node demoRegion 0 demoX demoMat .ADD_VALUES =
        EBM3_Jacobian_Hanging_Node_edge_first demoRegion 0 demoX demoMat .ADD_VALUES) :=
  ⟨(passes_commute_on_disjoint_rows demoRegion 0 demoX demoVec demoMat .ADD_VALUES).1 _ _
      demo_Function_side_buffers demo_Function_edge_buffers
      (by rw [demo_owned_rows_side, demo_owned_rows_edge]; decide)
      (by rw [demo_owned_rows_edge]; simp [demoSideTransfers])
      (by rw [demo_owned_rows_side]; simp [demoEdgeTransfers]),
   (passes_commute_on_disjoint_rows demoRegion 0 demoX demoVec demoMat .ADD_VALUES).2.1 _ _
      demo_Jacobian_side_buffers demo_Jacobian_edge_buffers
      (by rw [demo_owned_rows_side, demo_owned_rows_edge]; decide)
      (by rw [demo_owned_rows_edge]; simp [demoSideTransfers])
      (by rw [demo_owned_rows_side]; simp [demoEdgeTransfers])⟩

/-- Claim C21 as stated, evaluated on a region in which the side-center hanging node (rows of
offset 20) is an endpoint of the edge of the edge-center hanging node (offset 50).  With the
side pass first, as in the source, the edge pass adds half of row 50 to the constraint row 20
that the side pass has just written: entry 20 of the residual ends at `57/2` and entry
`(20, 0)` of the Jacobian at `1/2`.  With the edge pass first the side pass writes row 20
last and both entries end at 0. -/
theorem passes_commute_counterexample :
    (∃ v w : Vec,
      EBM3_Function_Hanging_Node chainRegion 0 demoX demoVec .ADD_VALUES =
        .ok (v, InsertMode.INSERT_VALUES) ∧
      EBM3_Function_Hanging_Node_edge_first chainRegion 0 demoX demoVec .ADD_VALUES =
        .ok (w, InsertMode.INSERT_VALUES) ∧
      v 20 = 57 / 2 ∧ w 20 = 0) ∧
    (∃ v w : Mat,
      EBM3_Jacobian_Hanging_Node chainRegion 0 demoX demoMat .ADD_VALUES =
        .ok (v, InsertMode.INSERT_VALUES) ∧
      EBM3_Jacobian_Hanging_Node_edge_first chainRegion 0 demoX demoMat .ADD_VALUES =
        .ok (w, InsertMode.INSERT_VALUES) ∧
      v 20 0 = 1 / 2 ∧ w 20 0 = 0) := by
  have hS : Function_side_buffers chainRegion 0 demoX =
      .ok ([⟨20, 10, 1/2⟩, ⟨20, 12, 1/2⟩], [(20, 0)]) := by
    simp [Function_side_buffers, hanging_node_loop, chainRegion, Function_side_node,
      side_interpolation, side_loop, demoElem, Elem.build_side, Side.get_node, deref,
      corner_transfers, interpolation_points, Function_constraint, demoX, bind, Except.bind]
  have hE : Function_edge_buffers chainRegion 0 demoX =
      .ok ([⟨50, 20, 1/2⟩, ⟨50, 4, 1/2⟩], [(50, -5)]) := by
    simp [Function_edge_buffers, hanging_node_loop, chainRegion, Function_edge_node,
      Function_edge_interpolation, Function_edge_loop, demoElem, Elem.build_edge,
      SideEdge.get_node, genius_assert_not_null, deref, corner_transfers, edge_points,
      Function_constraint, demoX, bind, Except.bind]
    norm_num
  have hSJ : Jacobian_side_buffers chainRegion 0 demoX =
      .ok ([⟨20, 10, 1/2⟩, ⟨20, 12, 1/2⟩], [⟨20, [20, 10, 12], ⟨0, [1, -1/2, -1/2]⟩⟩]) := by
    simp [Jacobian_side_buffers, hanging_node_loop, chainRegion, Jacobian_side_node,
      side_interpolation, side_loop, demoElem, Elem.build_side, Side.get_node, deref,
      corner_transfers, interpolation_points, Jacobian_constraint, ad_constraint_eq, demoX,
      bind, Except.bind]
  have hEJ : Jacobian_edge_buffers chainRegion 0 demoX =
      .ok ([⟨50, 20, 1/2⟩, ⟨50, 4, 1/2⟩], [⟨50, [50, 20, 4], ⟨-5, [1, -1/2, -1/2]⟩⟩]) := by
    simp [Jacobian_edge_buffers, hanging_node_loop, chainRegion, Jacobian_edge_node,
      Jacobian_edge_interpolation, Jacobian_edge_loop, demoElem, Elem.build_edge,
      SideEdge.get_node, deref, corner_transfers, edge_points, Jacobian_constraint,
      ad_constraint_eq, demoX, bind, Except.bind]
    norm_num
  have hhang : chainRegion.has_2d_hanging_node = true ∨
      chainRegion.has_3d_hanging_node = true := Or.inl rfl
  refine ⟨⟨_, _, (EBM3_Function_eq_ok chainRegion 0 demoX demoVec .ADD_VALUES hhang _).2
      ⟨_, _, hS, hE, rfl⟩,
    (EBM3_Function_edge_first_eq_ok chainRegion 0 demoX demoVec .ADD_VALUES hhang _).2
      ⟨_, _, hS, hE, rfl⟩, ?_, ?_⟩,
    ⟨_, _, (EBM3_Jacobian_eq_ok chainRegion 0 demoX demoMat .ADD_VALUES hhang _).2
      ⟨_, _, hSJ, hEJ, rfl⟩,
    (EBM3_Jacobian_edge_first_eq_ok chainRegion 0 demoX demoMat .ADD_VALUES hhang _).2
      ⟨_, _, hSJ, hEJ, rfl⟩, ?_, ?_⟩⟩
  · simp [Function_flush, VecAddRowToRow, VecSetValues, demoVec, Function.update]
    norm_num
  · simp [Function_flush, VecAddRowToRow, VecSetValues, demoVec, Function.update]
  · simp [Jacobian_flush, MatAddRowToRow, MatZeroRows, MatSetValues, demoMat, Function.update,
      AutoDScalar.getADValue]
  · simp [Jacobian_flush, MatAddRowToRow, MatZeroRows, MatSetValues, demoMat, Function.update,
      AutoDScalar.getADValue]

/-- Claim C22.  No flux is lost on the residual vector.  Let a residual pass (side-center or
edge-center) run on a map in which the local processor owns a single hanging node `H`, let the
destination rows of its transfer records be pairwise distinct and none of them be a constraint
row of `H`.  Then the pass adds to the row of every corner node and active variable exactly
`1/n` times the content that the row of `H` and that variable held before the call, `n` being
the number of corner nodes (2 or 4 on a side, 2 on an edge), and over the `n` corner rows of an
active variable these increases sum to exactly the content that the row of `H` held before the
call. -/
theorem no_flux_lost (R : MetalSimulationRegion) (processor_id : ℕ) (x : ℕ → PetscScalar)
    (f : Vec) :
    (∀ hn b, R.hanging_node_on_elem_side.filter (owned processor_id) = [hn] →
      Function_side_buffers R processor_id x = .ok b →
      (b.1.map (·.dst_row)).Nodup →
      (∀ t ∈ b.1, t.dst_row ∉ constraint_rows R hn.1) →
      ∃ corners : List FVM_Node,
        (corners.length = 2 ∨ corners.length = 4) ∧
        corners.map some = (List.range (hn.2.1.side_n_nodes hn.2.2)).map
          (fun i => R.region_fvm_node (hn.2.1.side_corner hn.2.2 i)) ∧
        (∀ c ∈ corners, ∀ off ∈ active_offsets R,
          Function_flush f b (c.global_offset + off) =
            f (c.global_offset + off) +
              1 / (corners.length : ℚ) * f (hn.1.global_offset + off)) ∧
        (∀ off ∈ active_offsets R,
          (corners.map (fun c =>
            Function_flush f b (c.global_offset + off) - f (c.global_offset + off))).sum =
            f (hn.1.global_offset + off))) ∧
    (∀ hn b, R.hanging_node_on_elem_edge.filter (owned processor_id) = [hn] →
      Function_edge_buffers R processor_id x = .ok b →
      (b.1.map (·.dst_row)).Nodup →
      (∀ t ∈ b.1, t.dst_row ∉ constraint_rows R hn.1) →
      ∃ corners : List FVM_Node,
        corners.length = 2 ∧
        corners.map some = (List.range 2).map
          (fun i => R.region_fvm_node (hn.2.1.edge_corner hn.2.2 i)) ∧
        (∀ c ∈ corners, ∀ off ∈ active_offsets R,
          Function_flush f b (c.global_offset + off) =
            f (c.global_offset + off) +
              1 / (corners.length : ℚ) * f (hn.1.global_offset + off)) ∧
        (∀ off ∈ active_offsets R,
          (corners.map (fun c =>
            Function_flush f b (c.global_offset + off) - f (c.global_offset + off))).sum =
            f (hn.1.global_offset + off))) := by
  constructor
  · intro hn b hL hb hnd hdst
    have hc := single_owned_buffers (Function_side_node R x) processor_id _ hn b hL hb
    obtain ⟨ts, p1, p2, hi, rfl⟩ := (Function_side_node_eq_ok R x hn b).1 hc
    obtain ⟨ps, hps, hts, hp⟩ := (side_interpolation_eq_ok R x hn ts p1 p2).1 hi
    have hlen : ps.length = hn.2.1.side_n_nodes hn.2.2 := by
      rw [length_of_map_some _ _ _ hps, List.length_range']
    have h24 := interpolation_points_length x ps _ hp
    subst hts
    obtain ⟨h1, h2⟩ := single_node_share R hn.1 (hn.2.1.side_n_nodes hn.2.2) ps
      (Function_constraint R x hn.1 p1 p2) f hlen (by omega)
      (Function_constraint_keys R x hn.1 p1 p2) hnd hdst
    refine ⟨ps, h24, by rw [hps, List.range_eq_range'], ?_, h2⟩
    rw [hlen]
    exact h1
  · intro hn b hL hb hnd hdst
    have hc := single_owned_buffers (Function_edge_node R x) processor_id _ hn b hL hb
    obtain ⟨ts, p1, p2, hi, rfl⟩ := (Function_edge_node_eq_ok R x hn b).1 hc
    obtain ⟨-, hq1, hq2, hts⟩ := (Function_edge_interpolation_eq_ok R hn ts p1 p2).1 hi
    have hts' : ts = [p1, p2].flatMap (fun p => corner_transfers R hn.1 p 2) := by
      simp [hts]
    subst hts'
    obtain ⟨h1, h2⟩ := single_node_share R hn.1 2 [p1, p2]
      (Function_constraint R x hn.1 p1 p2) f rfl (by decide)
      (Function_constraint_keys R x hn.1 p1 p2) hnd hdst
    refine ⟨[p1, p2], rfl, by simp [List.range, List.range.loop, hq1, hq2], h1, h2⟩

theorem no_flux_lost_witness :
    (∃ corners : List FVM_Node,
      (corners.length = 2 ∨ corners.length = 4) ∧
      corners.map some = (List.range (demoQuadNode.2.1.side_n_nodes demoQuadNode.2.2)).map
        (fun i => soloRegion.region_fvm_node (demoQuadNode.2.1.side_corner demoQuadNode.2.2 i)) ∧
      (∀ c ∈ corners, ∀ off ∈ active_offsets soloRegion,
        Function_flush demoVec (demoQuadTransfers, [(20, 0), (21, -4)])
            (c.global_offset + off) =
          demoVec (c.global_offset + off) +
            1 / (corners.length : ℚ) * demoVec (demoQuadNode.1.global_offset + off)) ∧
      (∀ off ∈ active_offsets soloRegion,
        (corners.map (fun c =>
          Function_flush demoVec (demoQuadTransfers, [(20, 0), (21, -4)])
            (c.global_offset + off) - demoVec (c.global_offset + off))).sum =
          demoVec (demoQuadNode.1.global_offset + off))) ∧
    (∃ corners : List FVM_Node,
      corners.length = 2 ∧
      corners.map some = (List.range 2).map
        (fun i => soloRegion.region_fvm_node (demoEdgeNode.2.1.edge_corner demoEdgeNode.2.2 i)) ∧
      (∀ c ∈ corners, ∀ off ∈ active_offsets soloRegion,
        Function_flush demoVec (demoEdgeTransfers, demoEdgeInserts) (c.global_offset + off) =
          demoVec (c.global_offset + off) +
            1 / (corners.length : ℚ) * demoVec (demoEdgeNode.1.global_offset + off)) ∧
      (∀ off ∈ active_offsets soloRegion,
        (corners.map (fun c =>
          Function_flush demoVec (demoEdgeTransfers, demoEdgeInserts)
            (c.global_offset + off) - demoVec (c.global_offset + off))).sum =
          demoVec (demoEdgeNode.1.global_offset + off))) :=
  ⟨(no_flux_lost soloRegion 0 demoX demoVec).1 demoQuadNode _ rfl solo_Function_side_buffers
      (by simp [demoQuadTransfers])
      (by simp [demoQuadTransfers, demoQuadNode, constraint_rows, active_offsets, soloRegion]),
   (no_flux_lost soloRegion 0 demoX demoVec).2 demoEdgeNode _ rfl solo_Function_edge_buffers
      (by simp [demoEdgeTransfers])
      (by simp [demoEdgeTransfers, demoEdgeNode, constraint_rows, active_offsets, soloRegion])⟩

/-- Claim C23.  Edge-center hanging nodes and 2-node sides need no selection.  For an
edge-center hanging node `H`, the body of the residual and of the Jacobian edge loop completes
exactly when the edge has nodes 0 and 1 and both are found in the region; the supports are then
`P1` = node 0 and `P2` = node 1 of the edge, in that order, and the transfer records are, for
node 0 and then for node 1, one record of weight 1/2 per active variable: two records per
active variable.  For a side-center hanging node on a 2-node side the same holds with nodes 0
and 1 of the side.  In both cases the supports and the transfer records are the same for every
solution array. -/
theorem edge_and_two_node_side_need_no_selection (R : MetalSimulationRegion)
    (x : ℕ → PetscScalar) (hn : HangingNode) :
    (∀ c, Function_edge_node R x hn = .ok c ↔
      ∃ P1 P2, 2 ≤ hn.2.1.edge_n_nodes hn.2.2 ∧
        R.region_fvm_node (hn.2.1.edge_corner hn.2.2 0) = some P1 ∧
        R.region_fvm_node (hn.2.1.edge_corner hn.2.2 1) = some P2 ∧
        c = ([P1, P2].flatMap (fun q => (active_offsets R).map (fun off =>
              (⟨hn.1.global_offset + off, q.global_offset + off, 1 / 2⟩ : Transfer))),
            Function_constraint R x hn.1 P1 P2)) ∧
    (∀ c, Jacobian_edge_node R x hn = .ok c ↔
      ∃ P1 P2, 2 ≤ hn.2.1.edge_n_nodes hn.2.2 ∧
        R.region_fvm_node (hn.2.1.edge_corner hn.2.2 0) = some P1 ∧
        R.region_fvm_node (hn.2.1.edge_corner hn.2.2 1) = some P2 ∧
        c = ([P1, P2].flatMap (fun q => (active_offsets R).map (fun off =>
              (⟨hn.1.global_offset + off, q.global_offset + off, 1 / 2⟩ : Transfer))),
            Jacobian_constraint R x hn.1 P1 P2)) ∧
    (hn.2.1.side_n_nodes hn.2.2 = 2 →
      (∀ c, Function_side_node R x hn = .ok c ↔
        ∃ P1 P2, R.region_fvm_node (hn.2.1.side_corner hn.2.2 0) = some P1 ∧
          R.region_fvm_node (hn.2.1.side_corner hn.2.2 1) = some P2 ∧
          c = ([P1, P2].flatMap (fun q => (active_offsets R).map (fun off =>
                (⟨hn.1.global_offset + off, q.global_offset + off, 1 / 2⟩ : Transfer))),
              Function_constraint R x hn.1 P1 P2)) ∧
      (∀ c, Jacobian_side_node R x hn = .ok c ↔
        ∃ P1 P2, R.region_fvm_node (hn.2.1.side_corner hn.2.2 0) = some P1 ∧
          R.region_fvm_node (hn.2.1.side_corner hn.2.2 1) = some P2 ∧
          c = ([P1, P2].flatMap (fun q => (active_offsets R).map (fun off =>
                (⟨hn.1.global_offset + off, q.global_offset + off, 1 / 2⟩ : Transfer))),
              Jacobian_constraint R x hn.1 P1 P2)) ∧
      ∀ x' : ℕ → PetscScalar, side_interpolation R x' hn = side_interpolation R x hn) := by
  have hT : ∀ P1 P2 : FVM_Node,
      corner_transfers R hn.1 P1 2 ++ corner_transfers R hn.1 P2 2 =
        [P1, P2].flatMap (fun q => (active_offsets R).map (fun off =>
          (⟨hn.1.global_offset + off, q.global_offset + off, 1 / 2⟩ : Transfer))) := by
    intro P1 P2
    simp [corner_transfers_eq]
  have hside : hn.2.1.side_n_nodes hn.2.2 = 2 → ∀ (y : ℕ → PetscScalar) ts P1 P2,
      side_interpolation R y hn = .ok (ts, P1, P2) ↔
        R.region_fvm_node (hn.2.1.side_corner hn.2.2 0) = some P1 ∧
        R.region_fvm_node (hn.2.1.side_corner hn.2.2 1) = some P2 ∧
        ts = [P1, P2].flatMap (fun q => (active_offsets R).map (fun off =>
          (⟨hn.1.global_offset + off, q.global_offset + off, 1 / 2⟩ : Transfer))) := by
    intro h2 y ts P1 P2
    rw [side_interpolation_eq_ok, h2]
    constructor
    · rintro ⟨ps, hps, hts, hp⟩
      have hlen : ps.length = 2 := by
        rw [length_of_map_some _ _ _ hps, List.length_range']
      match ps, hlen with
      | [s0, s1], _ =>
        simp only [interpolation_points, Except.ok.injEq, Prod.mk.injEq] at hp
        obtain ⟨rfl, rfl⟩ := hp
        simp only [List.map_cons, List.map_nil, List.range', List.cons.injEq, and_true] at hps
        refine ⟨hps.1.symm, hps.2.symm, ?_⟩
        rw [hts, ← hT]
        simp
    · rintro ⟨h0, h1, rfl⟩
      refine ⟨[P1, P2], by simp [List.range', h0, h1], ?_, rfl⟩
      rw [← hT]
      simp
  refine ⟨?_, ?_, ?_⟩
  · intro c
    rw [Function_edge_node_eq_ok]
    constructor
    · rintro ⟨ts, p1, p2, h, rfl⟩
      obtain ⟨h2, h0, h1, rfl⟩ := (Function_edge_interpolation_eq_ok R hn ts p1 p2).1 h
      exact ⟨p1, p2, h2, h0, h1, by rw [hT]⟩
    · rintro ⟨p1, p2, h2, h0, h1, rfl⟩
      exact ⟨_, p1, p2, (Function_edge_interpolation_eq_ok R hn _ p1 p2).2
        ⟨h2, h0, h1, (hT p1 p2).symm⟩, rfl⟩
  · intro c
    rw [Jacobian_edge_node_eq_ok]
    constructor
    · rintro ⟨ts, p1, p2, h, rfl⟩
      obtain ⟨h2, h0, h1, rfl⟩ := (Jacobian_edge_interpolation_eq_ok R hn ts p1 p2).1 h
      exact ⟨p1, p2, h2, h0, h1, by rw [hT]⟩
    · rintro ⟨p1, p2, h2, h0, h1, rfl⟩
      exact ⟨_, p1, p2, (Jacobian_edge_interpolation_eq_ok R hn _ p1 p2).2
        ⟨h2, h0, h1, (hT p1 p2).symm⟩, rfl⟩
  · intro h2
    refine ⟨?_, ?_, ?_⟩
    · intro c
      rw [Function_side_node_eq_ok]
      constructor
      · rintro ⟨ts, p1, p2, h, rfl⟩
        obtain ⟨h0, h1, rfl⟩ := (hside h2 x ts p1 p2).1 h
        exact ⟨p1, p2, h0, h1, rfl⟩
      · rintro ⟨p1, p2, h0, h1, rfl⟩
        exact ⟨_, p1, p2, (hside h2 x _ p1 p2).2 ⟨h0, h1, rfl⟩, rfl⟩
    · intro c
      rw [Jacobian_side_node_eq_ok]
      constructor
      · rintro ⟨ts, p1, p2, h, rfl⟩
        obtain ⟨h0, h1, rfl⟩ := (hside h2 x ts p1 p2).1 h
        exact ⟨p1, p2, h0, h1, rfl⟩
      · rintro ⟨p1, p2, h0, h1, rfl⟩
        exact ⟨_, p1, p2, (hside h2 x _ p1 p2).2 ⟨h0, h1, rfl⟩, rfl⟩
    · intro x'
      exact side_interpolation_two_nodes R hn h2 x x'

theorem edge_and_two_node_side_need_no_selection_witness :
    (∃ P1 P2, 2 ≤ demoEdgeNode.2.1.edge_n_nodes demoEdgeNode.2.2 ∧
      demoRegion.region_fvm_node (demoEdgeNode.2.1.edge_corner demoEdgeNode.2.2 0) = some P1 ∧
      demoRegion.region_fvm_node (demoEdgeNode.2.1.edge_corner demoEdgeNode.2.2 1) = some P2 ∧
      (demoEdgeTransfers, demoEdgeInserts) =
        ([P1, P2].flatMap (fun q => (active_offsets demoRegion).map (fun off =>
            (⟨demoEdgeNode.1.global_offset + off, q.global_offset + off, 1 / 2⟩ : Transfer))),
          Function_constraint demoRegion demoX demoEdgeNode.1 P1 P2)) ∧
    Function_side_node demoRegion demoX (⟨0, 40, 40⟩, demoElem, 1) =
      .ok (([⟨0, 10, 10⟩, ⟨0, 12, 12⟩] : List FVM_Node).flatMap (fun q => (active_offsets demoRegion).map
          (fun off => (⟨40 + off, q.global_offset + off, 1 / 2⟩ : Transfer))),
        Function_constraint demoRegion demoX ⟨0, 40, 40⟩ ⟨0, 10, 10⟩ ⟨0, 12, 12⟩) ∧
    side_interpolation demoRegion demoX2 (⟨0, 40, 40⟩, demoElem, 1) =
      side_interpolation demoRegion demoX (⟨0, 40, 40⟩, demoElem, 1) :=
  ⟨((edge_and_two_node_side_need_no_selection demoRegion demoX demoEdgeNode).1 _).1
      (single_owned_buffers (Function_edge_node demoRegion demoX) 0
        demoRegion.hanging_node_on_elem_edge demoEdgeNode _ rfl demo_Function_edge_buffers),
   (((edge_and_two_node_side_need_no_selection demoRegion demoX
      (⟨0, 40, 40⟩, demoElem, 1)).2.2 rfl).1 _).2 ⟨_, _, rfl, rfl, rfl⟩,
   ((edge_and_two_node_side_need_no_selection demoRegion demoX
      (⟨0, 40, 40⟩, demoElem, 1)).2.2 rfl).2.2 demoX2⟩

/-- Claim C24.  One constraint per carried variable.  Whenever the body of one of the four
loops completes for a hanging node `H` with `n` corner nodes (`n` the node count of the side,
resp. 2 on an edge) and supports `P1`, `P2`, its transfer records are, corner after corner,
one record per carried variable with source row, destination row both at the offset of that
variable, and its overwrite pairs (resp. Jacobian rows) are one per carried variable, with
row, values and columns all at the offset of that variable.  With the lattice temperature
disabled the only carried variable is the potential and there are exactly `n` transfer records
and 1 overwrite pair (resp. row); with it enabled the carried variables are the potential and
the temperature and there are exactly `2n` transfer records and 2 overwrite pairs (resp.
rows).  The bodies complete on a side of 2 or 4 corner nodes that are all found, resp. on an
edge whose nodes 0 and 1 are found. -/
theorem one_constraint_per_carried_variable (R : MetalSimulationRegion)
    (x : ℕ → PetscScalar) (hn : HangingNode) :
    (∀ c, Function_side_node R x hn = .ok c →
      ∃ corners P1 P2, corners.length = hn.2.1.side_n_nodes hn.2.2 ∧
        c = (variable_transfers R hn.1 corners (hn.2.1.side_n_nodes hn.2.2),
          variable_inserts R x hn.1 P1 P2) ∧
        (R.enable_Tl = false →
          c.1.length = hn.2.1.side_n_nodes hn.2.2 ∧ c.2.length = 1) ∧
        (R.enable_Tl = true →
          c.1.length = 2 * hn.2.1.side_n_nodes hn.2.2 ∧ c.2.length = 2)) ∧
    (∀ c, Jacobian_side_node R x hn = .ok c →
      ∃ corners P1 P2, corners.length = hn.2.1.side_n_nodes hn.2.2 ∧
        c = (variable_transfers R hn.1 corners (hn.2.1.side_n_nodes hn.2.2),
          variable_rows R x hn.1 P1 P2) ∧
        (R.enable_Tl = false →
          c.1.length = hn.2.1.side_n_nodes hn.2.2 ∧ c.2.length = 1) ∧
        (R.enable_Tl = true →
          c.1.length = 2 * hn.2.1.side_n_nodes hn.2.2 ∧ c.2.length = 2)) ∧
    (∀ c, Function_edge_node R x hn = .ok c →
      ∃ P1 P2,
        c = (variable_transfers R hn.1 [P1, P2] 2, variable_inserts R x hn.1 P1 P2) ∧
        (R.enable_Tl = false → c.1.length = 2 ∧ c.2.length = 1) ∧
        (R.enable_Tl = true → c.1.length = 2 * 2 ∧ c.2.length = 2)) ∧
    (∀ c, Jacobian_edge_node R x hn = .ok c →
      ∃ P1 P2,
        c = (variable_transfers R hn.1 [P1, P2] 2, variable_rows R x hn.1 P1 P2) ∧
        (R.enable_Tl = false → c.1.length = 2 ∧ c.2.length = 1) ∧
        (R.enable_Tl = true → c.1.length = 2 * 2 ∧ c.2.length = 2)) ∧
    ((R.enable_Tl = false → carried_variables R = [.POTENTIAL]) ∧
      (R.enable_Tl = true → carried_variables R = [.POTENTIAL, .TEMPERATURE])) ∧
    ((hn.2.1.side_n_nodes hn.2.2 = 2 ∨ hn.2.1.side_n_nodes hn.2.2 = 4) →
      (∀ i < hn.2.1.side_n_nodes hn.2.2,
        (R.region_fvm_node (hn.2.1.side_corner hn.2.2 i)).isSome = true) →
      (∃ c, Function_side_node R x hn = .ok c) ∧ (∃ c, Jacobian_side_node R x hn = .ok c)) ∧
    (2 ≤ hn.2.1.edge_n_nodes hn.2.2 →
      (∀ i < 2, (R.region_fvm_node (hn.2.1.edge_corner hn.2.2 i)).isSome = true) →
      (∃ c, Function_edge_node R x hn = .ok c) ∧ (∃ c, Jacobian_edge_node R x hn = .ok c)) := by
  refine ⟨?_, ?_, ?_, ?_, ?_, ?_, ?_⟩
  · intro c hc
    obtain ⟨ts, p1, p2, h, rfl⟩ := (Function_side_node_eq_ok R x hn c).1 hc
    obtain ⟨ps, hps, hts, -⟩ := (side_interpolation_eq_ok R x hn ts p1 p2).1 h
    have hlen : ps.length = hn.2.1.side_n_nodes hn.2.2 := by
      rw [length_of_map_some _ _ _ hps, List.length_range']
    have hcount := variable_record_counts R x hn.1 p1 p2 ps _ hlen
    rw [variable_transfers_eq] at hts
    subst hts
    rw [variable_inserts_eq]
    exact ⟨ps, p1, p2, hlen, rfl, fun h => ⟨(hcount.1 h).2.1, (hcount.1 h).2.2.1⟩,
      fun h => ⟨(hcount.2 h).2.1, (hcount.2 h).2.2.1⟩⟩
  · intro c hc
    obtain ⟨ts, p1, p2, h, rfl⟩ := (Jacobian_side_node_eq_ok R x hn c).1 hc
    obtain ⟨ps, hps, hts, -⟩ := (side_interpolation_eq_ok R x hn ts p1 p2).1 h
    have hlen : ps.length = hn.2.1.side_n_nodes hn.2.2 := by
      rw [length_of_map_some _ _ _ hps, List.length_range']
    have hcount := variable_record_counts R x hn.1 p1 p2 ps _ hlen
    rw [variable_transfers_eq] at hts
    subst hts
    rw [variable_rows_eq]
    exact ⟨ps, p1, p2, hlen, rfl, fun h => ⟨(hcount.1 h).2.1, (hcount.1 h).2.2.2⟩,
      fun h => ⟨(hcount.2 h).2.1, (hcount.2 h).2.2.2⟩⟩
  · intro c hc
    obtain ⟨ts, p1, p2, h, rfl⟩ := (Function_edge_node_eq_ok R x hn c).1 hc
    obtain ⟨-, -, -, hts⟩ := (Function_edge_interpolation_eq_ok R hn ts p1 p2).1 h
    have hts' : ts = variable_transfers R hn.1 [p1, p2] 2 := by
      rw [← variable_transfers_eq, hts]; simp
    have hcount := variable_record_counts R x hn.1 p1 p2 [p1, p2] 2 rfl
    subst hts'
    rw [variable_inserts_eq]
    exact ⟨p1, p2, rfl, fun h => ⟨(hcount.1 h).2.1, (hcount.1 h).2.2.1⟩,
      fun h => ⟨(hcount.2 h).2.1, (hcount.2 h).2.2.1⟩⟩
  · intro c hc
    obtain ⟨ts, p1, p2, h, rfl⟩ := (Jacobian_edge_node_eq_ok R x hn c).1 hc
    obtain ⟨-, -, -, hts⟩ := (Jacobian_edge_interpolation_eq_ok R hn ts p1 p2).1 h
    have hts' : ts = variable_transfers R hn.1 [p1, p2] 2 := by
      rw [← variable_transfers_eq, hts]; simp
    have hcount := variable_record_counts R x hn.1 p1 p2 [p1, p2] 2 rfl
    subst hts'
    rw [variable_rows_eq]
    exact ⟨p1, p2, rfl, fun h => ⟨(hcount.1 h).2.1, (hcount.1 h).2.2.2⟩,
      fun h => ⟨(hcount.2 h).2.1, (hcount.2 h).2.2.2⟩⟩
  · exact ⟨fun h => by simp [carried_variables, h], fun h => by simp [carried_variables, h]⟩
  · intro h24 hfound
    exact (side_node_found R x hn hfound).1 h24
  · intro h2 hfound
    exact edge_node_found R x hn ⟨h2, hfound⟩

theorem one_constraint_per_carried_variable_witness :
    (∃ corners P1 P2, corners.length = demoQuadNode.2.1.side_n_nodes demoQuadNode.2.2 ∧
      (demoQuadTransfers, [(20, 0), (21, -4)]) =
        (variable_transfers demoRegion demoQuadNode.1 corners
            (demoQuadNode.2.1.side_n_nodes demoQuadNode.2.2),
          variable_inserts demoRegion demoX demoQuadNode.1 P1 P2) ∧
      (demoRegion.enable_Tl = false →
        (demoQuadTransfers, [((20 : ℕ), (0 : ℚ)), (21, -4)]).1.length =
          demoQuadNode.2.1.side_n_nodes demoQuadNode.2.2 ∧
        (demoQuadTransfers, [((20 : ℕ), (0 : ℚ)), (21, -4)]).2.length = 1) ∧
      (demoRegion.enable_Tl = true →
        (demoQuadTransfers, [((20 : ℕ), (0 : ℚ)), (21, -4)]).1.length =
          2 * demoQuadNode.2.1.side_n_nodes demoQuadNode.2.2 ∧
        (demoQuadTransfers, [((20 : ℕ), (0 : ℚ)), (21, -4)]).2.length = 2)) ∧
    (∃ corners P1 P2, corners.length = demoQuadNode.2.1.side_n_nodes demoQuadNode.2.2 ∧
      (([⟨21, 3, 1/4⟩, ⟨21, 5, 1/4⟩, ⟨21, 7, 1/4⟩, ⟨21, 9, 1/4⟩] : List Transfer),
          [((21 : ℕ), (-5 : ℚ))]) =
        (variable_transfers offsetRegion demoQuadNode.1 corners
            (demoQuadNode.2.1.side_n_nodes demoQuadNode.2.2),
          variable_inserts offsetRegion offsetX demoQuadNode.1 P1 P2) ∧
      (offsetRegion.enable_Tl = false →
        (([⟨21, 3, 1/4⟩, ⟨21, 5, 1/4⟩, ⟨21, 7, 1/4⟩, ⟨21, 9, 1/4⟩] : List Transfer),
            [((21 : ℕ), (-5 : ℚ))]).1.length =
          demoQuadNode.2.1.side_n_nodes demoQuadNode.2.2 ∧
        (([⟨21, 3, 1/4⟩, ⟨21, 5, 1/4⟩, ⟨21, 7, 1/4⟩, ⟨21, 9, 1/4⟩] : List Transfer),
            [((21 : ℕ), (-5 : ℚ))]).2.length = 1) ∧
      (offsetRegion.enable_Tl = true →
        (([⟨21, 3, 1/4⟩, ⟨21, 5, 1/4⟩, ⟨21, 7, 1/4⟩, ⟨21, 9, 1/4⟩] : List Transfer),
            [((21 : ℕ), (-5 : ℚ))]).1.length =
          2 * demoQuadNode.2.1.side_n_nodes demoQuadNode.2.2 ∧
        (([⟨21, 3, 1/4⟩, ⟨21, 5, 1/4⟩, ⟨21, 7, 1/4⟩, ⟨21, 9, 1/4⟩] : List Transfer),
            [((21 : ℕ), (-5 : ℚ))]).2.length = 2)) ∧
    ((∃ c, Function_edge_node demoRegion demoX demoEdgeNode = .ok c) ∧
      (∃ c, Jacobian_edge_node demoRegion demoX demoEdgeNode = .ok c)) :=
  ⟨(one_constraint_per_carried_variable demoRegion demoX demoQuadNode).1 _
      demo_Function_side_node,
   (one_constraint_per_carried_variable offsetRegion offsetX demoQuadNode).1 _
      offset_Function_side_node,
   (one_constraint_per_carried_variable demoRegion demoX demoEdgeNode).2.2.2.2.2.2
      (by decide) (by decide)⟩

/-- Claim C25.  The Jacobian pass agrees with the residual pass.  For the same solution array,
hanging-node maps, local processor and region: the loop of a Jacobian pass (side-center or
edge-center) completes exactly when the loop of the corresponding residual pass does; the two
then hold the same sequence of transfer records, and the Jacobian rows, read as pairs of row
and value part of the dual number, are the overwrite pairs of the residual pass, in the same
order.  For every hanging node the two contributions form their constraints with the same
supports `P1`, `P2`. -/
theorem jacobian_agrees_with_residual (R : MetalSimulationRegion) (processor_id : ℕ)
    (x : ℕ → PetscScalar) :
    (∀ bF, Function_side_buffers R processor_id x = .ok bF →
      ∃ bJ, Jacobian_side_buffers R processor_id x = .ok bJ ∧ bJ.1 = bF.1 ∧
        bJ.2.map JacobianRow.residual_pair = bF.2) ∧
    (∀ bJ, Jacobian_side_buffers R processor_id x = .ok bJ →
      ∃ bF, Function_side_buffers R processor_id x = .ok bF ∧ bF.1 = bJ.1 ∧
        bJ.2.map JacobianRow.residual_pair = bF.2) ∧
    (∀ bF, Function_edge_buffers R processor_id x = .ok bF →
      ∃ bJ, Jacobian_edge_buffers R processor_id x = .ok bJ ∧ bJ.1 = bF.1 ∧
        bJ.2.map JacobianRow.residual_pair = bF.2) ∧
    (∀ bJ, Jacobian_edge_buffers R processor_id x = .ok bJ →
      ∃ bF, Function_edge_buffers R processor_id x = .ok bF ∧ bF.1 = bJ.1 ∧
        bJ.2.map JacobianRow.residual_pair = bF.2) ∧
    (∀ hn ts P1 P2, side_interpolation R x hn = .ok (ts, P1, P2) →
      Function_side_node R x hn = .ok (ts, Function_constraint R x hn.1 P1 P2) ∧
      Jacobian_side_node R x hn = .ok (ts, Jacobian_constraint R x hn.1 P1 P2)) ∧
    (∀ hn ts P1 P2, Function_edge_interpolation R hn = .ok (ts, P1, P2) ↔
      Jacobian_edge_interpolation R hn = .ok (ts, P1, P2)) ∧
    (∀ hn ts P1 P2, Function_edge_interpolation R hn = .ok (ts, P1, P2) →
      Function_edge_node R x hn = .ok (ts, Function_constraint R x hn.1 P1 P2) ∧
      Jacobian_edge_node R x hn = .ok (ts, Jacobian_constraint R x hn.1 P1 P2)) ∧
    (∀ H P1 P2, (Jacobian_constraint R x H P1 P2).map JacobianRow.residual_pair =
      Function_constraint R x H P1 P2) := by
  refine ⟨?_, ?_, ?_, ?_, ?_, ?_, ?_, ?_⟩
  · exact loop_related (Function_side_node R x) (Jacobian_side_node R x)
      (fun ins rows => rows.map JacobianRow.residual_pair = ins) rfl
      (fun a a' b b' h h' => by simp [h, h']) processor_id
      (fun hn => (side_node_agree R x hn).1) _
  · exact loop_related (Jacobian_side_node R x) (Function_side_node R x)
      (fun rows ins => rows.map JacobianRow.residual_pair = ins) rfl
      (fun a a' b b' h h' => by simp [h, h']) processor_id
      (fun hn => (side_node_agree R x hn).2) _
  · exact loop_related (Function_edge_node R x) (Jacobian_edge_node R x)
      (fun ins rows => rows.map JacobianRow.residual_pair = ins) rfl
      (fun a a' b b' h h' => by simp [h, h']) processor_id
      (fun hn => (edge_node_agree R x hn).1) _
  · exact loop_related (Jacobian_edge_node R x) (Function_edge_node R x)
      (fun rows ins => rows.map JacobianRow.residual_pair = ins) rfl
      (fun a a' b b' h h' => by simp [h, h']) processor_id
      (fun hn => (edge_node_agree R x hn).2) _
  · exact fun hn ts P1 P2 h => side_nodes_of_interpolation R x hn ts P1 P2 h
  · exact fun hn ts P1 P2 => edge_interpolation_agree R hn (ts, P1, P2)
  · intro hn ts P1 P2 h
    exact ⟨(Function_edge_node_eq_ok R x hn _).2 ⟨ts, P1, P2, h, rfl⟩,
      (Jacobian_edge_node_eq_ok R x hn _).2
        ⟨ts, P1, P2, (edge_interpolation_agree R hn _).1 h, rfl⟩⟩
  · exact fun H P1 P2 => constraint_residual_pairs R x H P1 P2

theorem jacobian_agrees_with_residual_witness :
    (∃ bJ, Jacobian_side_buffers demoRegion 0 demoX = .ok bJ ∧
      bJ.1 = (demoSideTransfers, demoSideInserts).1 ∧
      bJ.2.map JacobianRow.residual_pair = (demoSideTransfers, demoSideInserts).2) ∧
    (∃ bF, Function_edge_buffers demoRegion 0 demoX = .ok bF ∧
      bF.1 = (demoEdgeTransfers, demoEdgeRows).1 ∧
      (demoEdgeTransfers, demoEdgeRows).2.map JacobianRow.residual_pair = bF.2) ∧
    (Function_side_node demoRegion demoX demoQuadNode =
        .ok (demoQuadTransfers,
          Function_constraint demoRegion demoX demoQuadNode.1 ⟨0, 2, 2⟩ ⟨0, 6, 6⟩) ∧
      Jacobian_side_node demoRegion demoX demoQuadNode =
        .ok (demoQuadTransfers,
          Jacobian_constraint demoRegion demoX demoQuadNode.1 ⟨0, 2, 2⟩ ⟨0, 6, 6⟩)) :=
  ⟨(jacobian_agrees_with_residual demoRegion 0 demoX).1 _ demo_Function_side_buffers,
   (jacobian_agrees_with_residual demoRegion 0 demoX).2.2.2.1 _ demo_Jacobian_edge_buffers,
   (jacobian_agrees_with_residual demoRegion 0 demoX).2.2.2.2.1 demoQuadNode _ _ _
     demo_side_interpolation⟩

/-- Claim C26.  The constraint Jacobian is exact because the residual is affine.  For all
values `V`, `V1`, `V2` and increments `dH`, `d1`, `d2`: the value part of the dual number
`V - 0.5*(V1+V2)` is the residual `V - 0.5*(V1+V2)`, its derivative components are
`[1, -1/2, -1/2]` at every linearisation point, and
`residual(V+dH, V1+d1, V2+d2) - residual(V, V1, V2) = 1*dH - 0.5*d1 - 0.5*d2`, which is the
sum of the derivative components times the increments, with no remainder.  In the routines:
for every solution array `x` and increment `d` of it, each overwrite value of the residual
contribution at `x + d` is its value at `x` plus `1*d(H) - 0.5*d(P1) - 0.5*d(P2)` at the
offsets of its variable, and each buffered Jacobian row carries `[1, -1/2, -1/2]` whatever `x`
holds. -/
theorem constraint_jacobian_exact (R : MetalSimulationRegion) (x d : ℕ → PetscScalar)
    (H P1 P2 : FVM_Node) (V V1 V2 dH d1 d2 : PetscScalar) :
    (ad_constraint V V1 V2).val = V - 1 / 2 * (V1 + V2) ∧
    (ad_constraint V V1 V2).getADValue = [1, -1 / 2, -1 / 2] ∧
    (ad_constraint (V + dH) (V1 + d1) (V2 + d2)).val - (ad_constraint V V1 V2).val =
      1 * dH - 1 / 2 * d1 - 1 / 2 * d2 ∧
    (ad_constraint (V + dH) (V1 + d1) (V2 + d2)).val - (ad_constraint V V1 V2).val =
      (List.zipWith (· * ·) (ad_constraint V V1 V2).getADValue [dH, d1, d2]).sum ∧
    Function_constraint R (fun i => x i + d i) H P1 P2 =
      (active_offsets R).map (fun off =>
        (H.global_offset + off,
          (x (H.local_offset + off) -
            1 / 2 * (x (P1.local_offset + off) + x (P2.local_offset + off))) +
          (1 * d (H.local_offset + off) - 1 / 2 * d (P1.local_offset + off) -
            1 / 2 * d (P2.local_offset + off)))) ∧
    (Jacobian_constraint R x H P1 P2).map (fun jr => jr.ad_value.getADValue) =
      (active_offsets R).map (fun _ => [1, -1 / 2, -1 / 2]) ∧
    (Jacobian_constraint R x H P1 P2).map JacobianRow.residual_pair =
      Function_constraint R x H P1 P2 := by
  refine ⟨?_, ?_, ?_, ?_, ?_, ?_, constraint_residual_pairs R x H P1 P2⟩
  · rw [ad_constraint_eq]
  · rw [ad_constraint_eq]; rfl
  · rw [ad_constraint_eq, ad_constraint_eq]; ring
  · rw [ad_constraint_eq, ad_constraint_eq]
    simp [AutoDScalar.getADValue]
    ring
  · rw [Function_constraint_eq]
    apply List.map_congr_left
    intro off _
    simp only [Prod.mk.injEq, true_and]
    ring
  · rw [Jacobian_constraint_eq]
    simp [AutoDScalar.getADValue, Function.comp_def]

/-- Claim C27.  `HallSolver::node_dofs` gives 3 unknowns to a node of a semiconductor region,
1 to a node of an insulator, electrode or metal region and 0 to a node of any other region
type; hence a node of any region that is not a semiconductor carries strictly fewer unknowns
than a node of a semiconductor region. -/
theorem node_dofs_by_region_type :
    HallSolver.node_dofs .SemiconductorRegion = 3 ∧
    HallSolver.node_dofs .InsulatorRegion = 1 ∧
    HallSolver.node_dofs .ElectrodeRegion = 1 ∧
    HallSolver.node_dofs .MetalRegion = 1 ∧
    (∀ v, HallSolver.node_dofs (.other v) = 0) ∧
    (∀ t, t ≠ SimulationRegionType.SemiconductorRegion →
      HallSolver.node_dofs t < HallSolver.node_dofs .SemiconductorRegion) := by
  refine ⟨rfl, rfl, rfl, rfl, fun _ => rfl, ?_⟩
  intro t ht
  cases t <;> simp [HallSolver.node_dofs] at ht ⊢

theorem node_dofs_by_region_type_witness :
    HallSolver.node_dofs .MetalRegion < HallSolver.node_dofs .SemiconductorRegion ∧
    HallSolver.node_dofs (.other 7) < HallSolver.node_dofs .SemiconductorRegion :=
  ⟨node_dofs_by_region_type.2.2.2.2.2 .MetalRegion (by decide),
   node_dofs_by_region_type.2.2.2.2.2 (.other 7) (by decide)⟩

/-- Claim C28.  The bandwidth of a boundary condition matches its extra unknowns.  For every
boundary condition `bc` for which `inter_connect().size()+1` does not wrap in `unsigned int`
when `bc` is an inter-connect: `HallSolver::bc_dofs(bc)` is 0 or 1,
`HallSolver::bc_bandwidth(bc)` is nonzero exactly when `bc_dofs(bc)` is 1 and zero exactly
when `bc_dofs(bc)` is 0; the bandwidth is 2 for Ohmic, Schottky, simple-gate, gate and
solder-pad contacts, 1 for a charged contact, the number of inter-connected members plus 1
for an inter-connect, and 0 with no extra unknown for any other type. -/
theorem bc_bandwidth_matches_bc_dofs (bc : BoundaryCondition)
    (hwrap : bc.bc_type = .InterConnect → bc.inter_connect_size + 1 < 2 ^ 32) :
    (HallSolver.bc_dofs bc = 0 ∨ HallSolver.bc_dofs bc = 1) ∧
    (HallSolver.bc_bandwidth bc ≠ 0 ↔ HallSolver.bc_dofs bc = 1) ∧
    (HallSolver.bc_bandwidth bc = 0 ↔ HallSolver.bc_dofs bc = 0) ∧
    (bc.bc_type = .OhmicContact ∨ bc.bc_type = .SchottkyContact ∨
      bc.bc_type = .SimpleGateContact ∨ bc.bc_type = .GateContact ∨
      bc.bc_type = .SolderPad → HallSolver.bc_bandwidth bc = 2) ∧
    (bc.bc_type = .ChargedContact → HallSolver.bc_bandwidth bc = 1) ∧
    (bc.bc_type = .InterConnect → HallSolver.bc_bandwidth bc = bc.inter_connect_size + 1) ∧
    (∀ v, bc.bc_type = .other v →
      HallSolver.bc_bandwidth bc = 0 ∧ HallSolver.bc_dofs bc = 0) := by
  obtain ⟨ty, n⟩ := bc
  cases ty <;> simp [HallSolver.bc_dofs, HallSolver.bc_bandwidth] at hwrap ⊢
  omega

theorem bc_bandwidth_matches_bc_dofs_witness :
    (HallSolver.bc_dofs ⟨.InterConnect, 3⟩ = 0 ∨ HallSolver.bc_dofs ⟨.InterConnect, 3⟩ = 1) ∧
    (HallSolver.bc_bandwidth ⟨.InterConnect, 3⟩ ≠ 0 ↔
      HallSolver.bc_dofs ⟨.InterConnect, 3⟩ = 1) ∧
    HallSolver.bc_bandwidth ⟨.InterConnect, 3⟩ = 3 + 1 :=
  ⟨(bc_bandwidth_matches_bc_dofs ⟨.InterConnect, 3⟩ (fun _ => by decide)).1,
   (bc_bandwidth_matches_bc_dofs ⟨.InterConnect, 3⟩ (fun _ => by decide)).2.1,
   (bc_bandwidth_matches_bc_dofs ⟨.InterConnect, 3⟩ (fun _ => by decide)).2.2.2.2.2.1 rfl⟩

/-- Claim C29.  The side and edge proxies map their nodes through the parent.  For every side
proxy (in particular the one built on side `k` of an element) and every local index
`i < n_nodes`, the accessors `get_node(i)`, `node(i)` and `point(i)` return and give the
parent's `get_node`, `node` and `point` at one and the same parent index
`side_nodes_map[k][i]`; for every edge proxy the same holds with the parent index
`edge_nodes_map[e][i]`; for an index `i` that is not below `n_nodes` all three accessors stop
at their assertion. -/
theorem proxy_accessors_through_parent (e : Elem) (k i : ℕ) :
    (∀ s : Side, i < s.n_nodes →
      ∃ j, j = s.parent.side_nodes_map s.side_number i ∧
        s.get_node i = .ok (s.parent.get_node j) ∧ s.node i = .ok (s.parent.node j) ∧
        s.point i = .ok (s.parent.point j)) ∧
    (∀ s : SideEdge, i < s.n_nodes →
      ∃ j, j = s.parent.edge_nodes_map s.edge_number i ∧
        s.get_node i = .ok (s.parent.get_node j) ∧ s.node i = .ok (s.parent.node j) ∧
        s.point i = .ok (s.parent.point j)) ∧
    (i < e.side_n_nodes k →
      (e.build_side k).get_node i = .ok (e.get_node (e.side_nodes_map k i)) ∧
      (e.build_side k).node i = .ok (e.node (e.side_nodes_map k i)) ∧
      (e.build_side k).point i = .ok (e.point (e.side_nodes_map k i))) ∧
    (i < e.edge_n_nodes k →
      (e.build_edge k).get_node i = .ok (e.get_node (e.edge_nodes_map k i)) ∧
      (e.build_edge k).node i = .ok (e.node (e.edge_nodes_map k i)) ∧
      (e.build_edge k).point i = .ok (e.point (e.edge_nodes_map k i))) ∧
    (∀ s : Side, ¬ i < s.n_nodes →
      s.get_node i = .error Fault.assertion ∧ s.node i = .error Fault.assertion ∧
      s.point i = .error Fault.assertion) ∧
    (∀ s : SideEdge, ¬ i < s.n_nodes →
      s.get_node i = .error Fault.assertion ∧ s.node i = .error Fault.assertion ∧
      s.point i = .error Fault.assertion) := by
  refine ⟨?_, ?_, ?_, ?_, ?_, ?_⟩
  · intro s h
    exact ⟨_, rfl, by simp [Side.get_node, h], by simp [Side.node, h], by simp [Side.point, h]⟩
  · intro s h
    exact ⟨_, rfl, by simp [SideEdge.get_node, h], by simp [SideEdge.node, h],
      by simp [SideEdge.point, h]⟩
  · intro h
    simp [Elem.build_side, Side.get_node, Side.node, Side.point, h]
  · intro h
    simp [Elem.build_edge, SideEdge.get_node, SideEdge.node, SideEdge.point, h]
  · intro s h
    simp [Side.get_node, Side.node, Side.point, h]
  · intro s h
    simp [SideEdge.get_node, SideEdge.node, SideEdge.point, h]

theorem proxy_accessors_through_parent_witness :
    ((demoElem.build_side 0).get_node 2 = .ok (demoElem.get_node 3) ∧
      (demoElem.build_side 0).node 2 = .ok (demoElem.node 3) ∧
      (demoElem.build_side 0).point 2 = .ok (demoElem.point 3)) ∧
    ((demoElem.build_edge 1).get_node 1 = .ok (demoElem.get_node 4) ∧
      (demoElem.build_edge 1).node 1 = .ok (demoElem.node 4) ∧
      (demoElem.build_edge 1).point 1 = .ok (demoElem.point 4)) ∧
    ((demoElem.build_side 1).get_node 2 = .error Fault.assertion ∧
      (demoElem.build_side 1).node 2 = .error Fault.assertion ∧
      (demoElem.build_side 1).point 2 = .error Fault.assertion) :=
  ⟨(proxy_accessors_through_parent demoElem 0 2).2.2.1 (by decide),
   (proxy_accessors_through_parent demoElem 1 1).2.2.2.1 (by decide),
   (proxy_accessors_through_parent demoElem 1 2).2.2.2.2.1 (demoElem.build_side 1)
     (by decide)⟩

/-- Claim C30.  Tie-break of the diagonal selection.  For a side-center hanging node whose
side has the 4 corner nodes `[n0, n1, n2, n3]`, with `v_i` the entry of the solution array that
the selection reads for corner `i`, namely `x[local_offset(n_i)]`: whenever `|v0-v2|` is not
strictly smaller than `|v1-v3|`, in particular when the two differences are equal, and so when
the four values are all equal, the residual and the Jacobian contribution both take `n1`, `n3`
as supports. -/
theorem diagonal_tie_break (R : MetalSimulationRegion) (x : ℕ → PetscScalar)
    (hn : HangingNode) (n0 n1 n2 n3 : FVM_Node)
    (h4 : hn.2.1.side_n_nodes hn.2.2 = 4)
    (h0 : R.region_fvm_node (hn.2.1.side_corner hn.2.2 0) = some n0)
    (h1 : R.region_fvm_node (hn.2.1.side_corner hn.2.2 1) = some n1)
    (h2 : R.region_fvm_node (hn.2.1.side_corner hn.2.2 2) = some n2)
    (h3 : R.region_fvm_node (hn.2.1.side_corner hn.2.2 3) = some n3) :
    (|x n0.local_offset - x n2.local_offset| = |x n1.local_offset - x n3.local_offset| →
      ∃ ts, side_interpolation R x hn = .ok (ts, n1, n3) ∧
        Function_side_node R x hn = .ok (ts, Function_constraint R x hn.1 n1 n3) ∧
        Jacobian_side_node R x hn = .ok (ts, Jacobian_constraint R x hn.1 n1 n3)) ∧
    (x n0.local_offset = x n1.local_offset → x n1.local_offset = x n2.local_offset →
      x n2.local_offset = x n3.local_offset →
      ∃ ts, side_interpolation R x hn = .ok (ts, n1, n3) ∧
        Function_side_node R x hn = .ok (ts, Function_constraint R x hn.1 n1 n3) ∧
        Jacobian_side_node R x hn = .ok (ts, Jacobian_constraint R x hn.1 n1 n3)) ∧
    (¬ |x n0.local_offset - x n2.local_offset| < |x n1.local_offset - x n3.local_offset| →
      ∃ ts, side_interpolation R x hn = .ok (ts, n1, n3) ∧
        Function_side_node R x hn = .ok (ts, Function_constraint R x hn.1 n1 n3) ∧
        Jacobian_side_node R x hn = .ok (ts, Jacobian_constraint R x hn.1 n1 n3)) := by
  have hside := side_interpolation_of_corners R x hn [n0, n1, n2, n3]
    (four_corners R hn n0 n1 n2 n3 h4 h0 h1 h2 h3)
  have hge : ¬ |x n0.local_offset - x n2.local_offset| <
      |x n1.local_offset - x n3.local_offset| →
      ∃ ts, side_interpolation R x hn = .ok (ts, n1, n3) ∧
        Function_side_node R x hn = .ok (ts, Function_constraint R x hn.1 n1 n3) ∧
        Jacobian_side_node R x hn = .ok (ts, Jacobian_constraint R x hn.1 n1 n3) := by
    intro hnlt
    have h : side_interpolation R x hn = .ok ([n0, n1, n2, n3].flatMap
        (fun c => corner_transfers R hn.1 c (hn.2.1.side_n_nodes hn.2.2)), n1, n3) := by
      rw [hside]; simp [interpolation_points, hnlt, Except.map]
    exact ⟨_, h, side_nodes_of_interpolation R x hn _ n1 n3 h⟩
  refine ⟨fun htie => hge (by rw [htie]; exact lt_irrefl _), ?_, hge⟩
  intro e01 e12 e23
  apply hge
  rw [e01, e12, e23]
  simp

theorem diagonal_tie_break_witness :
    (∃ ts, side_interpolation demoRegion tieX demoQuadNode = .ok (ts, ⟨0, 4, 4⟩, ⟨0, 8, 8⟩) ∧
      Function_side_node demoRegion tieX demoQuadNode =
        .ok (ts, Function_constraint demoRegion tieX demoQuadNode.1 ⟨0, 4, 4⟩ ⟨0, 8, 8⟩) ∧
      Jacobian_side_node demoRegion tieX demoQuadNode =
        .ok (ts, Jacobian_constraint demoRegion tieX demoQuadNode.1 ⟨0, 4, 4⟩ ⟨0, 8, 8⟩)) ∧
    (∃ ts, side_interpolation demoRegion (fun _ => 3) demoQuadNode =
        .ok (ts, ⟨0, 4, 4⟩, ⟨0, 8, 8⟩) ∧
      Function_side_node demoRegion (fun _ => 3) demoQuadNode =
        .ok (ts, Function_constraint demoRegion (fun _ => 3) demoQuadNode.1 ⟨0, 4, 4⟩
          ⟨0, 8, 8⟩) ∧
      Jacobian_side_node demoRegion (fun _ => 3) demoQuadNode =
        .ok (ts, Jacobian_constraint demoRegion (fun _ => 3) demoQuadNode.1 ⟨0, 4, 4⟩
          ⟨0, 8, 8⟩)) :=
  ⟨(diagonal_tie_break demoRegion tieX demoQuadNode ⟨0, 2, 2⟩ ⟨0, 4, 4⟩ ⟨0, 6, 6⟩ ⟨0, 8, 8⟩
      rfl rfl rfl rfl rfl).1 (by simp [tieX]; norm_num),
   (diagonal_tie_break demoRegion (fun _ => 3) demoQuadNode ⟨0, 2, 2⟩ ⟨0, 4, 4⟩ ⟨0, 6, 6⟩
      ⟨0, 8, 8⟩ rfl rfl rfl rfl rfl).2.1 rfl rfl rfl⟩

/-- Claim C31.  The temperature shares the supports of the potential, and what the selection
reads.  With the lattice temperature enabled, the residual and the Jacobian side loop form the
temperature constraint of a hanging node with the very supports `P1`, `P2` that they use for
its potential constraint.  The selection of the supports reads the solution array at the
entries `x[local_offset(n_i)]` of the corners only: two arrays that agree there give the same
supports.  These entries are taken without a variable offset; on `coldRegion`, where the
temperature has offset 0, they are the temperatures of the corners: `warmX` differs from
`coldX` in the temperature of corner `n1` alone, the potentials of the corners being
`0, 10, 0, 0` in both, and the supports change from `n1, n3` to `n0, n2`, the overwrite value
of the potential row from `-5` to `0`. -/
theorem temperature_shares_potential_supports (R : MetalSimulationRegion)
    (x : ℕ → PetscScalar) (hn : HangingNode) :
    (∀ ts P1 P2, side_interpolation R x hn = .ok (ts, P1, P2) → R.enable_Tl = true →
      Function_side_node R x hn = .ok (ts,
        [(hn.1.global_offset + R.ebm_variable_offset .POTENTIAL,
            x (hn.1.local_offset + R.ebm_variable_offset .POTENTIAL) -
              1 / 2 * (x (P1.local_offset + R.ebm_variable_offset .POTENTIAL) +
                x (P2.local_offset + R.ebm_variable_offset .POTENTIAL))),
          (hn.1.global_offset + R.ebm_variable_offset .TEMPERATURE,
            x (hn.1.local_offset + R.ebm_variable_offset .TEMPERATURE) -
              1 / 2 * (x (P1.local_offset + R.ebm_variable_offset .TEMPERATURE) +
                x (P2.local_offset + R.ebm_variable_offset .TEMPERATURE)))]) ∧
      Jacobian_side_node R x hn = .ok (ts,
        [⟨hn.1.global_offset + R.ebm_variable_offset .POTENTIAL,
            [hn.1.global_offset + R.ebm_variable_offset .POTENTIAL,
              P1.global_offset + R.ebm_variable_offset .POTENTIAL,
              P2.global_offset + R.ebm_variable_offset .POTENTIAL],
            ⟨x (hn.1.local_offset + R.ebm_variable_offset .POTENTIAL) -
              1 / 2 * (x (P1.local_offset + R.ebm_variable_offset .POTENTIAL) +
                x (P2.local_offset + R.ebm_variable_offset .POTENTIAL)),
              [1, -1 / 2, -1 / 2]⟩⟩,
          ⟨hn.1.global_offset + R.ebm_variable_offset .TEMPERATURE,
            [hn.1.global_offset + R.ebm_variable_offset .TEMPERATURE,
              P1.global_offset + R.ebm_variable_offset .TEMPERATURE,
              P2.global_offset + R.ebm_variable_offset .TEMPERATURE],
            ⟨x (hn.1.local_offset + R.ebm_variable_offset .TEMPERATURE) -
              1 / 2 * (x (P1.local_offset + R.ebm_variable_offset .TEMPERATURE) +
                x (P2.local_offset + R.ebm_variable_offset .TEMPERATURE)),
              [1, -1 / 2, -1 / 2]⟩⟩])) ∧
    (∀ x' : ℕ → PetscScalar,
      (∀ i < hn.2.1.side_n_nodes hn.2.2, ∀ q,
        R.region_fvm_node (hn.2.1.side_corner hn.2.2 i) = some q →
        x' q.local_offset = x q.local_offset) →
      side_interpolation R x' hn = side_interpolation R x hn) ∧
    ((∀ i, i ≠ (⟨0, 4, 4⟩ : FVM_Node).local_offset + coldRegion.ebm_variable_offset .TEMPERATURE →
        warmX i = coldX i) ∧
      side_interpolation coldRegion coldX demoQuadNode =
        .ok (coldTransfers, ⟨0, 4, 4⟩, ⟨0, 8, 8⟩) ∧
      side_interpolation coldRegion warmX demoQuadNode =
        .ok (coldTransfers, ⟨0, 2, 2⟩, ⟨0, 6, 6⟩) ∧
      Function_side_buffers coldRegion 0 coldX = .ok (coldTransfers, [(21, -5), (20, 0)]) ∧
      Function_side_buffers coldRegion 0 warmX = .ok (coldTransfers, [(21, 0), (20, 0)]) ∧
      Jacobian_side_buffers coldRegion 0 coldX = .ok (coldTransfers,
        [⟨21, [21, 5, 9], ⟨-5, [1, -1/2, -1/2]⟩⟩, ⟨20, [20, 4, 8], ⟨0, [1, -1/2, -1/2]⟩⟩]) ∧
      Jacobian_side_buffers coldRegion 0 warmX = .ok (coldTransfers,
        [⟨21, [21, 3, 7], ⟨0, [1, -1/2, -1/2]⟩⟩, ⟨20, [20, 2, 6], ⟨0, [1, -1/2, -1/2]⟩⟩])) := by
  refine ⟨?_, fun x' h => side_interpolation_congr R hn x x' h, ?_, ?_, ?_, ?_, ?_, ?_, ?_⟩
  · intro ts P1 P2 hi hTl
    obtain ⟨hF, hJ⟩ := side_nodes_of_interpolation R x hn ts P1 P2 hi
    refine ⟨?_, ?_⟩
    · rw [hF]; simp [Function_constraint, hTl]
    · rw [hJ]; simp [Jacobian_constraint, hTl, ad_constraint_eq]
  · intro i hi
    have hi4 : i ≠ 4 := hi
    by_cases h5 : i = 5 <;> simp [warmX, coldX, h5, hi4]
  · simp [coldRegion, demoQuadNode, side_interpolation, side_loop, demoElem, Elem.build_side,
      Side.get_node, deref, corner_transfers, interpolation_points, coldX, bind, Except.bind,
      coldTransfers]
  · simp [coldRegion, demoQuadNode, side_interpolation, side_loop, demoElem, Elem.build_side,
      Side.get_node, deref, corner_transfers, interpolation_points, warmX, bind, Except.bind,
      coldTransfers]
  · simp [Function_side_buffers, hanging_node_loop, coldRegion, demoQuadNode,
      Function_side_node, side_interpolation, side_loop, demoElem, Elem.build_side,
      Side.get_node, deref, corner_transfers, interpolation_points, Function_constraint, coldX,
      bind, Except.bind, coldTransfers]
    norm_num
  · simp [Function_side_buffers, hanging_node_loop, coldRegion, demoQuadNode,
      Function_side_node, side_interpolation, side_loop, demoElem, Elem.build_side,
      Side.get_node, deref, corner_transfers, interpolation_points, Function_constraint, warmX,
      bind, Except.bind, coldTransfers]
  · simp [Jacobian_side_buffers, hanging_node_loop, coldRegion, demoQuadNode,
      Jacobian_side_node, side_interpolation, side_loop, demoElem, Elem.build_side,
      Side.get_node, deref, corner_transfers, interpolation_points, Jacobian_constraint,
      ad_constraint_eq, coldX, bind, Except.bind, coldTransfers]
    norm_num
  · simp [Jacobian_side_buffers, hanging_node_loop, coldRegion, demoQuadNode,
      Jacobian_side_node, side_interpolation, side_loop, demoElem, Elem.build_side,
      Side.get_node, deref, corner_transfers, interpolation_points, Jacobian_constraint,
      ad_constraint_eq, warmX, bind, Except.bind, coldTransfers]

theorem temperature_shares_potential_supports_witness :
    Function_side_node demoRegion demoX demoQuadNode = .ok (demoQuadTransfers,
      [(20 + 0, demoX (20 + 0) - 1 / 2 * (demoX (2 + 0) + demoX (6 + 0))),
        (20 + 1, demoX (20 + 1) - 1 / 2 * (demoX (2 + 1) + demoX (6 + 1)))]) ∧
    side_interpolation demoRegion (Function.update demoX 3 99) demoQuadNode =
      side_interpolation demoRegion demoX demoQuadNode :=
  ⟨((temperature_shares_potential_supports demoRegion demoX demoQuadNode).1 _ _ _
      demo_side_interpolation rfl).1,
   (temperature_shares_potential_supports demoRegion demoX demoQuadNode).2.1
      (Function.update demoX 3 99) (by
        intro i hi q hq
        have hi4 : i < 4 := hi
        interval_cases i <;>
          simp [demoRegion, demoQuadNode, demoElem, Elem.side_corner] at hq <;>
          subst hq <;> simp [Function.update])⟩

/-- Claim C32.  A hanging node of another processor never causes an abort.  When every
side-center and every edge-center hanging node owned by the local processor is well formed
(a side of 2 or 4 corner nodes that are all found, an edge whose nodes 0 and 1 are found),
the residual and the Jacobian contribution return, whatever the entries of other processors
are: corner counts other than 2 or 4 and failed corner lookups of such entries included.  The
loops skip such an entry before its side or edge is built: each loop gives the same result
with every such entry removed from the map, and the same result when the body of the loop is
replaced, on the entries of other processors, by one that always aborts. -/
theorem foreign_hanging_nodes_are_skipped (R : MetalSimulationRegion) (processor_id : ℕ)
    (x : ℕ → PetscScalar) (f : Vec) (jac : Mat) (add_value_flag : InsertMode)
    (hside : side_entries_regular R processor_id)
    (hedge : edge_entries_regular R processor_id) :
    (∃ r, EBM3_Function_Hanging_Node R processor_id x f add_value_flag = .ok r) ∧
    (∃ r, EBM3_Jacobian_Hanging_Node R processor_id x jac add_value_flag = .ok r) ∧
    (Function_side_buffers R processor_id x =
        hanging_node_loop (Function_side_node R x) processor_id
          (R.hanging_node_on_elem_side.filter (owned processor_id)) ∧
      Function_edge_buffers R processor_id x =
        hanging_node_loop (Function_edge_node R x) processor_id
          (R.hanging_node_on_elem_edge.filter (owned processor_id)) ∧
      Jacobian_side_buffers R processor_id x =
        hanging_node_loop (Jacobian_side_node R x) processor_id
          (R.hanging_node_on_elem_side.filter (owned processor_id)) ∧
      Jacobian_edge_buffers R processor_id x =
        hanging_node_loop (Jacobian_edge_node R x) processor_id
          (R.hanging_node_on_elem_edge.filter (owned processor_id))) ∧
    (Function_side_buffers R processor_id x =
        hanging_node_loop (fun hn => if hn.1.processor_id = processor_id
          then Function_side_node R x hn else .error Fault.genius_error) processor_id
          R.hanging_node_on_elem_side ∧
      Function_edge_buffers R processor_id x =
        hanging_node_loop (fun hn => if hn.1.processor_id = processor_id
          then Function_edge_node R x hn else .error Fault.genius_error) processor_id
          R.hanging_node_on_elem_edge ∧
      Jacobian_side_buffers R processor_id x =
        hanging_node_loop (fun hn => if hn.1.processor_id = processor_id
          then Jacobian_side_node R x hn else .error Fault.genius_error) processor_id
          R.hanging_node_on_elem_side ∧
      Jacobian_edge_buffers R processor_id x =
        hanging_node_loop (fun hn => if hn.1.processor_id = processor_id
          then Jacobian_edge_node R x hn else .error Fault.genius_error) processor_id
          R.hanging_node_on_elem_edge) := by
  obtain ⟨⟨s, hs⟩, ⟨sj, hsj⟩⟩ := side_buffers_complete R processor_id x hside
  obtain ⟨⟨e, he⟩, ⟨ej, hej⟩⟩ := edge_buffers_complete R processor_id x hedge
  refine ⟨?_, ?_, ⟨hanging_node_loop_filter _ _ _, hanging_node_loop_filter _ _ _,
    hanging_node_loop_filter _ _ _, hanging_node_loop_filter _ _ _⟩,
    ⟨hanging_node_loop_congr _ _ _ _ (fun hn _ ho => by simp [ho]),
      hanging_node_loop_congr _ _ _ _ (fun hn _ ho => by simp [ho]),
      hanging_node_loop_congr _ _ _ _ (fun hn _ ho => by simp [ho]),
      hanging_node_loop_congr _ _ _ _ (fun hn _ ho => by simp [ho])⟩⟩
  · by_cases hflag : (!R.has_2d_hanging_node && !R.has_3d_hanging_node) = true
    · exact ⟨(f, add_value_flag), by simp [EBM3_Function_Hanging_Node, hflag]⟩
    · have hhang : R.has_2d_hanging_node = true ∨ R.has_3d_hanging_node = true := by
        cases h2 : R.has_2d_hanging_node <;> cases h3 : R.has_3d_hanging_node <;>
          simp [h2, h3] at hflag ⊢
      exact ⟨_, (EBM3_Function_eq_ok R processor_id x f add_value_flag hhang _).2
        ⟨s, e, hs, he, rfl⟩⟩
  · by_cases hflag : (!R.has_2d_hanging_node && !R.has_3d_hanging_node) = true
    · exact ⟨(jac, add_value_flag), by simp [EBM3_Jacobian_Hanging_Node, hflag]⟩
    · have hhang : R.has_2d_hanging_node = true ∨ R.has_3d_hanging_node = true := by
        cases h2 : R.has_2d_hanging_node <;> cases h3 : R.has_3d_hanging_node <;>
          simp [h2, h3] at hflag ⊢
      exact ⟨_, (EBM3_Jacobian_eq_ok R processor_id x jac add_value_flag hhang _).2
        ⟨sj, ej, hsj, hej, rfl⟩⟩

theorem foreign_hanging_nodes_are_skipped_witness :
    (∃ hn ∈ demoRegion.hanging_node_on_elem_side, hn.1.processor_id ≠ 0 ∧
      hn.2.1.side_n_nodes hn.2.2 = 3 ∧
      demoRegion.region_fvm_node (hn.2.1.side_corner hn.2.2 0) = none ∧
      Function_side_node demoRegion demoX hn = .error Fault.null_dereference ∧
      Jacobian_side_node demoRegion demoX hn = .error Fault.null_dereference) ∧
    (∃ r, EBM3_Function_Hanging_Node demoRegion 0 demoX demoVec .ADD_VALUES = .ok r) ∧
    (∃ r, EBM3_Jacobian_Hanging_Node demoRegion 0 demoX demoMat .ADD_VALUES = .ok r) :=
  ⟨⟨(⟨1, 30, 30⟩, demoElem, 2), by simp [demoRegion], by decide, rfl, rfl,
      demo_foreign_side_node.1, demo_foreign_side_node.2⟩,
   (foreign_hanging_nodes_are_skipped demoRegion 0 demoX demoVec demoMat .ADD_VALUES
      demo_side_entries_regular demo_edge_entries_regular).1,
   (foreign_hanging_nodes_are_skipped demoRegion 0 demoX demoVec demoMat .ADD_VALUES
      demo_side_entries_regular demo_edge_entries_regular).2.1⟩

/-- Claim C33.  Fixed-width string output of the compatibility `OStringStream`.  For every
stream, every width `w` (a value of `sizetype`) and every string `s` of at most `w`
characters, `left(w, s)` appends `s` followed by exactly `w - |s|` blanks and `right(w, s)`
appends exactly `w - |s|` blanks followed by `s`, so that each call appends exactly `w`
characters; `print_ws(n, c)` appends exactly `n` copies of `c`. -/
theorem fixed_width_string_output (o : OStringStream) (w : ℕ) (s : String) (n : ℕ) (c : Char)
    (hw : w < 2 ^ 64) (hs : s.length ≤ w) :
    (o.left w s).str = o.str ++ s ++ String.mk (List.replicate (w - s.length) whitespace) ∧
    (o.right w s).str = o.str ++ String.mk (List.replicate (w - s.length) whitespace) ++ s ∧
    (o.left w s).str.length = o.str.length + w ∧
    (o.right w s).str.length = o.str.length + w ∧
    (o.print_ws n c).str = o.str ++ String.mk (List.replicate n c) ∧
    (o.print_ws n c).str.length = o.str.length + n := by
  have hl : (o.left w s).str =
      o.str ++ s ++ String.mk (List.replicate (w - s.length) whitespace) := by
    rw [OStringStream.left, print_ws_str, sizetype_sub_of_le w s.length hw hs]
    rfl
  have hr : (o.right w s).str =
      o.str ++ String.mk (List.replicate (w - s.length) whitespace) ++ s := by
    rw [OStringStream.right, OStringStream.write, print_ws_str,
      sizetype_sub_of_le w s.length hw hs]
  refine ⟨hl, hr, ?_, ?_, print_ws_str n c o, ?_⟩
  · rw [hl]
    simp only [String.length_append, String.length_mk, List.length_replicate]
    omega
  · rw [hr]
    simp only [String.length_append, String.length_mk, List.length_replicate]
    omega
  · rw [print_ws_str]
    simp only [String.length_append, String.length_mk, List.length_replicate]

theorem fixed_width_string_output_witness :
    (OStringStream.left ⟨"x="⟩ 5 "ab").str = "x=ab   " ∧
    (OStringStream.right ⟨"x="⟩ 5 "ab").str = "x=   ab" ∧
    (OStringStream.left ⟨"x="⟩ 5 "ab").str.length = 2 + 5 ∧
    (OStringStream.print_ws 3 (Char.ofNat 42) ⟨"x="⟩).str = "x=***" := by
  have h := fixed_width_string_output ⟨"x="⟩ 5 "ab" 3 (Char.ofNat 42) (by norm_num) (by decide)
  exact ⟨by rw [h.1]; decide, by rw [h.2.1]; decide, h.2.2.1, by rw [h.2.2.2.2.1]; decide⟩

end Genius
